import Mathlib

/-!
Shallow embedding of the C++ limit order book engine
(`src/OrderBook.cpp`, `src/PriceLevel.cpp`, headers `Order.h`, `PriceLevel.h`,
`Trade.h`, `OrderBook.h`, `Helpers.h`, `IClient.h`).

Modelling conventions:
* `uint64_t` becomes `Nat`.  All arithmetic performed by the engine on the
  non-underflow / non-overflow domain coincides with `Nat` arithmetic; the
  theorems below carry well-formedness hypotheses that keep every subtraction
  on that domain, so no explicit `% 2^64` is needed.
* The C++ heap of `Order` objects is modelled by the association list
  `order_map` (the engine's `order_map_` holds a pointer to every live resting
  order, and those are exactly the orders the code ever dereferences through a
  price level queue).  A `PriceLevel`'s `order_queue_` of pointers becomes a
  FIFO list of order ids; dereferencing a queued pointer becomes `mapLookup`.
* `Order::parent_price_level` (a raw pointer) is modelled as
  `Option Nat` holding the owning level's price; a level inside a side book is
  uniquely identified by its side and its price key.
* `std::map<uint64_t, PriceLevel, greater>` (bids) and `...less` (asks) are
  modelled as association lists kept sorted by key, descending for bids and
  ascending for asks, so that `begin()` is the head of the list.
* `Helpers::GenerateExecutionId()` is a process-global atomic counter; it is
  modelled by the `next_execution_id` field threaded through the book state.
* `Helpers::GetTimeStamp()` (wall clock) is modelled by an explicit `now`
  argument on the entry points that call it.
* A C++ `throw` escaping a command is modelled by the `Outcome` tag of the
  command's result: `rejected` for the validation throws (which are preceded
  by an `OrderRejected` notification and happen before any mutation), `error`
  for the internal `PriceLevel` exceptions that are unreachable from
  well-formed states.
-/

namespace OB

/-- `struct Order` (Order.h): identity fields plus the mutable remaining
quantity and the price-level back-link.  `position_in_list` (an iterator used
only as an O(1) shortcut into the same queue) is not represented: a queue is a
list of ids and removal is by id. -/
structure Order where
  order_id : Nat
  user_id : Nat
  is_buy_side : Bool
  quantity : Nat
  price : Nat
  ts_received : Nat
  ts_executed : Nat
  parent_price_level : Option Nat
  deriving Repr, DecidableEq

/-- `struct Trade` (Trade.h). -/
structure Trade where
  execution_id : Nat
  aggressor_order_id : Nat
  resting_order_id : Nat
  aggressor_user_id : Nat
  resting_user_id : Nat
  price : Nat
  quantity : Nat
  ts_received : Nat
  ts_executed : Nat
  deriving Repr, DecidableEq

/-- `class PriceLevel` (PriceLevel.h): price, denormalized total volume and
the FIFO queue of resting order ids (front = head of the C++ `std::list`). -/
structure PriceLevel where
  price : Nat
  total_volume : Nat
  order_queue : List Nat
  deriving Repr, DecidableEq

/-- The observer notifications of `IClient.h`, as emitted by the engine's
`Notify*` methods. -/
inductive Event where
  | tradeExecuted (t : Trade)
  | orderAcknowledged (order_id : Nat)
  | orderCancelled (order_id : Nat)
  | orderModified (order_id new_quantity new_price : Nat)
  | orderRejected (order_id : Nat) (reason : String)
  | topOfBookUpdate (best_bid best_ask bid_volume ask_volume : Nat)
  deriving Repr, DecidableEq

/-- How a command run ended: `ok` (normal return), `rejected` (one of the
validation `throw`s, preceded by an `OrderRejected` notification and issued
before any state mutation), `error` (an internal exception from `PriceLevel`,
unreachable from well-formed states). -/
inductive Outcome where
  | ok
  | rejected
  | error
  deriving Repr, DecidableEq

/-- The engine state: `order_map_` (which doubles as the heap of live resting
orders), the two side books, and the (process-global) execution id counter of
`Helpers`. -/
structure Book where
  order_map : List (Nat × Order)
  bids : List (Nat × PriceLevel)
  asks : List (Nat × PriceLevel)
  next_execution_id : Nat
  deriving Repr, DecidableEq

/-- Result of one command: the state afterwards, the notifications emitted in
order, and how the command ended. -/
structure CmdOut where
  book : Book
  events : List Event
  outcome : Outcome
  deriving Repr, DecidableEq

/-- `unordered_map::find`. -/
def mapLookup (m : List (Nat × Order)) (k : Nat) : Option Order :=
  match m with
  | [] => none
  | (i, o) :: rest => if i = k then some o else mapLookup rest k

/-- `unordered_map::erase` by key (keys are unique in every reachable map). -/
def mapErase (m : List (Nat × Order)) (k : Nat) : List (Nat × Order) :=
  match m with
  | [] => []
  | (i, o) :: rest => if i = k then rest else (i, o) :: mapErase rest k

/-- `order_map_[id] = order` (update the entry if present, append otherwise). -/
def mapAssign (m : List (Nat × Order)) (k : Nat) (v : Order) : List (Nat × Order) :=
  match m with
  | [] => [(k, v)]
  | (i, o) :: rest => if i = k then (k, v) :: rest else (i, o) :: mapAssign rest k v

/-- `std::map::find` on a side book. -/
def levelLookup (ls : List (Nat × PriceLevel)) (k : Nat) : Option PriceLevel :=
  match ls with
  | [] => none
  | (p, l) :: rest => if p = k then some l else levelLookup rest k

/-- Replace the level stored at key `k` (used where C++ mutates the mapped
`PriceLevel` in place). -/
def levelReplace (ls : List (Nat × PriceLevel)) (k : Nat) (v : PriceLevel) :
    List (Nat × PriceLevel) :=
  match ls with
  | [] => []
  | (p, l) :: rest => if p = k then (k, v) :: rest else (p, l) :: levelReplace rest k v

/-- `std::map::erase` by key on a side book. -/
def levelErase (ls : List (Nat × PriceLevel)) (k : Nat) : List (Nat × PriceLevel) :=
  match ls with
  | [] => []
  | (p, l) :: rest => if p = k then rest else (p, l) :: levelErase rest k

/-- Sorted insertion of a fresh key, parametrized by the map's comparator
(`fun a b => a > b` for bids, `fun a b => a < b` for asks): this is
`std::map::operator[]` creating a new entry at its ordered position. -/
def levelInsert (before : Nat → Nat → Bool) (k : Nat) (v : PriceLevel) :
    List (Nat × PriceLevel) → List (Nat × PriceLevel)
  | [] => [(k, v)]
  | (p, l) :: rest =>
    if before k p then (k, v) :: (p, l) :: rest
    else (p, l) :: levelInsert before k v rest

/-- The comparator of `bids_` (`std::greater`): highest price first. -/
def bidBefore (a b : Nat) : Bool := b < a

/-- The comparator of `asks_` (`std::less`): lowest price first. -/
def askBefore (a b : Nat) : Bool := a < b

/-- `PriceLevel::AddOrder` (PriceLevel.cpp): append to the queue tail, add the
quantity to the total volume, set the order's back-link, and adopt the order's
price if the queue was empty (a level freshly value-initialized by
`std::map::operator[]` starts with `price_ = 0` and an empty queue).  Returns
the updated level together with the updated order (C++ mutates the shared
`Order` object). -/
def PriceLevel.AddOrder (lvl : PriceLevel) (o : Order) : PriceLevel × Order :=
  let price' := if lvl.order_queue.isEmpty then o.price else lvl.price
  (⟨price', lvl.total_volume + o.quantity, lvl.order_queue ++ [o.order_id]⟩,
   { o with parent_price_level := some price' })

/-- `PriceLevel::RemoveOrder` (PriceLevel.cpp): check the back-link identifies
this level, then erase the first queue entry holding the order and subtract
its quantity; `none` models the `throw` paths ("Order not found in
PriceLevel"). -/
def PriceLevel.RemoveOrder (lvl : PriceLevel) (o : Order) :
    Option (PriceLevel × Order) :=
  if o.parent_price_level ≠ some lvl.price then none
  else if o.order_id ∈ lvl.order_queue then
    some (⟨lvl.price, lvl.total_volume - o.quantity, lvl.order_queue.erase o.order_id⟩,
          { o with parent_price_level := none })
  else none

/-- The `while` loop of `PriceLevel::FillOrder` (PriceLevel.cpp), recursing on
the queue.  Arguments mirror the loop state: the heap of resting orders, the
queue, the level's price and total volume, the remaining quantity to fill, and
the next execution id.  Returns the final heap, queue, total volume, execution
counter, and the trades in emission order.  A queued id missing from the heap
would be a dangling pointer in C++ (unreachable from well-formed states); the
model stops filling there. -/
def fillLoop (aggId aggUid aggTsR aggTsE : Nat) (m : List (Nat × Order))
    (queue : List Nat) (price tv rem execId : Nat) :
    List (Nat × Order) × List Nat × Nat × Nat × List Trade :=
  match queue with
  | [] => (m, [], tv, execId, [])
  | hid :: qrest =>
    if rem = 0 then (m, hid :: qrest, tv, execId, [])
    else
      match mapLookup m hid with
      | none => (m, hid :: qrest, tv, execId, [])
      | some top =>
        let fill := min rem top.quantity
        let t : Trade :=
          ⟨execId, aggId, hid, aggUid, top.user_id, price, fill, aggTsR, aggTsE⟩
        if top.quantity ≤ rem then
          -- head fully consumed: `top_order->quantity` reaches 0, the head is
          -- popped and its back-link cleared (deletion is the caller's job)
          let m' := mapAssign m hid
            { top with quantity := 0, parent_price_level := none }
          let r := fillLoop aggId aggUid aggTsR aggTsE m' qrest price
            (tv - top.quantity) (rem - top.quantity) (execId + 1)
          (r.1, r.2.1, r.2.2.1, r.2.2.2.1, t :: r.2.2.2.2)
        else
          -- partial fill of the head: `rem` is consumed and the loop exits
          (mapAssign m hid { top with quantity := top.quantity - rem },
           hid :: qrest, tv - rem, execId + 1, [t])

/-- `PriceLevel::FillOrder` (PriceLevel.cpp): run the fill loop against this
level's queue.  Returns the updated level, heap, execution counter and the
trades. -/
def PriceLevel.FillOrder (lvl : PriceLevel) (m : List (Nat × Order)) (agg : Order)
    (quantity execId : Nat) :
    PriceLevel × List (Nat × Order) × Nat × List Trade :=
  let r := fillLoop agg.order_id agg.user_id agg.ts_received agg.ts_executed m
    lvl.order_queue lvl.price lvl.total_volume quantity execId
  (⟨lvl.price, r.2.2.1, r.2.1⟩, r.1, r.2.2.2.1, r.2.2.2.2)

/-- The clean-up loop of `OrderBook::MatchOrders`: for every trade of the
level just filled, erase the resting order from `order_map_` (and delete it)
if its remaining quantity reached 0. -/
def cleanupFilled (trades : List Trade) (m : List (Nat × Order)) :
    List (Nat × Order) :=
  match trades with
  | [] => m
  | t :: ts =>
    let m' :=
      match mapLookup m t.resting_order_id with
      | none => m
      | some o => if o.quantity = 0 then mapErase m t.resting_order_id else m
    cleanupFilled ts m'

/-- The side-book walk of `OrderBook::MatchOrders` (one of the two symmetric
`while` loops; `crosses` is the price test, `p ≤ agg.price` against asks and
`agg.price ≤ p` against bids).  Walks the levels from best outward, filling
each crossing level with `min(remaining, level volume)`, cleaning fully filled
resting orders out of the heap, and erasing levels whose volume reaches 0.
Returns the updated heap, the remaining side book, the aggressor (with its
quantity decremented), the execution counter and all trades in order. -/
def matchLoop (crosses : Nat → Bool) (m : List (Nat × Order))
    (levels : List (Nat × PriceLevel)) (agg : Order) (execId : Nat) :
    List (Nat × Order) × List (Nat × PriceLevel) × Order × Nat × List Trade :=
  match levels with
  | [] => (m, [], agg, execId, [])
  | (p, lvl) :: rest =>
    if agg.quantity = 0 then (m, (p, lvl) :: rest, agg, execId, [])
    else if crosses p then
      let qtf := min agg.quantity lvl.total_volume
      let f := lvl.FillOrder m agg qtf execId
      let lvl' := f.1
      let m' := cleanupFilled f.2.2.2 f.2.1
      let agg' := { agg with quantity := agg.quantity - qtf }
      let r := matchLoop crosses m' rest agg' f.2.2.1
      if lvl'.total_volume = 0 then
        (r.1, r.2.1, r.2.2.1, r.2.2.2.1, f.2.2.2 ++ r.2.2.2.2)
      else
        (r.1, (p, lvl') :: r.2.1, r.2.2.1, r.2.2.2.1, f.2.2.2 ++ r.2.2.2.2)
    else (m, (p, lvl) :: rest, agg, execId, [])

/-- `OrderBook::MatchOrders` (OrderBook.cpp): dispatch the walk to the
opposite side.  Returns the updated book, the incoming order with its
remaining quantity, and the executed trades. -/
def Book.MatchOrders (b : Book) (incoming : Order) : Book × Order × List Trade :=
  if incoming.is_buy_side then
    let r := matchLoop (fun p => p ≤ incoming.price) b.order_map b.asks incoming
      b.next_execution_id
    ({ b with order_map := r.1, asks := r.2.1, next_execution_id := r.2.2.2.1 },
     r.2.2.1, r.2.2.2.2)
  else
    let r := matchLoop (fun p => incoming.price ≤ p) b.order_map b.bids incoming
      b.next_execution_id
    ({ b with order_map := r.1, bids := r.2.1, next_execution_id := r.2.2.2.1 },
     r.2.2.1, r.2.2.2.2)

/-- `OrderBook::GetBestBid` (bids are sorted highest first; 0 when empty). -/
def Book.GetBestBid (b : Book) : Nat :=
  match b.bids with
  | [] => 0
  | (p, _) :: _ => p

/-- `OrderBook::GetBestAsk` (asks are sorted lowest first; 0 when empty). -/
def Book.GetBestAsk (b : Book) : Nat :=
  match b.asks with
  | [] => 0
  | (p, _) :: _ => p

/-- `OrderBook::GetTotalBidVolume`. -/
def Book.GetTotalBidVolume (b : Book) : Nat :=
  (b.bids.map (fun pl => pl.2.total_volume)).sum

/-- `OrderBook::GetTotalAskVolume`. -/
def Book.GetTotalAskVolume (b : Book) : Nat :=
  (b.asks.map (fun pl => pl.2.total_volume)).sum

/-- The top-of-book values computed inside `OrderBook::NotifyTopOfBookUpdate`:
the two best prices, and the volume at each best level — but only when the
best price is strictly positive (`if (best_bid > 0)` / `if (best_ask > 0)`);
a best price of 0 reports volume 0. -/
def Book.topOfBook (b : Book) : Event :=
  let best_bid := b.GetBestBid
  let best_ask := b.GetBestAsk
  let bid_volume :=
    if best_bid > 0 then
      match levelLookup b.bids best_bid with
      | some l => l.total_volume
      | none => 0
    else 0
  let ask_volume :=
    if best_ask > 0 then
      match levelLookup b.asks best_ask with
      | some l => l.total_volume
      | none => 0
    else 0
  Event.topOfBookUpdate best_bid best_ask bid_volume ask_volume

/-- `OrderBook::AddRestingOrder`: index the order, then get-or-create the
level at its price on its own side (`bids_[price]` value-initializes a fresh
`PriceLevel` to zeroes) and append through `PriceLevel::AddOrder`.  The map
entry and the queued order are one C++ object, so the map stores the order as
updated by `PriceLevel::AddOrder` (back-link set). -/
def Book.AddRestingOrder (b : Book) (o : Order) : Book :=
  if o.is_buy_side then
    match levelLookup b.bids o.price with
    | some lvl =>
      let r := lvl.AddOrder o
      { b with order_map := mapAssign b.order_map o.order_id r.2,
               bids := levelReplace b.bids o.price r.1 }
    | none =>
      let r := PriceLevel.AddOrder ⟨0, 0, []⟩ o
      { b with order_map := mapAssign b.order_map o.order_id r.2,
               bids := levelInsert bidBefore o.price r.1 b.bids }
  else
    match levelLookup b.asks o.price with
    | some lvl =>
      let r := lvl.AddOrder o
      { b with order_map := mapAssign b.order_map o.order_id r.2,
               asks := levelReplace b.asks o.price r.1 }
    | none =>
      let r := PriceLevel.AddOrder ⟨0, 0, []⟩ o
      { b with order_map := mapAssign b.order_map o.order_id r.2,
               asks := levelInsert askBefore o.price r.1 b.asks }

/-- The timestamp-aware `OrderBook::AddOrder(order_id, user_id, is_buy,
quantity, price, ts_received, ts_executed)` (OrderBook.cpp): validate, match,
rest the residue, notify.  Note the event pattern of the source: trades are
notified in match order; `OrderAcknowledged` and `TopOfBookUpdate` are only
emitted when residue rests. -/
def Book.AddOrderT (b : Book) (order_id user_id : Nat) (is_buy : Bool)
    (quantity price ts_received ts_executed : Nat) : CmdOut :=
  if quantity = 0 then
    ⟨b, [Event.orderRejected order_id "Order quantity must be greater than zero"],
     Outcome.rejected⟩
  else if (mapLookup b.order_map order_id).isSome then
    ⟨b, [Event.orderRejected order_id "Order ID already exists"], Outcome.rejected⟩
  else
    let new_order : Order :=
      ⟨order_id, user_id, is_buy, quantity, price, ts_received, ts_executed, none⟩
    let r := b.MatchOrders new_order
    let tradeEvents := r.2.2.map Event.tradeExecuted
    if r.2.1.quantity > 0 then
      let b' := r.1.AddRestingOrder r.2.1
      ⟨b', tradeEvents ++ [Event.orderAcknowledged order_id, b'.topOfBook],
       Outcome.ok⟩
    else
      ⟨r.1, tradeEvents, Outcome.ok⟩

/-- The legacy `OrderBook::AddOrder` overload, which stamps both timestamps
with `Helpers::GetTimeStamp()` (modelled by the `now` argument) and otherwise
runs the same code. -/
def Book.AddOrder (b : Book) (order_id user_id : Nat) (is_buy : Bool)
    (quantity price now : Nat) : CmdOut :=
  b.AddOrderT order_id user_id is_buy quantity price now now

/-- `OrderBook::CancelOrder` (OrderBook.cpp): look the id up, remove the order
from its level through the back-link (note: the level is NOT erased from the
side book, even when its volume reaches 0), erase the index entry, notify
`OrderCancelled` then `TopOfBookUpdate`. -/
def Book.CancelOrder (b : Book) (order_id : Nat) : CmdOut :=
  match mapLookup b.order_map order_id with
  | none =>
    ⟨b, [Event.orderRejected order_id "Order ID not found"], Outcome.rejected⟩
  | some o =>
    let removed : Option Book :=
      match o.parent_price_level with
      | none => some b
      | some pp =>
        if o.is_buy_side then
          match levelLookup b.bids pp with
          | none => none
          | some lvl =>
            match lvl.RemoveOrder o with
            | none => none
            | some r => some { b with bids := levelReplace b.bids pp r.1 }
        else
          match levelLookup b.asks pp with
          | none => none
          | some lvl =>
            match lvl.RemoveOrder o with
            | none => none
            | some r => some { b with asks := levelReplace b.asks pp r.1 }
    match removed with
    | none => ⟨b, [], Outcome.error⟩
    | some b1 =>
      let b2 := { b1 with order_map := mapErase b1.order_map order_id }
      ⟨b2, [Event.orderCancelled order_id, b2.topOfBook], Outcome.ok⟩

/-- `OrderBook::ModifyOrder` (OrderBook.cpp): validate, then cancel-and-replace.
The existing order is removed from its level (erasing the level from the side
book if its volume reaches 0) and from the index; a new order with the same id
is built — keeping the old `ts_executed` exactly when the price is unchanged
and the quantity does not grow — and driven through matching and resting.
`now` models `Helpers::GetTimeStamp()`.  Events: trades, then `OrderModified`
if residue rested, then always `TopOfBookUpdate`. -/
def Book.ModifyOrder (b : Book) (order_id new_quantity new_price now : Nat) :
    CmdOut :=
  if new_quantity = 0 then
    ⟨b, [Event.orderRejected order_id
          "Modified order quantity must be greater than zero"], Outcome.rejected⟩
  else
    match mapLookup b.order_map order_id with
    | none =>
      ⟨b, [Event.orderRejected order_id "Order ID not found"], Outcome.rejected⟩
    | some o =>
      match o.parent_price_level with
      | none =>
        ⟨b, [Event.orderRejected order_id "Cannot modify filled order"],
         Outcome.rejected⟩
      | some pp =>
        let removed : Option Book :=
          if o.is_buy_side then
            match levelLookup b.bids pp with
            | none => none
            | some lvl =>
              match lvl.RemoveOrder o with
              | none => none
              | some r =>
                let bids1 := levelReplace b.bids pp r.1
                let bids2 := if r.1.total_volume = 0 then levelErase bids1 o.price
                             else bids1
                some { b with bids := bids2 }
          else
            match levelLookup b.asks pp with
            | none => none
            | some lvl =>
              match lvl.RemoveOrder o with
              | none => none
              | some r =>
                let asks1 := levelReplace b.asks pp r.1
                let asks2 := if r.1.total_volume = 0 then levelErase asks1 o.price
                             else asks1
                some { b with asks := asks2 }
        match removed with
        | none => ⟨b, [], Outcome.error⟩
        | some b1 =>
          let b2 := { b1 with order_map := mapErase b1.order_map order_id }
          let new_ts_executed :=
            if new_price = o.price ∧ new_quantity ≤ o.quantity then o.ts_executed
            else now
          let new_order : Order :=
            ⟨order_id, o.user_id, o.is_buy_side, new_quantity, new_price,
             o.ts_received, new_ts_executed, none⟩
          let r := b2.MatchOrders new_order
          let tradeEvents := r.2.2.map Event.tradeExecuted
          if r.2.1.quantity > 0 then
            let b' := r.1.AddRestingOrder r.2.1
            ⟨b', tradeEvents ++
              [Event.orderModified order_id new_quantity new_price, b'.topOfBook],
             Outcome.ok⟩
          else
            ⟨r.1, tradeEvents ++ [r.1.topOfBook], Outcome.ok⟩

/-- The empty engine (`OrderBook()` default-constructs empty containers; the
execution counter starts wherever the process-global counter stands — 0 for a
fresh process). -/
def Book.empty : Book := ⟨[], [], [], 0⟩

/-! ## Observer fan-out (`IClient.h`, `Notify*` methods)

A registered client is its id plus its callback behavior; a callback either
returns cleanly or throws, modelled by `Except String Unit`. -/

structure Client where
  client_id : Nat
  onEvent : Event → Except String Unit

/-- The delivery loop shared by every `OrderBook::Notify*` method: iterate the
registered clients and invoke each callback inside `try { ... } catch
(const std::exception&)` — a throwing callback is logged to `cerr` and
swallowed, so the iteration continues with the next client.  Returns one
receipt per invoked client: its id and whether its callback returned cleanly. -/
def notifyClients (clients : List Client) (e : Event) : List (Nat × Bool) :=
  clients.map (fun c =>
    (c.client_id, match c.onEvent e with
                  | Except.ok _ => true
                  | Except.error _ => false))

/-- `OrderBook::NotifyTradeExecuted`: the method reads only `clients_`; the
book state is passed through untouched. -/
def Book.NotifyTradeExecuted (b : Book) (clients : List Client) (t : Trade) :
    Book × List (Nat × Bool) :=
  (b, notifyClients clients (Event.tradeExecuted t))

/-- `OrderBook::NotifyTopOfBookUpdate`: computes the top-of-book values once,
then delivers them to every client; the book state is passed through
untouched. -/
def Book.NotifyTopOfBookUpdate (b : Book) (clients : List Client) :
    Book × List (Nat × Bool) :=
  (b, notifyClients clients b.topOfBook)

/-! ## The matching procedure as the specification states it

`specFill` and `specWalk` are the *claim-side* counterparts of `fillLoop` /
`matchLoop`, written from the words of the specification (§4.F.1 and §4.C of
spec.md, quoted in claim C1): walk the opposite side from best price outward,
fill only levels whose price crosses, within a level strictly in FIFO order;
each fill against a head order has quantity `min(aggressor remaining, head
remaining)` and decrements both the head's remaining quantity and the level's
`total_volume`; a head reaching 0 is popped and purged from the order index; a
level reaching `total_volume = 0` is removed; matching stops exactly when the
aggressor is exhausted, the levels are exhausted, or the next level no longer
crosses.  C1 is settled by proving the source functions equal to these. -/

def specFill (aggId aggUid aggTsR aggTsE : Nat) (m : List (Nat × Order))
    (queue : List Nat) (price tv aggRem execId : Nat) :
    List (Nat × Order) × List Nat × Nat × Nat × Nat × List Trade :=
  match queue with
  | [] => (m, [], tv, aggRem, execId, [])
  | hid :: qrest =>
    if aggRem = 0 then (m, hid :: qrest, tv, aggRem, execId, [])
    else
      match mapLookup m hid with
      | none => (m, hid :: qrest, tv, aggRem, execId, [])
      | some top =>
        let q := min aggRem top.quantity
        let t : Trade :=
          ⟨execId, aggId, hid, aggUid, top.user_id, price, q, aggTsR, aggTsE⟩
        if top.quantity ≤ aggRem then
          -- the head's remaining quantity reaches zero: pop it and purge it
          -- from the order index
          let r := specFill aggId aggUid aggTsR aggTsE (mapErase m hid) qrest
            price (tv - top.quantity) (aggRem - top.quantity) (execId + 1)
          (r.1, r.2.1, r.2.2.1, r.2.2.2.1, r.2.2.2.2.1, t :: r.2.2.2.2.2)
        else
          -- the aggressor is exhausted by a partial fill of the head
          (mapAssign m hid { top with quantity := top.quantity - aggRem },
           hid :: qrest, tv - aggRem, 0, execId + 1, [t])

def specWalk (crosses : Nat → Bool) (m : List (Nat × Order))
    (levels : List (Nat × PriceLevel)) (agg : Order) (execId : Nat) :
    List (Nat × Order) × List (Nat × PriceLevel) × Order × Nat × List Trade :=
  match levels with
  | [] => (m, [], agg, execId, [])
  | (p, lvl) :: rest =>
    if agg.quantity = 0 then (m, (p, lvl) :: rest, agg, execId, [])
    else if crosses p then
      let r := specFill agg.order_id agg.user_id agg.ts_received agg.ts_executed
        m lvl.order_queue lvl.price lvl.total_volume agg.quantity execId
      let lvl' : PriceLevel := ⟨lvl.price, r.2.2.1, r.2.1⟩
      let agg' := { agg with quantity := r.2.2.2.1 }
      let w := specWalk crosses r.1 rest agg' r.2.2.2.2.1
      if lvl'.total_volume = 0 then
        (w.1, w.2.1, w.2.2.1, w.2.2.2.1, r.2.2.2.2.2 ++ w.2.2.2.2)
      else
        (w.1, (p, lvl') :: w.2.1, w.2.2.1, w.2.2.2.1, r.2.2.2.2.2 ++ w.2.2.2.2)
    else (m, (p, lvl) :: rest, agg, execId, [])

/-- The specification's matching procedure dispatched like
`OrderBook::MatchOrders`: an incoming buy consumes the asks (crossing when
`level price ≤ incoming price`), an incoming sell consumes the bids (crossing
when `incoming price ≤ level price`). -/
def Book.SpecMatchOrders (b : Book) (incoming : Order) :
    Book × Order × List Trade :=
  if incoming.is_buy_side then
    let r := specWalk (fun p => p ≤ incoming.price) b.order_map b.asks incoming
      b.next_execution_id
    ({ b with order_map := r.1, asks := r.2.1, next_execution_id := r.2.2.2.1 },
     r.2.2.1, r.2.2.2.2)
  else
    let r := specWalk (fun p => incoming.price ≤ p) b.order_map b.bids incoming
      b.next_execution_id
    ({ b with order_map := r.1, bids := r.2.1, next_execution_id := r.2.2.2.1 },
     r.2.2.1, r.2.2.2.2)

/-! ## Well-formedness of a book state

The invariants tying the order index, the side books and the denormalized
volumes together (spec.md §3).  All predicates are decidable so that concrete
witnesses can be checked by evaluation. -/

/-- Remaining quantity of an indexed order (0 for an unknown id). -/
def qtyOf (m : List (Nat × Order)) (id : Nat) : Nat :=
  match mapLookup m id with
  | some o => o.quantity
  | none => 0

/-- Sum of the remaining quantities of a queue of order ids. -/
def qsum (m : List (Nat × Order)) (q : List Nat) : Nat :=
  (q.map (qtyOf m)).sum

/-- A single price level is consistent with the order index: its stored price
equals its key, its total volume is the sum over its queue, its queue has no
duplicates, and every queued id is indexed with a positive quantity. -/
def LevelWF (m : List (Nat × Order)) (p : Nat) (lvl : PriceLevel) : Prop :=
  lvl.price = p ∧
  lvl.total_volume = qsum m lvl.order_queue ∧
  lvl.order_queue.Nodup ∧
  ∀ id ∈ lvl.order_queue, (mapLookup m id).isSome ∧ 0 < qtyOf m id

/-- Every level of a side book is consistent. -/
def SideWF (m : List (Nat × Order)) (ls : List (Nat × PriceLevel)) : Prop :=
  ∀ pl ∈ ls, LevelWF m pl.1 pl.2

/-- The queue that the order index claims holds a given order (empty when the
level is absent). -/
def queueOf (b : Book) (o : Order) : List Nat :=
  match levelLookup (if o.is_buy_side then b.bids else b.asks) o.price with
  | some lvl => lvl.order_queue
  | none => []

/-- The order index is consistent: keys are unique, every entry's stored id
matches its key, its quantity is positive, its back-link points at the level
of its own price, and that level's queue (on its own side) holds it. -/
def MapWF (b : Book) : Prop :=
  (b.order_map.map Prod.fst).Nodup ∧
  ∀ e ∈ b.order_map, e.2.order_id = e.1 ∧ 0 < e.2.quantity ∧
    e.2.parent_price_level = some e.2.price ∧ e.1 ∈ queueOf b e.2

/-- Full well-formedness of a book state: both side books sorted strictly
(best first), all levels consistent, the queues of all levels pairwise
disjoint, and the order index consistent. -/
def WF (b : Book) : Prop :=
  (b.bids.map Prod.fst).Pairwise (fun a c => c < a) ∧
  (b.asks.map Prod.fst).Pairwise (fun a c => a < c) ∧
  SideWF b.order_map b.bids ∧
  SideWF b.order_map b.asks ∧
  ((b.bids ++ b.asks).map (fun pl => pl.2.order_queue)).Pairwise List.Disjoint ∧
  MapWF b

/-- The resting book does not cross: every bid price is below every ask
price (phantom empty levels included). -/
def Cross (b : Book) : Prop :=
  ∀ pb ∈ b.bids.map Prod.fst, ∀ pa ∈ b.asks.map Prod.fst, pb < pa

instance (m : List (Nat × Order)) (p : Nat) (lvl : PriceLevel) :
    Decidable (LevelWF m p lvl) := by
  unfold LevelWF
  infer_instance

instance (m : List (Nat × Order)) (ls : List (Nat × PriceLevel)) :
    Decidable (SideWF m ls) := by
  unfold SideWF
  infer_instance

instance (l1 l2 : List Nat) : Decidable (l1.Disjoint l2) := by
  unfold List.Disjoint
  infer_instance

instance (b : Book) : Decidable (MapWF b) := by
  unfold MapWF queueOf
  infer_instance

instance (b : Book) : Decidable (WF b) := by
  unfold WF
  infer_instance

instance (b : Book) : Decidable (Cross b) := by
  unfold Cross
  infer_instance

/-- The books reachable from the empty engine by the three public commands
(both `AddOrder` overloads, `CancelOrder`, `ModifyOrder`). -/
inductive Reachable : Book → Prop where
  | empty : Reachable Book.empty
  | add (b : Book) (order_id user_id : Nat) (is_buy : Bool)
      (quantity price now : Nat) : Reachable b →
      Reachable (b.AddOrder order_id user_id is_buy quantity price now).book
  | addT (b : Book) (order_id user_id : Nat) (is_buy : Bool)
      (quantity price ts_received ts_executed : Nat) : Reachable b →
      Reachable (b.AddOrderT order_id user_id is_buy quantity price
        ts_received ts_executed).book
  | cancel (b : Book) (order_id : Nat) : Reachable b →
      Reachable (b.CancelOrder order_id).book
  | modify (b : Book) (order_id new_quantity new_price now : Nat) :
      Reachable b →
      Reachable (b.ModifyOrder order_id new_quantity new_price now).book

/-! # Theorems -/

/-! ## Association-list and side-book lemmas -/

theorem mapLookup_assign (m : List (Nat × Order)) (k : Nat) (v : Order)
    (k' : Nat) :
    mapLookup (mapAssign m k v) k' = if k' = k then some v else mapLookup m k' := by
  induction m with
  | nil =>
    by_cases h : k' = k
    · simp [mapAssign, mapLookup, h]
    · simp [mapAssign, mapLookup, h, Ne.symm h]
  | cons e rest ih =>
    obtain ⟨i, o⟩ := e
    by_cases hik : i = k
    · subst hik
      by_cases h : k' = i
      · simp [mapAssign, mapLookup, h]
      · simp [mapAssign, mapLookup, h, Ne.symm h]
    · by_cases h : i = k'
      · subst h
        simp [mapAssign, mapLookup, hik, Ne.symm hik]
      · simp [mapAssign, mapLookup, hik, h, ih]

theorem mapErase_assign_fresh (m : List (Nat × Order)) (k : Nat) (v : Order)
    (h : mapLookup m k = none) : mapErase (mapAssign m k v) k = m := by
  induction m with
  | nil => simp [mapAssign, mapErase]
  | cons e rest ih =>
    obtain ⟨i, o⟩ := e
    by_cases hik : i = k
    · simp [mapLookup, hik] at h
    · simp only [mapLookup, hik, if_false, if_neg hik] at h ⊢
      simp [mapAssign, mapErase, hik, ih h]

theorem levelLookup_mem (ls : List (Nat × PriceLevel)) (k : Nat)
    (l : PriceLevel) (h : levelLookup ls k = some l) : (k, l) ∈ ls := by
  induction ls with
  | nil => simp [levelLookup] at h
  | cons e rest ih =>
    obtain ⟨p, l0⟩ := e
    by_cases hpk : p = k
    · subst hpk
      simp [levelLookup] at h
      simp [h]
    · simp only [levelLookup, hpk, if_neg hpk] at h
      exact List.mem_cons_of_mem _ (ih h)

theorem levelLookup_replace_self (ls : List (Nat × PriceLevel)) (k : Nat)
    (l v : PriceLevel) (h : levelLookup ls k = some l) :
    levelLookup (levelReplace ls k v) k = some v := by
  induction ls with
  | nil => simp [levelLookup] at h
  | cons e rest ih =>
    obtain ⟨p, l0⟩ := e
    by_cases hpk : p = k
    · subst hpk
      simp [levelReplace, levelLookup]
    · simp only [levelLookup, hpk, if_neg hpk] at h
      simp [levelReplace, levelLookup, hpk, ih h]

theorem levelReplace_cancel (ls : List (Nat × PriceLevel)) (k : Nat)
    (v w : PriceLevel) :
    levelReplace (levelReplace ls k v) k w = levelReplace ls k w := by
  induction ls with
  | nil => simp [levelReplace]
  | cons e rest ih =>
    obtain ⟨p, l0⟩ := e
    by_cases hpk : p = k
    · subst hpk
      simp [levelReplace]
    · simp [levelReplace, hpk, ih]

theorem levelReplace_same (ls : List (Nat × PriceLevel)) (k : Nat)
    (v : PriceLevel) (h : levelLookup ls k = some v) :
    levelReplace ls k v = ls := by
  induction ls with
  | nil => simp [levelReplace]
  | cons e rest ih =>
    obtain ⟨p, l0⟩ := e
    by_cases hpk : p = k
    · subst hpk
      simp [levelLookup] at h
      simp [levelReplace, h]
    · simp only [levelLookup, hpk, if_neg hpk] at h
      simp [levelReplace, hpk, ih h]

theorem levelLookup_insert_fresh (bf : Nat → Nat → Bool)
    (ls : List (Nat × PriceLevel)) (k : Nat) (v : PriceLevel)
    (h : levelLookup ls k = none) :
    levelLookup (levelInsert bf k v ls) k = some v := by
  induction ls with
  | nil => simp [levelInsert, levelLookup]
  | cons e rest ih =>
    obtain ⟨p, l0⟩ := e
    by_cases hpk : p = k
    · simp [levelLookup, hpk] at h
    · simp only [levelLookup, hpk, if_neg hpk] at h
      by_cases hb : bf k p
      · simp [levelInsert, hb, levelLookup, hpk]
      · simp [levelInsert, hb, levelLookup, hpk, ih h]

theorem levelReplace_insert_fresh (bf : Nat → Nat → Bool)
    (ls : List (Nat × PriceLevel)) (k : Nat) (v w : PriceLevel)
    (h : levelLookup ls k = none) :
    levelReplace (levelInsert bf k v ls) k w = levelInsert bf k w ls := by
  induction ls with
  | nil => simp [levelInsert, levelReplace]
  | cons e rest ih =>
    obtain ⟨p, l0⟩ := e
    by_cases hpk : p = k
    · simp [levelLookup, hpk] at h
    · simp only [levelLookup, hpk, if_neg hpk] at h
      by_cases hb : bf k p
      · simp [levelInsert, hb, levelReplace, hpk]
      · simp [levelInsert, hb, levelReplace, hpk, ih h]

theorem volume_sum_insert (bf : Nat → Nat → Bool)
    (ls : List (Nat × PriceLevel)) (k : Nat) (v : PriceLevel) :
    ((levelInsert bf k v ls).map (fun pl => pl.2.total_volume)).sum =
      v.total_volume + ((ls.map (fun pl => pl.2.total_volume)).sum) := by
  induction ls with
  | nil => simp [levelInsert]
  | cons e rest ih =>
    obtain ⟨p, l0⟩ := e
    by_cases hb : bf k p
    · simp [levelInsert, hb]
    · simp [levelInsert, hb, ih]
      omega

theorem matchLoop_no_cross (crosses : Nat → Bool) (m : List (Nat × Order))
    (levels : List (Nat × PriceLevel)) (agg : Order) (e : Nat)
    (h : ∀ p ∈ levels.map Prod.fst, crosses p = false) :
    matchLoop crosses m levels agg e = (m, levels, agg, e, []) := by
  cases levels with
  | nil => rfl
  | cons hd tl =>
    obtain ⟨p, lvl⟩ := hd
    have hp : crosses p = false := h p (by simp)
    simp [matchLoop, hp]

theorem sorted_desc_head_ge (ls : List (Nat × PriceLevel))
    (hs : (ls.map Prod.fst).Pairwise (fun a c => c < a)) (k : Nat)
    (hk : k ∈ ls.map Prod.fst) (p0 : Nat) (l0 : PriceLevel)
    (rest : List (Nat × PriceLevel)) (hls : ls = (p0, l0) :: rest) :
    k ≤ p0 := by
  subst hls
  simp only [List.map_cons, List.pairwise_cons] at hs
  simp only [List.map_cons, List.mem_cons] at hk
  rcases hk with h | h
  · omega
  · exact Nat.le_of_lt (hs.1 k h)

theorem sorted_asc_head_le (ls : List (Nat × PriceLevel))
    (hs : (ls.map Prod.fst).Pairwise (fun a c => a < c)) (k : Nat)
    (hk : k ∈ ls.map Prod.fst) (p0 : Nat) (l0 : PriceLevel)
    (rest : List (Nat × PriceLevel)) (hls : ls = (p0, l0) :: rest) :
    p0 ≤ k := by
  subst hls
  simp only [List.map_cons, List.pairwise_cons] at hs
  simp only [List.map_cons, List.mem_cons] at hk
  rcases hk with h | h
  · omega
  · exact Nat.le_of_lt (hs.1 k h)

theorem mapLookup_erase_ne (m : List (Nat × Order)) (k k' : Nat)
    (h : k' ≠ k) : mapLookup (mapErase m k) k' = mapLookup m k' := by
  induction m with
  | nil => rfl
  | cons e rest ih =>
    obtain ⟨i, o⟩ := e
    by_cases hik : i = k
    · subst hik
      simp [mapErase, mapLookup, Ne.symm h]
    · by_cases hik' : i = k'
      · subst hik'
        simp [mapErase, mapLookup, hik]
      · simp [mapErase, mapLookup, hik, hik', ih]

theorem mapErase_assign_self (m : List (Nat × Order)) (k : Nat) (v : Order) :
    mapErase (mapAssign m k v) k = mapErase m k := by
  induction m with
  | nil => simp [mapAssign, mapErase]
  | cons e rest ih =>
    obtain ⟨i, o⟩ := e
    by_cases hik : i = k
    · subst hik
      simp [mapAssign, mapErase]
    · simp [mapAssign, mapErase, hik, ih]

theorem mapAssign_erase_comm (m : List (Nat × Order)) (k hid : Nat) (v : Order)
    (h : k ≠ hid) :
    mapErase (mapAssign m k v) hid = mapAssign (mapErase m hid) k v := by
  induction m with
  | nil => simp [mapAssign, mapErase, h]
  | cons e rest ih =>
    obtain ⟨i, o⟩ := e
    by_cases hik : i = k
    · subst hik
      simp [mapAssign, mapErase, h, Ne.symm h]
    · by_cases hih : i = hid
      · subst hih
        simp [mapAssign, mapErase, hik, Ne.symm h]
      · simp [mapAssign, mapErase, hik, hih, ih]

theorem qsum_congr (m m' : List (Nat × Order)) (q : List Nat)
    (h : ∀ i ∈ q, mapLookup m' i = mapLookup m i) : qsum m' q = qsum m q := by
  induction q with
  | nil => rfl
  | cons i rest ih =>
    have h1 := h i (List.mem_cons_self _ _)
    have h2 := ih (fun j hj => h j (List.mem_cons_of_mem _ hj))
    simp only [qsum, List.map_cons, List.sum_cons] at h2 ⊢
    rw [qtyOf, qtyOf, h1]
    omega

theorem fillLoop_comm_erase (aggId aggUid tsr tse : Nat) (queue : List Nat)
    (price hid : Nat) :
    ∀ m tv rem execId, hid ∉ queue →
      (fillLoop aggId aggUid tsr tse (mapErase m hid) queue price tv rem
          execId).1 =
        mapErase (fillLoop aggId aggUid tsr tse m queue price tv rem execId).1
          hid ∧
      (fillLoop aggId aggUid tsr tse (mapErase m hid) queue price tv rem
          execId).2 =
        (fillLoop aggId aggUid tsr tse m queue price tv rem execId).2 := by
  induction queue with
  | nil => intro m tv rem execId h; exact ⟨rfl, rfl⟩
  | cons hid0 qrest ih =>
    intro m tv rem execId h
    have hne : hid0 ≠ hid := fun hh => h (hh ▸ List.mem_cons_self _ _)
    have hrest : hid ∉ qrest := fun hh => h (List.mem_cons_of_mem _ hh)
    by_cases hr : rem = 0
    · simp [fillLoop, hr]
    · rw [fillLoop, fillLoop]
      rw [mapLookup_erase_ne m hid hid0 hne]
      rcases hl : mapLookup m hid0 with _ | top
      · simp [hr]
      · simp only [hr, if_false]
        by_cases hfull : top.quantity ≤ rem
        · simp only [hfull, if_true]
          have hcomm := mapAssign_erase_comm m hid0 hid
            { top with quantity := 0, parent_price_level := none } hne
          rw [← hcomm]
          have hih := ih (mapAssign m hid0
            { top with quantity := 0, parent_price_level := none })
            (tv - top.quantity) (rem - top.quantity) (execId + 1) hrest
          refine ⟨hih.1, ?_⟩
          have h2 := hih.2
          simp only [Prod.ext_iff] at h2 ⊢
          exact ⟨h2.1, h2.2.1, h2.2.2.1, by rw [h2.2.2.2]⟩
        · simp only [hfull, if_false]
          refine ⟨?_, by simp⟩
          exact (mapAssign_erase_comm m hid0 hid
            { top with quantity := top.quantity - rem } hne).symm

theorem fillLoop_confine (aggId aggUid tsr tse : Nat) (queue : List Nat)
    (price i : Nat) :
    ∀ m tv rem execId, i ∉ queue →
      mapLookup (fillLoop aggId aggUid tsr tse m queue price tv rem execId).1
        i = mapLookup m i := by
  induction queue with
  | nil => intro m tv rem execId h; rfl
  | cons hid0 qrest ih =>
    intro m tv rem execId h
    have hne : i ≠ hid0 := fun hh => h (hh ▸ List.mem_cons_self _ _)
    have hrest : i ∉ qrest := fun hh => h (List.mem_cons_of_mem _ hh)
    by_cases hr : rem = 0
    · simp [fillLoop, hr]
    · rw [fillLoop]
      rcases hl : mapLookup m hid0 with _ | top
      · simp [hr]
      · simp only [hr, if_false]
        by_cases hfull : top.quantity ≤ rem
        · simp only [hfull, if_true]
          rw [ih _ _ _ _ hrest]
          rw [mapLookup_assign]
          simp [hne]
        · simp only [hfull, if_false]
          rw [mapLookup_assign]
          simp [hne]

theorem specFill_confine (aggId aggUid tsr tse : Nat) (queue : List Nat)
    (price i : Nat) :
    ∀ m tv aggRem execId, i ∉ queue →
      mapLookup (specFill aggId aggUid tsr tse m queue price tv aggRem
        execId).1 i = mapLookup m i := by
  induction queue with
  | nil => intro m tv aggRem execId h; rfl
  | cons hid0 qrest ih =>
    intro m tv aggRem execId h
    have hne : i ≠ hid0 := fun hh => h (hh ▸ List.mem_cons_self _ _)
    have hrest : i ∉ qrest := fun hh => h (List.mem_cons_of_mem _ hh)
    by_cases hr : aggRem = 0
    · simp [specFill, hr]
    · rw [specFill]
      rcases hl : mapLookup m hid0 with _ | top
      · simp [hr]
      · simp only [hr, if_false]
        by_cases hfull : top.quantity ≤ aggRem
        · simp only [hfull, if_true]
          rw [ih _ _ _ _ hrest]
          rw [mapLookup_erase_ne _ _ _ hne]
        · simp only [hfull, if_false]
          rw [mapLookup_assign]
          simp [hne]

theorem fillLoop_refines (aggId aggUid tsr tse : Nat) (queue : List Nat)
    (price : Nat) :
    ∀ m tv aggRem execId,
      queue.Nodup →
      (∀ id ∈ queue, (mapLookup m id).isSome ∧ 0 < qtyOf m id) →
      tv = qsum m queue →
      cleanupFilled
          (fillLoop aggId aggUid tsr tse m queue price tv (min aggRem tv)
            execId).2.2.2.2
          (fillLoop aggId aggUid tsr tse m queue price tv (min aggRem tv)
            execId).1 =
        (specFill aggId aggUid tsr tse m queue price tv aggRem execId).1 ∧
      (fillLoop aggId aggUid tsr tse m queue price tv (min aggRem tv)
          execId).2.1 =
        (specFill aggId aggUid tsr tse m queue price tv aggRem execId).2.1 ∧
      (fillLoop aggId aggUid tsr tse m queue price tv (min aggRem tv)
          execId).2.2.1 =
        (specFill aggId aggUid tsr tse m queue price tv aggRem execId).2.2.1 ∧
      (fillLoop aggId aggUid tsr tse m queue price tv (min aggRem tv)
          execId).2.2.2.1 =
        (specFill aggId aggUid tsr tse m queue price tv aggRem
          execId).2.2.2.2.1 ∧
      (fillLoop aggId aggUid tsr tse m queue price tv (min aggRem tv)
          execId).2.2.2.2 =
        (specFill aggId aggUid tsr tse m queue price tv aggRem
          execId).2.2.2.2.2 ∧
      (specFill aggId aggUid tsr tse m queue price tv aggRem
          execId).2.2.2.1 = aggRem - min aggRem tv := by
  induction queue with
  | nil =>
    intro m tv aggRem execId hnod hq htv
    have htv0 : tv = 0 := by simpa [qsum] using htv
    subst htv0
    simp [fillLoop, specFill, cleanupFilled]
  | cons hid qrest ih =>
    intro m tv aggRem execId hnod hq htv
    obtain ⟨hsome, hpos⟩ := hq hid (List.mem_cons_self _ _)
    rcases hl : mapLookup m hid with _ | top
    · rw [hl] at hsome
      simp at hsome
    have htop : 0 < top.quantity := by
      rw [qtyOf, hl] at hpos
      exact hpos
    obtain ⟨hhidq, hnodq⟩ := List.nodup_cons.mp hnod
    have htv' : tv = top.quantity + qsum m qrest := by
      rw [htv, qsum, List.map_cons, List.sum_cons, qtyOf, hl]
      rfl
    have hq' : ∀ id ∈ qrest, (mapLookup m id).isSome ∧ 0 < qtyOf m id :=
      fun id hmem => hq id (List.mem_cons_of_mem _ hmem)
    by_cases hA : aggRem = 0
    · subst hA
      simp [fillLoop, specFill, cleanupFilled, Nat.zero_min]
    · have htvpos : 0 < tv := by omega
      have hrem0 : ¬(min aggRem tv = 0) := by omega
      have htople : top.quantity ≤ tv := by omega
      rw [fillLoop, specFill]
      simp only [hrem0, if_false, hA, if_false, hl]
      by_cases hfull : top.quantity ≤ aggRem
      · -- the head is consumed entirely, by both procedures
        have hfull' : top.quantity ≤ min aggRem tv := by omega
        simp only [hfull, if_true, hfull', if_true]
        have hfc : min (min aggRem tv) top.quantity = top.quantity := by omega
        have hfs : min aggRem top.quantity = top.quantity := by omega
        have hrw : min aggRem tv - top.quantity =
            min (aggRem - top.quantity) (tv - top.quantity) := by omega
        rw [hfc, hfs, hrw]
        have herase1 : mapErase (mapAssign m hid
            { top with quantity := 0, parent_price_level := none }) hid =
            mapErase m hid := mapErase_assign_self m hid _
        have hcomm := fillLoop_comm_erase aggId aggUid tsr tse qrest price hid
          (mapAssign m hid { top with quantity := 0, parent_price_level := none })
          (tv - top.quantity) (min (aggRem - top.quantity) (tv - top.quantity))
          (execId + 1) hhidq
        rw [herase1] at hcomm
        obtain ⟨hcomm1, hcomm2⟩ := hcomm
        have hq2 : ∀ id ∈ qrest,
            (mapLookup (mapErase m hid) id).isSome ∧
              0 < qtyOf (mapErase m hid) id := by
          intro id hmem
          have hne : id ≠ hid := fun hh => hhidq (hh ▸ hmem)
          rw [qtyOf, mapLookup_erase_ne _ _ _ hne, ← qtyOf]
          exact hq' id hmem
        have hq2sum : qsum (mapErase m hid) qrest = qsum m qrest :=
          qsum_congr m (mapErase m hid) qrest
            (fun i hi => mapLookup_erase_ne m hid i (fun hh => hhidq (hh ▸ hi)))
        have htv2 : tv - top.quantity = qsum (mapErase m hid) qrest := by
          rw [hq2sum]
          omega
        have hih := ih (mapErase m hid) (tv - top.quantity)
          (aggRem - top.quantity) (execId + 1) hnodq hq2 htv2
        obtain ⟨hih1, hih2, hih3, hih4, hih5, hih6⟩ := hih
        -- peel the head trade off the clean-up pass: the fully filled head is
        -- exactly the entry the clean-up erases from the index
        have hlc : mapLookup
            (fillLoop aggId aggUid tsr tse
              (mapAssign m hid
                { top with quantity := 0, parent_price_level := none })
              qrest price (tv - top.quantity)
              (min (aggRem - top.quantity) (tv - top.quantity))
              (execId + 1)).1 hid =
            some { top with quantity := 0, parent_price_level := none } := by
          rw [fillLoop_confine aggId aggUid tsr tse qrest price hid _ _ _ _
            hhidq]
          rw [mapLookup_assign]
          simp
        refine ⟨?_, ?_, ?_, ?_, ?_, ?_⟩
        · rw [cleanupFilled]
          simp only [hlc, if_pos rfl]
          rw [← hcomm1, ← hcomm2]
          exact hih1
        · rw [← hcomm2]
          exact hih2
        · rw [← hcomm2]
          exact hih3
        · rw [← hcomm2]
          exact hih4
        · rw [← hcomm2]
          rw [hih5]
        · rw [hih6]
          omega
      · -- the aggressor is exhausted by a partial fill of the head
        have hnfull' : ¬(top.quantity ≤ min aggRem tv) := by omega
        simp only [hfull, if_false, hnfull', if_false]
        have hminA : min aggRem tv = aggRem := by omega
        have hfc : min (min aggRem tv) top.quantity = min aggRem top.quantity := by
          omega
        rw [hfc, hminA]
        refine ⟨?_, by simp, by simp, by simp, by simp, by omega⟩
        rw [cleanupFilled]
        have hlc : mapLookup
            (mapAssign m hid { top with quantity := top.quantity - aggRem })
            hid = some { top with quantity := top.quantity - aggRem } := by
          rw [mapLookup_assign]
          simp
        simp only [hlc]
        have hq0 : ¬({ top with quantity := top.quantity - aggRem} : Order).quantity = 0 := by
          simp
          omega
        simp only [hq0, if_false]
        rfl

theorem LevelWF_congr (m m' : List (Nat × Order)) (p : Nat) (lvl : PriceLevel)
    (h : ∀ i ∈ lvl.order_queue, mapLookup m' i = mapLookup m i)
    (hw : LevelWF m p lvl) : LevelWF m' p lvl := by
  obtain ⟨h1, h2, h3, h4⟩ := hw
  refine ⟨h1, ?_, h3, ?_⟩
  · rw [qsum_congr m m' _ h]
    exact h2
  · intro id hmem
    constructor
    · rw [h id hmem]
      exact (h4 id hmem).1
    · rw [qtyOf, h id hmem, ← qtyOf]
      exact (h4 id hmem).2

theorem matchLoop_refines (crosses : Nat → Bool)
    (levels : List (Nat × PriceLevel)) :
    ∀ m agg execId,
      (∀ pl ∈ levels, LevelWF m pl.1 pl.2) →
      ((levels.map (fun pl => pl.2.order_queue)).Pairwise List.Disjoint) →
      matchLoop crosses m levels agg execId =
        specWalk crosses m levels agg execId := by
  induction levels with
  | nil => intro m agg e _ _; rfl
  | cons hd rest ih =>
    obtain ⟨p, lvl⟩ := hd
    intro m agg e hlw hdisj
    rw [matchLoop, specWalk]
    by_cases hq0 : agg.quantity = 0
    · simp [hq0]
    · simp only [hq0, if_false]
      by_cases hcr : crosses p
      · simp only [hcr, if_true]
        obtain ⟨hpeq, hvol, hnod, hmemq⟩ := hlw (p, lvl) (List.mem_cons_self _ _)
        obtain ⟨hr1, hr2, hr3, hr4, hr5, hr6⟩ := fillLoop_refines agg.order_id
          agg.user_id agg.ts_received agg.ts_executed lvl.order_queue
          lvl.price m lvl.total_volume agg.quantity e hnod hmemq hvol
        simp only [PriceLevel.FillOrder]
        rw [hr1, hr2, hr3, hr4, hr5, hr6]
        have hih : matchLoop crosses
            (specFill agg.order_id agg.user_id agg.ts_received agg.ts_executed
              m lvl.order_queue lvl.price lvl.total_volume agg.quantity e).1
            rest
            { agg with
              quantity := agg.quantity - min agg.quantity lvl.total_volume }
            (specFill agg.order_id agg.user_id agg.ts_received agg.ts_executed
              m lvl.order_queue lvl.price lvl.total_volume agg.quantity
              e).2.2.2.2.1 =
          specWalk crosses
            (specFill agg.order_id agg.user_id agg.ts_received agg.ts_executed
              m lvl.order_queue lvl.price lvl.total_volume agg.quantity e).1
            rest
            { agg with
              quantity := agg.quantity - min agg.quantity lvl.total_volume }
            (specFill agg.order_id agg.user_id agg.ts_received agg.ts_executed
              m lvl.order_queue lvl.price lvl.total_volume agg.quantity
              e).2.2.2.2.1 := by
          apply ih
          · intro pl hpl
            refine LevelWF_congr m _ pl.1 pl.2 ?_ (hlw pl (List.mem_cons_of_mem _ hpl))
            intro i hi
            apply specFill_confine
            have hd2 := (List.pairwise_cons.mp hdisj).1 pl.2.order_queue
              (List.mem_map.mpr ⟨pl, hpl, rfl⟩)
            exact fun hcontra => hd2 hcontra hi
          · exact (List.pairwise_cons.mp hdisj).2
        rw [hih]
      · simp only [hcr]
        simp


/-- A buy whose price crosses no ask leaves `MatchOrders` a no-op. -/
theorem MatchOrders_no_cross_buy (b : Book) (o : Order)
    (hbuy : o.is_buy_side = true)
    (h : ∀ pa ∈ b.asks.map Prod.fst, ¬(pa ≤ o.price)) :
    b.MatchOrders o = (b, o, []) := by
  have hml := matchLoop_no_cross (fun p_1 => decide (p_1 ≤ o.price)) b.order_map
    b.asks o b.next_execution_id
    (fun pa hpa => decide_eq_false (h pa hpa))
  rw [Book.MatchOrders]
  simp only [hbuy, if_true, hml]

/-- A sell whose price crosses no bid leaves `MatchOrders` a no-op. -/
theorem MatchOrders_no_cross_sell (b : Book) (o : Order)
    (hsell : o.is_buy_side = false)
    (h : ∀ pb ∈ b.bids.map Prod.fst, ¬(o.price ≤ pb)) :
    b.MatchOrders o = (b, o, []) := by
  have hml := matchLoop_no_cross (fun p_1 => decide (o.price ≤ p_1)) b.order_map
    b.bids o b.next_execution_id
    (fun pb hpb => decide_eq_false (h pb hpb))
  rw [Book.MatchOrders]
  simp only [hsell, Bool.false_eq_true, if_false, hml]

/-- Resting a fresh buy order and then cancelling it: the order index and the
ask book return exactly to their prior state; the bid book returns exactly to
its prior state when a level at the order's price already existed, and
otherwise retains a leftover empty level at that price (CancelOrder does not
erase emptied levels). -/
theorem addRest_cancel_buy (b : Book) (o : Order)
    (hbuy : o.is_buy_side = true)
    (hsb : SideWF b.order_map b.bids)
    (hfresh : mapLookup b.order_map o.order_id = none) :
    ((b.AddRestingOrder o).CancelOrder o.order_id).outcome = Outcome.ok ∧
    ((b.AddRestingOrder o).CancelOrder o.order_id).book.order_map =
      b.order_map ∧
    ((b.AddRestingOrder o).CancelOrder o.order_id).book.asks = b.asks ∧
    (∀ lvl, levelLookup b.bids o.price = some lvl →
      ((b.AddRestingOrder o).CancelOrder o.order_id).book.bids = b.bids) ∧
    (levelLookup b.bids o.price = none →
      ((b.AddRestingOrder o).CancelOrder o.order_id).book.bids =
        levelInsert bidBefore o.price ⟨o.price, 0, []⟩ b.bids) := by
  rcases hcase : levelLookup b.bids o.price with _ | lvl
  · -- no level at the order's price: a fresh one is inserted, then emptied
    have hrest : b.AddRestingOrder o =
        { b with
          order_map := mapAssign b.order_map o.order_id
            { o with parent_price_level := some o.price },
          bids := levelInsert bidBefore o.price
            ⟨o.price, o.quantity, [o.order_id]⟩ b.bids } := by
      simp [Book.AddRestingOrder, hbuy, hcase, PriceLevel.AddOrder]
    have hlook1 : levelLookup (levelInsert bidBefore o.price
        ⟨o.price, o.quantity, [o.order_id]⟩ b.bids) o.price =
        some ⟨o.price, o.quantity, [o.order_id]⟩ :=
      levelLookup_insert_fresh _ _ _ _ hcase
    rw [hrest, Book.CancelOrder]
    simp [mapLookup_assign, hbuy, hlook1, PriceLevel.RemoveOrder,
      levelReplace_insert_fresh _ _ _ _ _ hcase,
      mapErase_assign_fresh _ _ _ hfresh, hcase]
  · -- a level at the order's price exists: append then remove restores it
    obtain ⟨lp, ltv, lq⟩ := lvl
    have hlw := hsb _ (levelLookup_mem _ _ _ hcase)
    have hlp : lp = o.price := hlw.1
    subst hlp
    have hnotq : o.order_id ∉ lq := by
      intro hmem
      have := (hlw.2.2.2 o.order_id hmem).1
      rw [hfresh] at this
      simp at this
    have hp' : (if lq.isEmpty then o.price else o.price) = o.price := by
      split <;> rfl
    have hrest : b.AddRestingOrder o =
        { b with
          order_map := mapAssign b.order_map o.order_id
            { o with parent_price_level := some o.price },
          bids := levelReplace b.bids o.price
            ⟨o.price, ltv + o.quantity, lq ++ [o.order_id]⟩ } := by
      simp only [Book.AddRestingOrder, hbuy, if_true, hcase,
        PriceLevel.AddOrder]
      rw [hp']
    have hlook1 : levelLookup (levelReplace b.bids o.price
        ⟨o.price, ltv + o.quantity, lq ++ [o.order_id]⟩) o.price =
        some ⟨o.price, ltv + o.quantity, lq ++ [o.order_id]⟩ :=
      levelLookup_replace_self _ _ _ _ hcase
    have herase : (lq ++ [o.order_id]).erase o.order_id = lq := by
      rw [List.erase_append_right _ hnotq]
      simp
    rw [hrest, Book.CancelOrder]
    simp [mapLookup_assign, hbuy, hlook1, PriceLevel.RemoveOrder, herase,
      levelReplace_cancel, levelReplace_same _ _ _ hcase,
      mapErase_assign_fresh _ _ _ hfresh, hcase]

/-- Resting a fresh sell order and then cancelling it: symmetric to
`addRest_cancel_buy`. -/
theorem addRest_cancel_sell (b : Book) (o : Order)
    (hsell : o.is_buy_side = false)
    (hsa : SideWF b.order_map b.asks)
    (hfresh : mapLookup b.order_map o.order_id = none) :
    ((b.AddRestingOrder o).CancelOrder o.order_id).outcome = Outcome.ok ∧
    ((b.AddRestingOrder o).CancelOrder o.order_id).book.order_map =
      b.order_map ∧
    ((b.AddRestingOrder o).CancelOrder o.order_id).book.bids = b.bids ∧
    (∀ lvl, levelLookup b.asks o.price = some lvl →
      ((b.AddRestingOrder o).CancelOrder o.order_id).book.asks = b.asks) ∧
    (levelLookup b.asks o.price = none →
      ((b.AddRestingOrder o).CancelOrder o.order_id).book.asks =
        levelInsert askBefore o.price ⟨o.price, 0, []⟩ b.asks) := by
  rcases hcase : levelLookup b.asks o.price with _ | lvl
  · have hrest : b.AddRestingOrder o =
        { b with
          order_map := mapAssign b.order_map o.order_id
            { o with parent_price_level := some o.price },
          asks := levelInsert askBefore o.price
            ⟨o.price, o.quantity, [o.order_id]⟩ b.asks } := by
      simp [Book.AddRestingOrder, hsell, hcase, PriceLevel.AddOrder]
    have hlook1 : levelLookup (levelInsert askBefore o.price
        ⟨o.price, o.quantity, [o.order_id]⟩ b.asks) o.price =
        some ⟨o.price, o.quantity, [o.order_id]⟩ :=
      levelLookup_insert_fresh _ _ _ _ hcase
    rw [hrest, Book.CancelOrder]
    simp [mapLookup_assign, hsell, hlook1, PriceLevel.RemoveOrder,
      levelReplace_insert_fresh _ _ _ _ _ hcase,
      mapErase_assign_fresh _ _ _ hfresh, hcase]
  · obtain ⟨lp, ltv, lq⟩ := lvl
    have hlw := hsa _ (levelLookup_mem _ _ _ hcase)
    have hlp : lp = o.price := hlw.1
    subst hlp
    have hnotq : o.order_id ∉ lq := by
      intro hmem
      have := (hlw.2.2.2 o.order_id hmem).1
      rw [hfresh] at this
      simp at this
    have hp' : (if lq.isEmpty then o.price else o.price) = o.price := by
      split <;> rfl
    have hrest : b.AddRestingOrder o =
        { b with
          order_map := mapAssign b.order_map o.order_id
            { o with parent_price_level := some o.price },
          asks := levelReplace b.asks o.price
            ⟨o.price, ltv + o.quantity, lq ++ [o.order_id]⟩ } := by
      simp only [Book.AddRestingOrder, hsell, Bool.false_eq_true, if_false,
        hcase, PriceLevel.AddOrder]
      rw [hp']
    have hlook1 : levelLookup (levelReplace b.asks o.price
        ⟨o.price, ltv + o.quantity, lq ++ [o.order_id]⟩) o.price =
        some ⟨o.price, ltv + o.quantity, lq ++ [o.order_id]⟩ :=
      levelLookup_replace_self _ _ _ _ hcase
    have herase : (lq ++ [o.order_id]).erase o.order_id = lq := by
      rw [List.erase_append_right _ hnotq]
      simp
    rw [hrest, Book.CancelOrder]
    simp [mapLookup_assign, hsell, hlook1, PriceLevel.RemoveOrder, herase,
      levelReplace_cancel, levelReplace_same _ _ _ hcase,
      mapErase_assign_fresh _ _ _ hfresh, hcase]

/-- C10: if the best resting bid (respectively ask) sits at price 0 — a legal
value in the unsigned-tick domain — then the `TopOfBookUpdate` values report
`bid_volume` (respectively `ask_volume`) as 0 even though that level's queue
is non-empty: `NotifyTopOfBookUpdate` guards the volume lookup with
`best > 0`, treating a best price of 0 as an empty side. -/
theorem C10_zero_best_price_reports_zero_volume (b : Book) :
    (∀ lvl rest, b.bids = (0, lvl) :: rest → lvl.order_queue ≠ [] →
      ∃ av, b.topOfBook = Event.topOfBookUpdate 0 b.GetBestAsk 0 av) ∧
    (∀ lvl rest, b.asks = (0, lvl) :: rest → lvl.order_queue ≠ [] →
      ∃ bv, b.topOfBook = Event.topOfBookUpdate b.GetBestBid 0 bv 0) := by
  constructor
  · intro lvl rest hb _
    refine ⟨if b.GetBestAsk > 0 then
        (match levelLookup b.asks b.GetBestAsk with
         | some l => l.total_volume
         | none => 0) else 0, ?_⟩
    simp [Book.topOfBook, Book.GetBestBid, hb]
  · intro lvl rest ha _
    refine ⟨if b.GetBestBid > 0 then
        (match levelLookup b.bids b.GetBestBid with
         | some l => l.total_volume
         | none => 0) else 0, ?_⟩
    simp [Book.topOfBook, Book.GetBestAsk, ha]

/-- Witness for C10: a book whose only bid rests at price 0 with volume 5 and
a non-empty queue; the top-of-book values report bid volume 0. -/
theorem C10_zero_best_price_reports_zero_volume_witness :
    ∃ av, (Book.mk [(1, ⟨1, 1, true, 5, 0, 0, 0, some 0⟩)]
        [(0, ⟨0, 5, [1]⟩)] [] 0).topOfBook =
      Event.topOfBookUpdate 0
        (Book.mk [(1, ⟨1, 1, true, 5, 0, 0, 0, some 0⟩)]
          [(0, ⟨0, 5, [1]⟩)] [] 0).GetBestAsk 0 av :=
  (C10_zero_best_price_reports_zero_volume _).1 ⟨0, 5, [1]⟩ [] rfl (by decide)

/-- C6: every rejected command — Add with quantity 0, Add with a live
order id, Cancel of an unknown id, Modify with quantity 0, Modify of an
unknown id, Modify of a no-longer-resting order — returns the book exactly
unchanged and emits only the single `OrderRejected` event (no `TradeExecuted`,
no `TopOfBookUpdate`). -/
theorem C6_rejections_no_mutation_single_event (b : Book) :
    (∀ id uid buy p tsr tse,
      b.AddOrderT id uid buy 0 p tsr tse =
        ⟨b, [Event.orderRejected id "Order quantity must be greater than zero"],
         Outcome.rejected⟩) ∧
    (∀ id uid buy q p tsr tse, q ≠ 0 → (mapLookup b.order_map id).isSome →
      b.AddOrderT id uid buy q p tsr tse =
        ⟨b, [Event.orderRejected id "Order ID already exists"],
         Outcome.rejected⟩) ∧
    (∀ id, mapLookup b.order_map id = none →
      b.CancelOrder id =
        ⟨b, [Event.orderRejected id "Order ID not found"], Outcome.rejected⟩) ∧
    (∀ id np now,
      b.ModifyOrder id 0 np now =
        ⟨b, [Event.orderRejected id
              "Modified order quantity must be greater than zero"],
         Outcome.rejected⟩) ∧
    (∀ id nq np now, nq ≠ 0 → mapLookup b.order_map id = none →
      b.ModifyOrder id nq np now =
        ⟨b, [Event.orderRejected id "Order ID not found"], Outcome.rejected⟩) ∧
    (∀ id nq np now o, nq ≠ 0 → mapLookup b.order_map id = some o →
      o.parent_price_level = none →
      b.ModifyOrder id nq np now =
        ⟨b, [Event.orderRejected id "Cannot modify filled order"],
         Outcome.rejected⟩) := by
  refine ⟨?_, ?_, ?_, ?_, ?_, ?_⟩
  · intro id uid buy p tsr tse
    simp [Book.AddOrderT]
  · intro id uid buy q p tsr tse hq hdup
    simp [Book.AddOrderT, hq, hdup]
  · intro id h
    simp [Book.CancelOrder, h]
  · intro id np now
    simp [Book.ModifyOrder]
  · intro id nq np now hq h
    simp [Book.ModifyOrder, hq, h]
  · intro id nq np now o hq h hp
    simp [Book.ModifyOrder, hq, h, hp]

/-- Witness for C6: each of the six rejection cases exercised on a concrete
book (holding a resting order 1 and an already-filled order 2). -/
theorem C6_rejections_no_mutation_single_event_witness :
    ((Book.mk [(1, ⟨1, 1, true, 5, 100, 0, 0, some 100⟩),
               (2, ⟨2, 1, true, 3, 100, 0, 0, none⟩)]
        [(100, ⟨100, 5, [1]⟩)] [] 0).AddOrderT 9 1 true 0 100 0 0 =
      ⟨Book.mk [(1, ⟨1, 1, true, 5, 100, 0, 0, some 100⟩),
                (2, ⟨2, 1, true, 3, 100, 0, 0, none⟩)]
        [(100, ⟨100, 5, [1]⟩)] [] 0,
       [Event.orderRejected 9 "Order quantity must be greater than zero"],
       Outcome.rejected⟩) ∧
    ((Book.mk [(1, ⟨1, 1, true, 5, 100, 0, 0, some 100⟩),
               (2, ⟨2, 1, true, 3, 100, 0, 0, none⟩)]
        [(100, ⟨100, 5, [1]⟩)] [] 0).AddOrderT 1 1 true 7 100 0 0 =
      ⟨Book.mk [(1, ⟨1, 1, true, 5, 100, 0, 0, some 100⟩),
                (2, ⟨2, 1, true, 3, 100, 0, 0, none⟩)]
        [(100, ⟨100, 5, [1]⟩)] [] 0,
       [Event.orderRejected 1 "Order ID already exists"], Outcome.rejected⟩) ∧
    ((Book.mk [(1, ⟨1, 1, true, 5, 100, 0, 0, some 100⟩),
               (2, ⟨2, 1, true, 3, 100, 0, 0, none⟩)]
        [(100, ⟨100, 5, [1]⟩)] [] 0).CancelOrder 9 =
      ⟨Book.mk [(1, ⟨1, 1, true, 5, 100, 0, 0, some 100⟩),
                (2, ⟨2, 1, true, 3, 100, 0, 0, none⟩)]
        [(100, ⟨100, 5, [1]⟩)] [] 0,
       [Event.orderRejected 9 "Order ID not found"], Outcome.rejected⟩) ∧
    ((Book.mk [(1, ⟨1, 1, true, 5, 100, 0, 0, some 100⟩),
               (2, ⟨2, 1, true, 3, 100, 0, 0, none⟩)]
        [(100, ⟨100, 5, [1]⟩)] [] 0).ModifyOrder 1 0 100 0 =
      ⟨Book.mk [(1, ⟨1, 1, true, 5, 100, 0, 0, some 100⟩),
                (2, ⟨2, 1, true, 3, 100, 0, 0, none⟩)]
        [(100, ⟨100, 5, [1]⟩)] [] 0,
       [Event.orderRejected 1
         "Modified order quantity must be greater than zero"],
       Outcome.rejected⟩) ∧
    ((Book.mk [(1, ⟨1, 1, true, 5, 100, 0, 0, some 100⟩),
               (2, ⟨2, 1, true, 3, 100, 0, 0, none⟩)]
        [(100, ⟨100, 5, [1]⟩)] [] 0).ModifyOrder 9 7 100 0 =
      ⟨Book.mk [(1, ⟨1, 1, true, 5, 100, 0, 0, some 100⟩),
                (2, ⟨2, 1, true, 3, 100, 0, 0, none⟩)]
        [(100, ⟨100, 5, [1]⟩)] [] 0,
       [Event.orderRejected 9 "Order ID not found"], Outcome.rejected⟩) ∧
    ((Book.mk [(1, ⟨1, 1, true, 5, 100, 0, 0, some 100⟩),
               (2, ⟨2, 1, true, 3, 100, 0, 0, none⟩)]
        [(100, ⟨100, 5, [1]⟩)] [] 0).ModifyOrder 2 7 100 0 =
      ⟨Book.mk [(1, ⟨1, 1, true, 5, 100, 0, 0, some 100⟩),
                (2, ⟨2, 1, true, 3, 100, 0, 0, none⟩)]
        [(100, ⟨100, 5, [1]⟩)] [] 0,
       [Event.orderRejected 2 "Cannot modify filled order"],
       Outcome.rejected⟩) :=
  ⟨(C6_rejections_no_mutation_single_event _).1 9 1 true 100 0 0,
   (C6_rejections_no_mutation_single_event _).2.1 1 1 true 7 100 0 0
     (by decide) (by decide),
   (C6_rejections_no_mutation_single_event _).2.2.1 9 (by decide),
   (C6_rejections_no_mutation_single_event _).2.2.2.1 1 100 0,
   (C6_rejections_no_mutation_single_event _).2.2.2.2.1 9 7 100 0
     (by decide) (by decide),
   (C6_rejections_no_mutation_single_event _).2.2.2.2.2 2 7 100 0
     ⟨2, 1, true, 3, 100, 0, 0, none⟩ (by decide) (by decide) (by decide)⟩

/-- C9: when one observer's callback throws on an event, every other
registered observer still receives that event (the delivery loop catches and
swallows the exception per client), and the engine's book state is exactly
what it would have been had no observer thrown — the notify methods pass the
book state through untouched. -/
theorem C9_observer_exception_isolated (b : Book) (clients : List Client)
    (t : Trade) (c : Client) (hc : c ∈ clients) (msg : String)
    (herr : c.onEvent (Event.tradeExecuted t) = Except.error msg) :
    ((b.NotifyTradeExecuted clients t).2.map Prod.fst =
        clients.map Client.client_id ∧
      (b.NotifyTradeExecuted clients t).1 = b) ∧
    ((b.NotifyTopOfBookUpdate clients).2.map Prod.fst =
        clients.map Client.client_id ∧
      (b.NotifyTopOfBookUpdate clients).1 = b) := by
  refine ⟨⟨?_, rfl⟩, ⟨?_, rfl⟩⟩ <;>
    simp [Book.NotifyTradeExecuted, Book.NotifyTopOfBookUpdate, notifyClients]

/-- Witness for C9: two observers, the first of which throws on every event;
both still appear in the delivery receipts and the book is unchanged. -/
theorem C9_observer_exception_isolated_witness :
    Client.mk 1 (fun _ => Except.error "boom") ∈
      [Client.mk 1 (fun _ => Except.error "boom"),
       Client.mk 2 (fun _ => Except.ok ())] ∧
    (Client.mk 1 (fun _ => Except.error "boom")).onEvent
      (Event.tradeExecuted ⟨0, 0, 0, 0, 0, 0, 0, 0, 0⟩) = Except.error "boom" ∧
    (((Book.empty.NotifyTradeExecuted
        [Client.mk 1 (fun _ => Except.error "boom"),
         Client.mk 2 (fun _ => Except.ok ())]
        ⟨0, 0, 0, 0, 0, 0, 0, 0, 0⟩).2.map Prod.fst =
       [Client.mk 1 (fun _ => Except.error "boom"),
        Client.mk 2 (fun _ => Except.ok ())].map Client.client_id ∧
      (Book.empty.NotifyTradeExecuted
        [Client.mk 1 (fun _ => Except.error "boom"),
         Client.mk 2 (fun _ => Except.ok ())]
        ⟨0, 0, 0, 0, 0, 0, 0, 0, 0⟩).1 = Book.empty) ∧
     ((Book.empty.NotifyTopOfBookUpdate
        [Client.mk 1 (fun _ => Except.error "boom"),
         Client.mk 2 (fun _ => Except.ok ())]).2.map Prod.fst =
       [Client.mk 1 (fun _ => Except.error "boom"),
        Client.mk 2 (fun _ => Except.ok ())].map Client.client_id ∧
      (Book.empty.NotifyTopOfBookUpdate
        [Client.mk 1 (fun _ => Except.error "boom"),
         Client.mk 2 (fun _ => Except.ok ())]).1 = Book.empty)) :=
  ⟨List.mem_cons_self _ _, rfl,
   C9_observer_exception_isolated Book.empty _ _ _ (List.mem_cons_self _ _)
     "boom" rfl⟩

/-- C5 counterexample: an Add that fully fills (sell 100 rests, buy 100
crosses it) changes side-book state and produces a trade, yet the event list
is the single `TradeExecuted` — no `TopOfBookUpdate` is emitted, contradicting
"always exactly one TopOfBookUpdate as the last event". -/
theorem C5_full_fill_emits_no_top_of_book :
    ((Book.empty.AddOrder 10 1 false 100 10050 0).book.AddOrder
        11 2 true 100 10050 0).outcome = Outcome.ok ∧
    ((Book.empty.AddOrder 10 1 false 100 10050 0).book.AddOrder
        11 2 true 100 10050 0).book.asks ≠
      (Book.empty.AddOrder 10 1 false 100 10050 0).book.asks ∧
    ((Book.empty.AddOrder 10 1 false 100 10050 0).book.AddOrder
        11 2 true 100 10050 0).events =
      [Event.tradeExecuted ⟨0, 11, 10, 2, 1, 10050, 100, 0, 0⟩] := by
  decide

/-- C5 as amended: for every accepted Add, the emitted events are all
`TradeExecuted` in match order first, then — exactly when residue rested —
`OrderAcknowledged` followed by one `TopOfBookUpdate` (computed on the post
state) as the last event; a fully filling Add emits only its trades. -/
theorem C5_event_order_of_accepted_add (b : Book) (id uid : Nat) (buy : Bool)
    (q p tsr tse : Nat) (hq : q ≠ 0)
    (hfresh : mapLookup b.order_map id = none) :
    (b.AddOrderT id uid buy q p tsr tse).outcome = Outcome.ok ∧
    (b.AddOrderT id uid buy q p tsr tse).events =
      ((b.MatchOrders ⟨id, uid, buy, q, p, tsr, tse, none⟩).2.2).map
          Event.tradeExecuted ++
        (if 0 < (b.MatchOrders ⟨id, uid, buy, q, p, tsr, tse, none⟩).2.1.quantity
         then [Event.orderAcknowledged id,
               ((b.MatchOrders ⟨id, uid, buy, q, p, tsr, tse, none⟩).1.AddRestingOrder
                 (b.MatchOrders ⟨id, uid, buy, q, p, tsr, tse, none⟩).2.1).topOfBook]
         else []) := by
  rw [Book.AddOrderT]
  simp only [hq, if_false, hfresh, Option.isSome_none, Bool.false_eq_true]
  split <;> simp_all

/-- Witness for C5 (amended): a buy resting on the empty book emits
acknowledgement and top-of-book after its (empty) trade list. -/
theorem C5_event_order_of_accepted_add_witness :
    (Book.empty.AddOrderT 1 1 true 5 100 0 0).outcome = Outcome.ok ∧
    (Book.empty.AddOrderT 1 1 true 5 100 0 0).events =
      ((Book.empty.MatchOrders ⟨1, 1, true, 5, 100, 0, 0, none⟩).2.2).map
          Event.tradeExecuted ++
        (if 0 < (Book.empty.MatchOrders
            ⟨1, 1, true, 5, 100, 0, 0, none⟩).2.1.quantity
         then [Event.orderAcknowledged 1,
               ((Book.empty.MatchOrders ⟨1, 1, true, 5, 100, 0, 0, none⟩).1.AddRestingOrder
                 (Book.empty.MatchOrders ⟨1, 1, true, 5, 100, 0, 0, none⟩).2.1).topOfBook]
         else []) :=
  C5_event_order_of_accepted_add Book.empty 1 1 true 5 100 0 0
    (by decide) (by decide)

/-- C4: the code at the claim's own scenario.  Three bids B1=1001, B2=1002,
B3=1003 rest in that order at 10000; `ModifyOrder(1001, 75, 10000)` is a pure
quantity reduction at the same price, yet the replacement is re-queued at the
tail (queue becomes [1002, 1003, 1001]), and the incoming crossing sell 2001
fills B2 — not B1 — refuting "an incoming crossing sell fills B1 first". -/
theorem C4_modify_requeues_at_tail :
    levelLookup (((((Book.empty.AddOrder 1001 1 true 100 10000 0).book.AddOrder
        1002 2 true 150 10000 0).book.AddOrder 1003 3 true 200 10000 0).book.ModifyOrder
        1001 75 10000 5).book.bids) 10000 =
      some ⟨10000, 425, [1002, 1003, 1001]⟩ ∧
    (((((Book.empty.AddOrder 1001 1 true 100 10000 0).book.AddOrder
        1002 2 true 150 10000 0).book.AddOrder 1003 3 true 200 10000 0).book.ModifyOrder
        1001 75 10000 5).book.AddOrder 2001 4 false 50 10000 0).events =
      [Event.tradeExecuted ⟨0, 2001, 1002, 4, 2, 10000, 50, 0, 0⟩] := by
  decide

theorem mem_levelReplace (ls : List (Nat × PriceLevel)) (k : Nat)
    (v : PriceLevel) (pl : Nat × PriceLevel)
    (h : pl ∈ levelReplace ls k v) : pl ∈ ls ∨ pl = (k, v) := by
  induction ls with
  | nil => simp [levelReplace] at h
  | cons e rest ih =>
    obtain ⟨p, l0⟩ := e
    by_cases hpk : p = k
    · subst hpk
      simp only [levelReplace, if_pos rfl] at h
      rcases List.mem_cons.mp h with h | h
      · right
        exact h
      · left
        exact List.mem_cons_of_mem _ h
    · simp only [levelReplace, hpk, if_neg hpk] at h
      rcases List.mem_cons.mp h with h | h
      · left
        exact h ▸ List.mem_cons_self _ _
      · rcases ih h with h | h
        · exact Or.inl (List.mem_cons_of_mem _ h)
        · exact Or.inr h

theorem mem_levelInsert (bf : Nat → Nat → Bool) (ls : List (Nat × PriceLevel))
    (k : Nat) (v : PriceLevel) (pl : Nat × PriceLevel)
    (h : pl ∈ levelInsert bf k v ls) : pl ∈ ls ∨ pl = (k, v) := by
  induction ls with
  | nil =>
    simp [levelInsert] at h
    exact Or.inr h
  | cons e rest ih =>
    obtain ⟨p, l0⟩ := e
    by_cases hb : bf k p
    · simp only [levelInsert, hb, if_true] at h
      rcases List.mem_cons.mp h with h | h
      · exact Or.inr h
      · exact Or.inl h
    · simp only [levelInsert, hb, Bool.false_eq_true, if_false] at h
      rcases List.mem_cons.mp h with h | h
      · exact Or.inl (h ▸ List.mem_cons_self _ _)
      · rcases ih h with h | h
        · exact Or.inl (List.mem_cons_of_mem _ h)
        · exact Or.inr h

theorem mem_levelErase (ls : List (Nat × PriceLevel)) (k : Nat)
    (pl : Nat × PriceLevel) (h : pl ∈ levelErase ls k) : pl ∈ ls := by
  induction ls with
  | nil => simp [levelErase] at h
  | cons e rest ih =>
    obtain ⟨p, l0⟩ := e
    by_cases hpk : p = k
    · subst hpk
      simp only [levelErase, if_pos rfl] at h
      exact List.mem_cons_of_mem _ h
    · simp only [levelErase, hpk, if_neg hpk] at h
      rcases List.mem_cons.mp h with h | h
      · exact h ▸ List.mem_cons_self _ _
      · exact List.mem_cons_of_mem _ (ih h)

theorem levelErase_replace (ls : List (Nat × PriceLevel)) (k : Nat)
    (v : PriceLevel) : levelErase (levelReplace ls k v) k = levelErase ls k := by
  induction ls with
  | nil => simp [levelReplace, levelErase]
  | cons e rest ih =>
    obtain ⟨p, l0⟩ := e
    by_cases hpk : p = k
    · subst hpk
      simp [levelReplace, levelErase]
    · simp [levelReplace, levelErase, hpk, ih]

theorem matchLoop_empty_mem (crosses : Nat → Bool)
    (levels : List (Nat × PriceLevel)) :
    ∀ m agg execId pl,
      pl ∈ (matchLoop crosses m levels agg execId).2.1 →
      pl.2.total_volume = 0 → pl ∈ levels := by
  induction levels with
  | nil =>
    intro m agg e pl h _
    simp [matchLoop] at h
  | cons hd rest ih =>
    obtain ⟨p, lvl⟩ := hd
    intro m agg e pl h hv
    rw [matchLoop] at h
    by_cases hq0 : agg.quantity = 0
    · simp only [hq0, if_pos rfl] at h
      exact h
    · simp only [hq0, if_false] at h
      by_cases hcr : crosses p
      · simp only [hcr, if_true] at h
        by_cases hv0 : (lvl.FillOrder m agg (min agg.quantity lvl.total_volume)
            e).1.total_volume = 0
        · rw [if_pos hv0] at h
          exact List.mem_cons_of_mem _ (ih _ _ _ _ h hv)
        · rw [if_neg hv0] at h
          rcases List.mem_cons.mp h with h | h
          · exfalso
            rw [h] at hv
            exact hv0 hv
          · exact List.mem_cons_of_mem _ (ih _ _ _ _ h hv)
      · simp only [hcr, Bool.false_eq_true, if_false] at h
        exact h

theorem MatchOrders_empty_mem (b : Book) (o : Order) (pk : Nat)
    (lvl : PriceLevel)
    (h : (pk, lvl) ∈ (b.MatchOrders o).1.bids ∨
         (pk, lvl) ∈ (b.MatchOrders o).1.asks)
    (hv : lvl.total_volume = 0) :
    (pk, lvl) ∈ b.bids ∨ (pk, lvl) ∈ b.asks := by
  rw [Book.MatchOrders] at h
  rcases hb : o.is_buy_side with _ | _
  · rw [hb] at h
    simp only [Bool.false_eq_true, if_false] at h
    rcases h with h | h
    · exact Or.inl (matchLoop_empty_mem _ _ _ _ _ _ h hv)
    · exact Or.inr h
  · rw [hb] at h
    simp only [if_true] at h
    rcases h with h | h
    · exact Or.inl h
    · exact Or.inr (matchLoop_empty_mem _ _ _ _ _ _ h hv)

theorem AddRestingOrder_empty_mem (b : Book) (o : Order)
    (hq : 0 < o.quantity) (pk : Nat) (lvl : PriceLevel)
    (h : (pk, lvl) ∈ (b.AddRestingOrder o).bids ∨
         (pk, lvl) ∈ (b.AddRestingOrder o).asks)
    (hv : lvl.total_volume = 0) :
    (pk, lvl) ∈ b.bids ∨ (pk, lvl) ∈ b.asks := by
  rw [Book.AddRestingOrder] at h
  rcases hb : o.is_buy_side with _ | _
  · rw [hb] at h
    simp only [Bool.false_eq_true, if_false] at h
    rcases hcase : levelLookup b.asks o.price with _ | lvl0 <;>
      rw [hcase] at h <;>
      simp only [PriceLevel.AddOrder] at h
    · rcases h with h | h
      · exact Or.inl h
      · rcases mem_levelInsert _ _ _ _ _ h with h | h
        · exact Or.inr h
        · exfalso
          simp only [Prod.mk.injEq] at h
          rw [h.2] at hv
          simp at hv
          omega
    · rcases h with h | h
      · exact Or.inl h
      · rcases mem_levelReplace _ _ _ _ h with h | h
        · exact Or.inr h
        · exfalso
          simp only [Prod.mk.injEq] at h
          rw [h.2] at hv
          simp at hv
          omega
  · rw [hb] at h
    simp only [if_true] at h
    rcases hcase : levelLookup b.bids o.price with _ | lvl0 <;>
      rw [hcase] at h <;>
      simp only [PriceLevel.AddOrder] at h
    · rcases h with h | h
      · rcases mem_levelInsert _ _ _ _ _ h with h | h
        · exact Or.inl h
        · exfalso
          simp only [Prod.mk.injEq] at h
          rw [h.2] at hv
          simp at hv
          omega
      · exact Or.inr h
    · rcases h with h | h
      · rcases mem_levelReplace _ _ _ _ h with h | h
        · exact Or.inl h
        · exfalso
          simp only [Prod.mk.injEq] at h
          rw [h.2] at hv
          simp at hv
          omega
      · exact Or.inr h

theorem matchRest_empty_mem (b : Book) (o : Order) (c1 c2 : CmdOut)
    (h1 : c1.book = (b.MatchOrders o).1.AddRestingOrder (b.MatchOrders o).2.1)
    (h2 : c2.book = (b.MatchOrders o).1) (pk : Nat) (lvl : PriceLevel)
    (h : (pk, lvl) ∈ ((if (b.MatchOrders o).2.1.quantity > 0 then c1
        else c2).book).bids ∨
      (pk, lvl) ∈ ((if (b.MatchOrders o).2.1.quantity > 0 then c1
        else c2).book).asks)
    (hv : lvl.total_volume = 0) :
    (pk, lvl) ∈ b.bids ∨ (pk, lvl) ∈ b.asks := by
  by_cases hc : (b.MatchOrders o).2.1.quantity > 0
  · rw [if_pos hc] at h
    rw [h1] at h
    exact MatchOrders_empty_mem b o pk lvl
      (AddRestingOrder_empty_mem _ _ hc pk lvl h hv) hv
  · rw [if_neg hc] at h
    rw [h2] at h
    exact MatchOrders_empty_mem b o pk lvl h hv

theorem mapLookup_not_mem (m : List (Nat × Order)) (k : Nat)
    (h : k ∉ m.map Prod.fst) : mapLookup m k = none := by
  induction m with
  | nil => rfl
  | cons e rest ih =>
    obtain ⟨i, o⟩ := e
    simp only [List.map_cons, List.mem_cons, not_or] at h
    simp only [mapLookup, if_neg (Ne.symm h.1)]
    exact ih h.2

theorem mapErase_keys_sublist (m : List (Nat × Order)) (k : Nat) :
    ((mapErase m k).map Prod.fst).Sublist (m.map Prod.fst) := by
  induction m with
  | nil => simp [mapErase]
  | cons e rest ih =>
    obtain ⟨i, o⟩ := e
    by_cases hik : i = k
    · simp only [mapErase, if_pos hik, List.map_cons]
      exact List.sublist_cons_self _ _
    · simp only [mapErase, if_neg hik, List.map_cons]
      exact List.Sublist.cons₂ _ ih

theorem mapAssign_keys (m : List (Nat × Order)) (k : Nat) (v : Order)
    (h : (mapLookup m k).isSome) :
    (mapAssign m k v).map Prod.fst = m.map Prod.fst := by
  induction m with
  | nil => simp [mapLookup] at h
  | cons e rest ih =>
    obtain ⟨i, o⟩ := e
    by_cases hik : i = k
    · subst hik
      simp [mapAssign]
    · simp only [mapLookup, if_neg hik] at h
      simp [mapAssign, hik, ih h]

theorem mapLookup_erase_self (m : List (Nat × Order)) (k : Nat)
    (h : (m.map Prod.fst).Nodup) : mapLookup (mapErase m k) k = none := by
  induction m with
  | nil => rfl
  | cons e rest ih =>
    obtain ⟨i, o⟩ := e
    simp only [List.map_cons, List.nodup_cons] at h
    by_cases hik : i = k
    · subst hik
      simp only [mapErase, if_pos rfl]
      exact mapLookup_not_mem rest i h.1
    · simp only [mapErase, if_neg hik, mapLookup, if_neg hik]
      exact ih h.2

theorem mapLookup_mem (m : List (Nat × Order)) (k : Nat) (o : Order)
    (h : mapLookup m k = some o) : (k, o) ∈ m := by
  induction m with
  | nil => simp [mapLookup] at h
  | cons e rest ih =>
    obtain ⟨i, o0⟩ := e
    by_cases hik : i = k
    · subst hik
      simp [mapLookup] at h
      simp [h]
    · simp only [mapLookup, hik, if_neg hik] at h
      exact List.mem_cons_of_mem _ (ih h)

/-- C1: for every Add accepted with positive quantity and a fresh order id on
a well-formed book, the source matching procedure (`MatchOrders`, walking the
opposite side with per-level budget `min(remaining, level volume)` through
`PriceLevel::FillOrder` and a deferred order-index clean-up) produces exactly
the matching the specification describes (`SpecMatchOrders`): consumption of
the opposite side strictly from best price outward, only at levels whose price
crosses the incoming price, strictly FIFO within each level, each fill of
quantity min(aggressor remaining, head remaining) decrementing both the head's
remaining quantity and the level's total volume, heads popped and purged at
zero, emptied levels removed, stopping exactly when the aggressor is
exhausted, the crossing levels are exhausted, or the next level no longer
crosses. -/
theorem MatchOrders_eq_spec (b : Book) (hwf : WF b) (incoming : Order) :
    b.MatchOrders incoming = b.SpecMatchOrders incoming := by
  obtain ⟨hbs, has, hsb, hsa, hdisj, hmwf⟩ := hwf
  have hdisjB :
      ((b.bids.map (fun pl => pl.2.order_queue)).Pairwise List.Disjoint) :=
    List.Pairwise.sublist
      (List.Sublist.map _ (List.sublist_append_left b.bids b.asks)) hdisj
  have hdisjA :
      ((b.asks.map (fun pl => pl.2.order_queue)).Pairwise List.Disjoint) :=
    List.Pairwise.sublist
      (List.Sublist.map _ (List.sublist_append_right b.bids b.asks)) hdisj
  rw [Book.MatchOrders, Book.SpecMatchOrders]
  rcases hside : incoming.is_buy_side with _ | _
  · simp only [hside, Bool.false_eq_true, if_false]
    rw [matchLoop_refines _ _ _ _ _ hsb hdisjB]
  · simp only [hside, if_true]
    rw [matchLoop_refines _ _ _ _ _ hsa hdisjA]

theorem C1_matching_equals_specification (b : Book) (hwf : WF b)
    (incoming : Order) (hq : incoming.quantity ≠ 0)
    (hfresh : mapLookup b.order_map incoming.order_id = none) :
    b.MatchOrders incoming = b.SpecMatchOrders incoming :=
  MatchOrders_eq_spec b hwf incoming

/-- Witness for C1: a well-formed book with two resting asks and a fresh
crossing buy; the source matching and the specification's matching agree. -/
theorem C1_matching_equals_specification_witness :
    WF (Book.mk [(1, ⟨1, 1, false, 5, 100, 0, 0, some 100⟩),
                 (2, ⟨2, 2, false, 7, 110, 0, 0, some 110⟩)] []
        [(100, ⟨100, 5, [1]⟩), (110, ⟨110, 7, [2]⟩)] 0) ∧
    (Book.mk [(1, ⟨1, 1, false, 5, 100, 0, 0, some 100⟩),
              (2, ⟨2, 2, false, 7, 110, 0, 0, some 110⟩)] []
        [(100, ⟨100, 5, [1]⟩), (110, ⟨110, 7, [2]⟩)] 0).MatchOrders
      ⟨9, 3, true, 8, 105, 0, 0, none⟩ =
    (Book.mk [(1, ⟨1, 1, false, 5, 100, 0, 0, some 100⟩),
              (2, ⟨2, 2, false, 7, 110, 0, 0, some 110⟩)] []
        [(100, ⟨100, 5, [1]⟩), (110, ⟨110, 7, [2]⟩)] 0).SpecMatchOrders
      ⟨9, 3, true, 8, 105, 0, 0, none⟩ :=
  ⟨by decide,
   C1_matching_equals_specification _ (by decide) _ (by decide) (by decide)⟩

/-- C2 counterexample: on the empty book, `add(buy 10 @ 100); cancel` does
not restore `GetBestBid`: the cancelled order's emptied price level is left in
the bid book, so the best bid reads 100 instead of the prior 0. -/
theorem C2_cancel_not_inverse_for_best_bid :
    (Book.empty.AddOrder 7 1 true 10 100 0).outcome = Outcome.ok ∧
    (Book.empty.AddOrder 7 1 true 10 100 0).events =
      [Event.orderAcknowledged 7, Event.topOfBookUpdate 100 0 10 0] ∧
    ((Book.empty.AddOrder 7 1 true 10 100 0).book.CancelOrder 7).outcome =
      Outcome.ok ∧
    Book.empty.GetBestBid = 0 ∧
    ((Book.empty.AddOrder 7 1 true 10 100 0).book.CancelOrder 7).book.GetBestBid
      = 100 := by
  decide

/-- C2 as amended: for a well-formed book and an Add of a fresh order A that
does not cross the opposite side (so A rests), `add(A); cancel(A.order_id)`
always restores the order index, the opposite side book, and both total
volumes; but since `CancelOrder` leaves the emptied price level in the side
book, the same side's best price is restored if and only if A did not
strictly improve it (buy: `A.price ≤` prior best bid; sell: prior best ask
`≤ A.price` with a non-empty prior ask book, or `A.price = 0` with an empty
one). -/
theorem C2_add_then_cancel_amended (b : Book) (hwf : WF b) (id uid : Nat)
    (buy : Bool) (q p tsr tse : Nat) (hq : q ≠ 0)
    (hfresh : mapLookup b.order_map id = none)
    (hncA : buy = true → ∀ pa ∈ b.asks.map Prod.fst, p < pa)
    (hncB : buy = false → ∀ pb ∈ b.bids.map Prod.fst, pb < p) :
    ((b.AddOrderT id uid buy q p tsr tse).book.CancelOrder id).outcome =
      Outcome.ok ∧
    ((b.AddOrderT id uid buy q p tsr tse).book.CancelOrder id).book.order_map =
      b.order_map ∧
    ((b.AddOrderT id uid buy q p tsr tse).book.CancelOrder
        id).book.GetTotalBidVolume = b.GetTotalBidVolume ∧
    ((b.AddOrderT id uid buy q p tsr tse).book.CancelOrder
        id).book.GetTotalAskVolume = b.GetTotalAskVolume ∧
    (buy = true →
      ((b.AddOrderT id uid buy q p tsr tse).book.CancelOrder id).book.asks =
        b.asks) ∧
    (buy = false →
      ((b.AddOrderT id uid buy q p tsr tse).book.CancelOrder id).book.bids =
        b.bids) ∧
    (buy = true →
      (((b.AddOrderT id uid buy q p tsr tse).book.CancelOrder
          id).book.GetBestBid = b.GetBestBid ↔ p ≤ b.GetBestBid)) ∧
    (buy = false →
      (((b.AddOrderT id uid buy q p tsr tse).book.CancelOrder
          id).book.GetBestAsk = b.GetBestAsk ↔
        (b.asks = [] ∧ p = 0) ∨ (b.asks ≠ [] ∧ b.GetBestAsk ≤ p))) := by
  obtain ⟨hbs, has, hsb, hsa, hdisj, hmwf⟩ := hwf
  cases buy with
  | true =>
    have hmatch : b.MatchOrders ⟨id, uid, true, q, p, tsr, tse, none⟩ =
        (b, ⟨id, uid, true, q, p, tsr, tse, none⟩, []) :=
      MatchOrders_no_cross_buy b _ rfl
        (fun pa hpa => Nat.not_le.mpr (hncA rfl pa hpa))
    have haddb : (b.AddOrderT id uid true q p tsr tse).book =
        b.AddRestingOrder ⟨id, uid, true, q, p, tsr, tse, none⟩ := by
      rw [Book.AddOrderT]
      simp [hq, hfresh, hmatch, Nat.pos_of_ne_zero hq]
    obtain ⟨hok, hmap, hasks, hsome, hnone⟩ :=
      addRest_cancel_buy b ⟨id, uid, true, q, p, tsr, tse, none⟩ rfl hsb hfresh
    rw [haddb]
    refine ⟨hok, hmap, ?_, ?_, fun _ => hasks, fun hc => by simp at hc,
      fun _ => ?_, fun hc => by simp at hc⟩
    · -- total bid volume restored in both level cases
      rcases hcase : levelLookup b.bids p with _ | lvl
      · rw [Book.GetTotalBidVolume, Book.GetTotalBidVolume, hnone hcase]
        rw [volume_sum_insert]
        simp
      · rw [Book.GetTotalBidVolume, Book.GetTotalBidVolume, hsome lvl hcase]
    · -- ask side untouched
      rw [Book.GetTotalAskVolume, Book.GetTotalAskVolume, hasks]
    · -- best bid restored iff the add did not strictly improve it
      rcases hcase : levelLookup b.bids p with _ | lvl
      · rcases hbids : b.bids with _ | ⟨⟨p0, l0⟩, rest⟩
        · rw [Book.GetBestBid, Book.GetBestBid, hnone hcase, hbids]
          simp [levelInsert] <;> omega
        · rw [Book.GetBestBid, Book.GetBestBid, hnone hcase, hbids]
          simp only [levelInsert, bidBefore]
          by_cases hlt : p0 < p
          · simp [hlt] <;> omega
          · simp [hlt] <;> omega
      · have hmem : p ∈ b.bids.map Prod.fst := by
          have := levelLookup_mem _ _ _ hcase
          exact List.mem_map.mpr ⟨(p, lvl), this, rfl⟩
        rcases hbids : b.bids with _ | ⟨⟨p0, l0⟩, rest⟩
        · rw [hbids] at hmem
          simp at hmem
        · have hple : p ≤ p0 :=
            sorted_desc_head_ge b.bids hbs p hmem p0 l0 rest hbids
          rw [Book.GetBestBid, Book.GetBestBid, hsome lvl hcase, hbids]
          simp [hple]
  | false =>
    have hmatch : b.MatchOrders ⟨id, uid, false, q, p, tsr, tse, none⟩ =
        (b, ⟨id, uid, false, q, p, tsr, tse, none⟩, []) :=
      MatchOrders_no_cross_sell b _ rfl
        (fun pb hpb => Nat.not_le.mpr (hncB rfl pb hpb))
    have haddb : (b.AddOrderT id uid false q p tsr tse).book =
        b.AddRestingOrder ⟨id, uid, false, q, p, tsr, tse, none⟩ := by
      rw [Book.AddOrderT]
      simp [hq, hfresh, hmatch, Nat.pos_of_ne_zero hq]
    obtain ⟨hok, hmap, hbids0, hsome, hnone⟩ :=
      addRest_cancel_sell b ⟨id, uid, false, q, p, tsr, tse, none⟩ rfl hsa
        hfresh
    rw [haddb]
    refine ⟨hok, hmap, ?_, ?_, fun hc => by simp at hc, fun _ => hbids0,
      fun hc => by simp at hc, fun _ => ?_⟩
    · -- bid side untouched
      rw [Book.GetTotalBidVolume, Book.GetTotalBidVolume, hbids0]
    · -- total ask volume restored in both level cases
      rcases hcase : levelLookup b.asks p with _ | lvl
      · rw [Book.GetTotalAskVolume, Book.GetTotalAskVolume, hnone hcase]
        rw [volume_sum_insert]
        simp
      · rw [Book.GetTotalAskVolume, Book.GetTotalAskVolume, hsome lvl hcase]
    · -- best ask restored iff the add did not strictly improve it
      rcases hcase : levelLookup b.asks p with _ | lvl
      · rcases hasks2 : b.asks with _ | ⟨⟨p0, l0⟩, rest⟩
        · rw [Book.GetBestAsk, Book.GetBestAsk, hnone hcase, hasks2]
          simp [levelInsert] <;> omega
        · rw [Book.GetBestAsk, Book.GetBestAsk, hnone hcase, hasks2]
          simp only [levelInsert, askBefore]
          by_cases hlt : p < p0
          · simp [hlt] <;> omega
          · simp [hlt] <;> omega
      · have hmem : p ∈ b.asks.map Prod.fst := by
          have := levelLookup_mem _ _ _ hcase
          exact List.mem_map.mpr ⟨(p, lvl), this, rfl⟩
        rcases hasks2 : b.asks with _ | ⟨⟨p0, l0⟩, rest⟩
        · rw [hasks2] at hmem
          simp at hmem
        · have hple : p0 ≤ p :=
            sorted_asc_head_le b.asks has p hmem p0 l0 rest hasks2
          rw [Book.GetBestAsk, Book.GetBestAsk, hsome lvl hcase, hasks2]
          simp [hasks2, hple]

/-- Witness for C2 (amended): a concrete well-formed book with one resting
bid at 90 and one ask at 200; adding a fresh buy at 80 (non-crossing, not
improving the best bid) and cancelling it restores all four visible
quantities. -/
theorem C2_add_then_cancel_amended_witness :
    (((Book.mk [(1, ⟨1, 1, true, 5, 90, 0, 0, some 90⟩),
                (2, ⟨2, 1, false, 7, 200, 0, 0, some 200⟩)]
        [(90, ⟨90, 5, [1]⟩)] [(200, ⟨200, 7, [2]⟩)] 0).AddOrderT
          3 9 true 4 80 0 0).book.CancelOrder 3).outcome = Outcome.ok ∧
    (((Book.mk [(1, ⟨1, 1, true, 5, 90, 0, 0, some 90⟩),
                (2, ⟨2, 1, false, 7, 200, 0, 0, some 200⟩)]
        [(90, ⟨90, 5, [1]⟩)] [(200, ⟨200, 7, [2]⟩)] 0).AddOrderT
          3 9 true 4 80 0 0).book.CancelOrder 3).book.order_map =
      (Book.mk [(1, ⟨1, 1, true, 5, 90, 0, 0, some 90⟩),
                (2, ⟨2, 1, false, 7, 200, 0, 0, some 200⟩)]
        [(90, ⟨90, 5, [1]⟩)] [(200, ⟨200, 7, [2]⟩)] 0).order_map ∧
    (((Book.mk [(1, ⟨1, 1, true, 5, 90, 0, 0, some 90⟩),
                (2, ⟨2, 1, false, 7, 200, 0, 0, some 200⟩)]
        [(90, ⟨90, 5, [1]⟩)] [(200, ⟨200, 7, [2]⟩)] 0).AddOrderT
          3 9 true 4 80 0 0).book.CancelOrder 3).book.GetTotalBidVolume =
      (Book.mk [(1, ⟨1, 1, true, 5, 90, 0, 0, some 90⟩),
                (2, ⟨2, 1, false, 7, 200, 0, 0, some 200⟩)]
        [(90, ⟨90, 5, [1]⟩)] [(200, ⟨200, 7, [2]⟩)] 0).GetTotalBidVolume ∧
    ((((Book.mk [(1, ⟨1, 1, true, 5, 90, 0, 0, some 90⟩),
                (2, ⟨2, 1, false, 7, 200, 0, 0, some 200⟩)]
        [(90, ⟨90, 5, [1]⟩)] [(200, ⟨200, 7, [2]⟩)] 0).AddOrderT
          3 9 true 4 80 0 0).book.CancelOrder 3).book.GetBestBid =
      (Book.mk [(1, ⟨1, 1, true, 5, 90, 0, 0, some 90⟩),
                (2, ⟨2, 1, false, 7, 200, 0, 0, some 200⟩)]
        [(90, ⟨90, 5, [1]⟩)] [(200, ⟨200, 7, [2]⟩)] 0).GetBestBid ↔
      80 ≤ (Book.mk [(1, ⟨1, 1, true, 5, 90, 0, 0, some 90⟩),
                (2, ⟨2, 1, false, 7, 200, 0, 0, some 200⟩)]
        [(90, ⟨90, 5, [1]⟩)] [(200, ⟨200, 7, [2]⟩)] 0).GetBestBid) := by
  have h := C2_add_then_cancel_amended
    (Book.mk [(1, ⟨1, 1, true, 5, 90, 0, 0, some 90⟩),
              (2, ⟨2, 1, false, 7, 200, 0, 0, some 200⟩)]
      [(90, ⟨90, 5, [1]⟩)] [(200, ⟨200, 7, [2]⟩)] 0)
    (by decide)
    3 9 true 4 80 0 0 (by decide) (by decide)
    (fun _ => by decide) (fun hc => by simp at hc)
  exact ⟨h.1, h.2.1, h.2.2.1, h.2.2.2.2.2.2.1 rfl⟩

theorem erased_replaced_mem (ls : List (Nat × PriceLevel)) (k : Nat)
    (v : PriceLevel) (pk : Nat) (lvl : PriceLevel)
    (h : (pk, lvl) ∈ levelErase (levelReplace ls k v) k) : (pk, lvl) ∈ ls := by
  rw [levelErase_replace] at h
  exact mem_levelErase _ _ _ h

theorem replaced_nonzero_mem (ls : List (Nat × PriceLevel)) (k : Nat)
    (v : PriceLevel) (pk : Nat) (lvl : PriceLevel)
    (hne : ¬(v.total_volume = 0)) (hv : lvl.total_volume = 0)
    (h : (pk, lvl) ∈ levelReplace ls k v) : (pk, lvl) ∈ ls := by
  rcases mem_levelReplace _ _ _ _ h with h | h
  · exact h
  · exfalso
    simp only [Prod.mk.injEq] at h
    rw [h.2] at hv
    exact hne hv

/-- C3 as amended: no accepted Add or Modify command introduces a price level
with `total_volume = 0` (every empty level present afterwards was already
present before, so full fills and modifies remove emptied levels within the
same command); Cancel can introduce one, at the price the cancelled order's
back-link points to — cancelling the last order at a price leaves that level
present and empty in its side book. -/
theorem C3_empty_levels_only_from_cancel :
    (∀ (b : Book) (id uid : Nat) (buy : Bool) (q p tsr tse pk : Nat)
       (lvl : PriceLevel),
      ((pk, lvl) ∈ (b.AddOrderT id uid buy q p tsr tse).book.bids ∨
       (pk, lvl) ∈ (b.AddOrderT id uid buy q p tsr tse).book.asks) →
      lvl.total_volume = 0 →
      ((pk, lvl) ∈ b.bids ∨ (pk, lvl) ∈ b.asks)) ∧
    (∀ (b : Book), WF b → ∀ (id nq np now pk : Nat) (lvl : PriceLevel),
      ((pk, lvl) ∈ (b.ModifyOrder id nq np now).book.bids ∨
       (pk, lvl) ∈ (b.ModifyOrder id nq np now).book.asks) →
      lvl.total_volume = 0 →
      ((pk, lvl) ∈ b.bids ∨ (pk, lvl) ∈ b.asks)) ∧
    (∀ (b : Book) (id pk : Nat) (lvl : PriceLevel),
      ((pk, lvl) ∈ (b.CancelOrder id).book.bids ∨
       (pk, lvl) ∈ (b.CancelOrder id).book.asks) →
      lvl.total_volume = 0 →
      ((pk, lvl) ∈ b.bids ∨ (pk, lvl) ∈ b.asks) ∨
      (∃ o, mapLookup b.order_map id = some o ∧
        o.parent_price_level = some pk)) := by
  refine ⟨?_, ?_, ?_⟩
  · -- Add
    intro b id uid buy q p tsr tse pk lvl h hv
    rw [Book.AddOrderT] at h
    by_cases hq : q = 0
    · rw [if_pos hq] at h
      exact h
    · rw [if_neg hq] at h
      by_cases hdup : (mapLookup b.order_map id).isSome = true
      · rw [if_pos hdup] at h
        exact h
      · rw [if_neg hdup] at h
        by_cases hrest :
            (b.MatchOrders ⟨id, uid, buy, q, p, tsr, tse, none⟩).2.1.quantity
              > 0
        · rw [if_pos hrest] at h
          exact MatchOrders_empty_mem b _ pk lvl
            (AddRestingOrder_empty_mem _ _ hrest pk lvl h hv) hv
        · rw [if_neg hrest] at h
          exact MatchOrders_empty_mem b _ pk lvl h hv
  · -- Modify
    intro b hwf id nq np now pk lvl h hv
    by_cases hnq : nq = 0
    · rw [Book.ModifyOrder, if_pos hnq] at h
      exact h
    rcases hlook : mapLookup b.order_map id with _ | o
    · rw [Book.ModifyOrder, if_neg hnq] at h
      simp only [hlook] at h
      exact h
    rcases hpar : o.parent_price_level with _ | pp
    · rw [Book.ModifyOrder, if_neg hnq] at h
      simp only [hlook, hpar] at h
      exact h
    have hmem := mapLookup_mem _ _ _ hlook
    have hentry := hwf.2.2.2.2.2.2 (id, o) hmem
    have hpp : pp = o.price := by
      have hx := hentry.2.2.1
      rw [hpar] at hx
      exact Option.some.inj hx
    subst hpp
    rcases hbuy : o.is_buy_side with _ | _
    · -- sell: removal acts on the ask book
      rcases hll : levelLookup b.asks o.price with _ | lvl0
      · rw [Book.ModifyOrder, if_neg hnq] at h
        simp only [hlook, hpar, hbuy, Bool.false_eq_true, if_false, hll] at h
        exact h
      rcases hrm : lvl0.RemoveOrder o with _ | rr
      · rw [Book.ModifyOrder, if_neg hnq] at h
        simp only [hlook, hpar, hbuy, Bool.false_eq_true, if_false, hll,
          hrm] at h
        exact h
      by_cases hz : rr.1.total_volume = 0
      · rw [Book.ModifyOrder, if_neg hnq] at h
        simp only [hlook, hpar, hbuy, Bool.false_eq_true, if_false, hll, hrm,
          hz, if_true] at h
        by_cases hts : np = o.price ∧ nq ≤ o.quantity <;>
          simp only [hts, if_true, if_false] at h <;>
          (have hmid := matchRest_empty_mem _ _ _ _ rfl rfl pk lvl h hv
           rcases hmid with hmid | hmid <;> [exact Or.inl hmid; exact Or.inr (erased_replaced_mem _ _ _ _ _ hmid)])
      · rw [Book.ModifyOrder, if_neg hnq] at h
        simp only [hlook, hpar, hbuy, Bool.false_eq_true, if_false, hll, hrm,
          hz] at h
        by_cases hts : np = o.price ∧ nq ≤ o.quantity <;>
          simp only [hts, if_true, if_false] at h <;>
          (have hmid := matchRest_empty_mem _ _ _ _ rfl rfl pk lvl h hv
           rcases hmid with hmid | hmid <;> [exact Or.inl hmid; exact Or.inr (replaced_nonzero_mem _ _ _ _ _ hz hv hmid)])
    · -- buy: removal acts on the bid book
      rcases hll : levelLookup b.bids o.price with _ | lvl0
      · rw [Book.ModifyOrder, if_neg hnq] at h
        simp only [hlook, hpar, hbuy, if_true, hll] at h
        exact h
      rcases hrm : lvl0.RemoveOrder o with _ | rr
      · rw [Book.ModifyOrder, if_neg hnq] at h
        simp only [hlook, hpar, hbuy, if_true, hll, hrm] at h
        exact h
      by_cases hz : rr.1.total_volume = 0
      · rw [Book.ModifyOrder, if_neg hnq] at h
        simp only [hlook, hpar, hbuy, if_true, hll, hrm, hz] at h
        by_cases hts : np = o.price ∧ nq ≤ o.quantity <;>
          simp only [hts, if_true, if_false] at h <;>
          (have hmid := matchRest_empty_mem _ _ _ _ rfl rfl pk lvl h hv
           rcases hmid with hmid | hmid <;> [exact Or.inl (erased_replaced_mem _ _ _ _ _ hmid); exact Or.inr hmid])
      · rw [Book.ModifyOrder, if_neg hnq] at h
        simp only [hlook, hpar, hbuy, if_true, hll, hrm, hz] at h
        by_cases hts : np = o.price ∧ nq ≤ o.quantity <;>
          simp only [hts, if_true, if_false] at h <;>
          (have hmid := matchRest_empty_mem _ _ _ _ rfl rfl pk lvl h hv
           rcases hmid with hmid | hmid <;> [exact Or.inl (replaced_nonzero_mem _ _ _ _ _ hz hv hmid); exact Or.inr hmid])
  · -- Cancel
    intro b id pk lvl h hv
    rcases hlook : mapLookup b.order_map id with _ | o
    · rw [Book.CancelOrder] at h
      simp only [hlook] at h
      exact Or.inl h
    rcases hpar : o.parent_price_level with _ | pp
    · rw [Book.CancelOrder] at h
      simp only [hlook, hpar] at h
      exact Or.inl h
    rcases hbuy : o.is_buy_side with _ | _
    · rcases hll : levelLookup b.asks pp with _ | lvl0
      · rw [Book.CancelOrder] at h
        simp only [hlook, hpar, hbuy, Bool.false_eq_true, if_false, hll] at h
        exact Or.inl h
      rcases hrm : lvl0.RemoveOrder o with _ | rr
      · rw [Book.CancelOrder] at h
        simp only [hlook, hpar, hbuy, Bool.false_eq_true, if_false, hll,
          hrm] at h
        exact Or.inl h
      rw [Book.CancelOrder] at h
      simp only [hlook, hpar, hbuy, Bool.false_eq_true, if_false, hll,
        hrm] at h
      rcases h with h | h
      · exact Or.inl (Or.inl h)
      · rcases mem_levelReplace _ _ _ _ h with h | h
        · exact Or.inl (Or.inr h)
        · right
          refine ⟨o, rfl, ?_⟩
          rw [hpar]
          simp only [Prod.mk.injEq] at h
          rw [h.1]
    · rcases hll : levelLookup b.bids pp with _ | lvl0
      · rw [Book.CancelOrder] at h
        simp only [hlook, hpar, hbuy, if_true, hll] at h
        exact Or.inl h
      rcases hrm : lvl0.RemoveOrder o with _ | rr
      · rw [Book.CancelOrder] at h
        simp only [hlook, hpar, hbuy, if_true, hll, hrm] at h
        exact Or.inl h
      rw [Book.CancelOrder] at h
      simp only [hlook, hpar, hbuy, if_true, hll, hrm] at h
      rcases h with h | h
      · rcases mem_levelReplace _ _ _ _ h with h | h
        · exact Or.inl (Or.inl h)
        · right
          refine ⟨o, rfl, ?_⟩
          rw [hpar]
          simp only [Prod.mk.injEq] at h
          rw [h.1]
      · exact Or.inl (Or.inr h)

/-- Witness for C3 (amended): a pre-existing empty level survives an Add and
a Modify but is traced back to the prior book; a Cancel leaves a fresh empty
level at the cancelled order's back-link price. -/
theorem C3_empty_levels_only_from_cancel_witness :
    ((50, (⟨50, 0, []⟩ : PriceLevel)) ∈
        (Book.mk [] [(50, ⟨50, 0, []⟩)] [] 0).bids ∨
      (50, (⟨50, 0, []⟩ : PriceLevel)) ∈
        (Book.mk [] [(50, ⟨50, 0, []⟩)] [] 0).asks) ∧
    ((70, (⟨70, 0, []⟩ : PriceLevel)) ∈
        (Book.mk [(1, ⟨1, 1, true, 5, 90, 0, 0, some 90⟩)]
          [(90, ⟨90, 5, [1]⟩), (70, ⟨70, 0, []⟩)] [] 0).bids ∨
      (70, (⟨70, 0, []⟩ : PriceLevel)) ∈
        (Book.mk [(1, ⟨1, 1, true, 5, 90, 0, 0, some 90⟩)]
          [(90, ⟨90, 5, [1]⟩), (70, ⟨70, 0, []⟩)] [] 0).asks) ∧
    (((90, (⟨90, 0, []⟩ : PriceLevel)) ∈
        (Book.mk [(1, ⟨1, 1, true, 5, 90, 0, 0, some 90⟩)]
          [(90, ⟨90, 5, [1]⟩)] [] 0).bids ∨
      (90, (⟨90, 0, []⟩ : PriceLevel)) ∈
        (Book.mk [(1, ⟨1, 1, true, 5, 90, 0, 0, some 90⟩)]
          [(90, ⟨90, 5, [1]⟩)] [] 0).asks) ∨
      (∃ o, mapLookup (Book.mk [(1, ⟨1, 1, true, 5, 90, 0, 0, some 90⟩)]
          [(90, ⟨90, 5, [1]⟩)] [] 0).order_map 1 = some o ∧
        o.parent_price_level = some 90)) :=
  ⟨C3_empty_levels_only_from_cancel.1
      (Book.mk [] [(50, ⟨50, 0, []⟩)] [] 0) 1 1 true 5 60 0 0 50 ⟨50, 0, []⟩
      (by decide) (by decide),
   C3_empty_levels_only_from_cancel.2.1
      (Book.mk [(1, ⟨1, 1, true, 5, 90, 0, 0, some 90⟩)]
        [(90, ⟨90, 5, [1]⟩), (70, ⟨70, 0, []⟩)] [] 0)
      (by decide) 1 3 90 0 70 ⟨70, 0, []⟩ (by decide) (by decide),
   C3_empty_levels_only_from_cancel.2.2
      (Book.mk [(1, ⟨1, 1, true, 5, 90, 0, 0, some 90⟩)]
        [(90, ⟨90, 5, [1]⟩)] [] 0) 1 90 ⟨90, 0, []⟩
      (by decide) (by decide)⟩

/-- C3 counterexample: after the accepted command `cancel(7)` removes the last
order at price 100, the bid book still holds the price level 100 with
`total_volume = 0` — the emptied level is not removed by cancellation. -/
theorem C3_cancel_leaves_empty_level :
    ((Book.empty.AddOrder 7 1 true 10 100 0).book.CancelOrder 7).outcome =
      Outcome.ok ∧
    ((Book.empty.AddOrder 7 1 true 10 100 0).book.CancelOrder 7).book.bids =
      [(100, ⟨100, 0, []⟩)] := by
  decide


/-! ## Further association-list and sortedness facts for the invariant proofs -/

theorem mapLookup_of_mem_nodup (m : List (Nat × Order)) (i : Nat) (o : Order)
    (hnd : (m.map Prod.fst).Nodup) (h : (i, o) ∈ m) : mapLookup m i = some o := by
  induction m with
  | nil => simp at h
  | cons e rest ih =>
    obtain ⟨j, o0⟩ := e
    simp only [List.map_cons, List.nodup_cons] at hnd
    rcases List.mem_cons.mp h with h | h
    · obtain ⟨rfl, rfl⟩ := Prod.ext_iff.mp h.symm
      simp [mapLookup]
    · have hji : j ≠ i := fun he => hnd.1 (he ▸ List.mem_map.mpr ⟨(i, o), h, rfl⟩)
      simp only [mapLookup, if_neg hji]
      exact ih hnd.2 h

theorem mapErase_mem (m : List (Nat × Order)) (k : Nat) (e : Nat × Order)
    (h : e ∈ mapErase m k) : e ∈ m := by
  induction m with
  | nil => simp [mapErase] at h
  | cons e0 rest ih =>
    obtain ⟨i, o⟩ := e0
    by_cases hik : i = k
    · subst hik
      simp only [mapErase, if_pos rfl] at h
      exact List.mem_cons_of_mem _ h
    · simp only [mapErase, if_neg hik] at h
      rcases List.mem_cons.mp h with h | h
      · exact h ▸ List.mem_cons_self _ _
      · exact List.mem_cons_of_mem _ (ih h)

theorem mapAssign_mem (m : List (Nat × Order)) (k : Nat) (v : Order)
    (e : Nat × Order) (h : e ∈ mapAssign m k v) : e ∈ m ∨ e = (k, v) := by
  induction m with
  | nil =>
    simp [mapAssign] at h
    exact Or.inr h
  | cons e0 rest ih =>
    obtain ⟨i, o⟩ := e0
    by_cases hik : i = k
    · subst hik
      simp only [mapAssign, if_pos rfl] at h
      rcases List.mem_cons.mp h with h | h
      · exact Or.inr h
      · exact Or.inl (List.mem_cons_of_mem _ h)
    · simp only [mapAssign, if_neg hik] at h
      rcases List.mem_cons.mp h with h | h
      · exact Or.inl (h ▸ List.mem_cons_self _ _)
      · rcases ih h with h | h
        · exact Or.inl (List.mem_cons_of_mem _ h)
        · exact Or.inr h

theorem mapAssign_keys_fresh (m : List (Nat × Order)) (k : Nat) (v : Order)
    (h : mapLookup m k = none) :
    (mapAssign m k v).map Prod.fst = m.map Prod.fst ++ [k] := by
  induction m with
  | nil => simp [mapAssign]
  | cons e rest ih =>
    obtain ⟨i, o⟩ := e
    by_cases hik : i = k
    · simp [mapLookup, hik] at h
    · simp only [mapLookup, if_neg hik] at h
      simp [mapAssign, hik, ih h]

theorem levelReplace_keys (ls : List (Nat × PriceLevel)) (k : Nat)
    (v : PriceLevel) :
    (levelReplace ls k v).map Prod.fst = ls.map Prod.fst := by
  induction ls with
  | nil => rfl
  | cons e rest ih =>
    obtain ⟨p, l0⟩ := e
    by_cases hpk : p = k
    · subst hpk
      simp [levelReplace]
    · simp [levelReplace, hpk, ih]

theorem levelLookup_replace_ne (ls : List (Nat × PriceLevel)) (k : Nat)
    (v : PriceLevel) (i : Nat) (h : i ≠ k) :
    levelLookup (levelReplace ls k v) i = levelLookup ls i := by
  induction ls with
  | nil => rfl
  | cons e rest ih =>
    obtain ⟨p, l0⟩ := e
    by_cases hpk : p = k
    · subst hpk
      simp [levelReplace, levelLookup, Ne.symm h]
    · by_cases hpi : p = i
      · subst hpi
        simp [levelReplace, levelLookup, hpk]
      · simp [levelReplace, levelLookup, hpk, hpi, ih]

theorem levelLookup_erase_ne (ls : List (Nat × PriceLevel)) (k i : Nat)
    (h : i ≠ k) :
    levelLookup (levelErase ls k) i = levelLookup ls i := by
  induction ls with
  | nil => rfl
  | cons e rest ih =>
    obtain ⟨p, l0⟩ := e
    by_cases hpk : p = k
    · subst hpk
      simp [levelErase, levelLookup, Ne.symm h]
    · by_cases hpi : p = i
      · subst hpi
        simp [levelErase, levelLookup, hpk]
      · simp [levelErase, levelLookup, hpk, hpi, ih]

theorem levelErase_keys_sublist (ls : List (Nat × PriceLevel)) (k : Nat) :
    ((levelErase ls k).map Prod.fst).Sublist (ls.map Prod.fst) := by
  induction ls with
  | nil => simp [levelErase]
  | cons e rest ih =>
    obtain ⟨p, l0⟩ := e
    by_cases hpk : p = k
    · simp only [levelErase, if_pos hpk, List.map_cons]
      exact List.sublist_cons_self _ _
    · simp only [levelErase, if_neg hpk, List.map_cons]
      exact List.Sublist.cons₂ _ ih

theorem levelLookup_of_mem_nodup (ls : List (Nat × PriceLevel)) (k : Nat)
    (l : PriceLevel) (hnd : (ls.map Prod.fst).Nodup) (h : (k, l) ∈ ls) :
    levelLookup ls k = some l := by
  induction ls with
  | nil => simp at h
  | cons e rest ih =>
    obtain ⟨p, l0⟩ := e
    simp only [List.map_cons, List.nodup_cons] at hnd
    rcases List.mem_cons.mp h with h | h
    · obtain ⟨rfl, rfl⟩ := Prod.ext_iff.mp h.symm
      simp [levelLookup]
    · have hpk : p ≠ k := fun he => hnd.1 (he ▸ List.mem_map.mpr ⟨(k, l), h, rfl⟩)
      simp only [levelLookup, if_neg hpk]
      exact ih hnd.2 h

theorem pairwise_disjoint_mem_unique {α : Type} (f : α → List Nat)
    (l : List α) (hp : (l.map f).Pairwise List.Disjoint) (x y : α)
    (hx : x ∈ l) (hy : y ∈ l) (a : Nat) (hax : a ∈ f x) (hay : a ∈ f y) :
    x = y := by
  induction l with
  | nil => simp at hx
  | cons b t ih =>
    simp only [List.map_cons, List.pairwise_cons] at hp
    rcases List.mem_cons.mp hx with hx1 | hx1
    · rcases List.mem_cons.mp hy with hy1 | hy1
      · rw [hx1, hy1]
      · subst hx1
        exact absurd hay (hp.1 (f y) (List.mem_map.mpr ⟨y, hy1, rfl⟩) hax)
    · rcases List.mem_cons.mp hy with hy1 | hy1
      · subst hy1
        exact absurd hax (hp.1 (f x) (List.mem_map.mpr ⟨x, hx1, rfl⟩) hay)
      · exact ih hp.2 hx1 hy1

theorem forall2_sub_mem (l2 l1 : List (List Nat)) (q : List Nat)
    (h : List.Forall₂ (fun a b => a ⊆ b) l2 l1) (hq : q ∈ l2) :
    ∃ q1 ∈ l1, q ⊆ q1 := by
  induction h with
  | nil => simp at hq
  | cons hab htail ih =>
    rcases List.mem_cons.mp hq with hq | hq
    · exact ⟨_, List.mem_cons_self _ _, hq ▸ hab⟩
    · obtain ⟨q1, hq1, hsub⟩ := ih hq
      exact ⟨q1, List.mem_cons_of_mem _ hq1, hsub⟩

theorem pairwise_disjoint_forall2 (l2 l1 : List (List Nat))
    (h : List.Forall₂ (fun a b => a ⊆ b) l2 l1)
    (hp : l1.Pairwise List.Disjoint) : l2.Pairwise List.Disjoint := by
  induction h with
  | nil => exact List.Pairwise.nil
  | cons hab htail ih =>
    rcases List.pairwise_cons.mp hp with ⟨hp1, hp2⟩
    refine List.pairwise_cons.mpr ⟨?_, ih hp2⟩
    intro q hq x hxa hxq
    obtain ⟨q1, hq1, hsub⟩ := forall2_sub_mem _ _ q htail hq
    exact hp1 q1 hq1 (hab hxa) (hsub hxq)

theorem qsum_erase (m : List (Nat × Order)) (q : List Nat) (id : Nat)
    (hmem : id ∈ q) : qsum m q = qtyOf m id + qsum m (q.erase id) := by
  have hperm : q.Perm (id :: q.erase id) := List.perm_cons_erase hmem
  have h1 : qsum m q = qsum m (id :: q.erase id) := by
    unfold qsum
    exact (hperm.map (qtyOf m)).sum_eq
  rw [h1]
  simp [qsum]

theorem levelInsert_keys_mem (bf : Nat → Nat → Bool)
    (ls : List (Nat × PriceLevel)) (k : Nat) (v : PriceLevel) (q : Nat)
    (h : q ∈ (levelInsert bf k v ls).map Prod.fst) :
    q = k ∨ q ∈ ls.map Prod.fst := by
  obtain ⟨pl, hpl, rfl⟩ := List.mem_map.mp h
  rcases mem_levelInsert bf ls k v pl hpl with h | h
  · exact Or.inr (List.mem_map.mpr ⟨pl, h, rfl⟩)
  · subst h
    exact Or.inl rfl

theorem levelLookup_insert_ne (bf : Nat → Nat → Bool)
    (ls : List (Nat × PriceLevel)) (k : Nat) (v : PriceLevel) (i : Nat)
    (h : i ≠ k) :
    levelLookup (levelInsert bf k v ls) i = levelLookup ls i := by
  induction ls with
  | nil => simp [levelInsert, levelLookup, Ne.symm h]
  | cons e rest ih =>
    obtain ⟨p, l0⟩ := e
    by_cases hb : bf k p
    · simp [levelInsert, hb, levelLookup, Ne.symm h]
    · by_cases hpi : p = i
      · subst hpi
        simp [levelInsert, hb, levelLookup]
      · simp [levelInsert, hb, levelLookup, hpi, ih]

theorem levelInsert_sorted_desc (ls : List (Nat × PriceLevel)) (k : Nat)
    (v : PriceLevel) (hs : (ls.map Prod.fst).Pairwise (fun a c => c < a))
    (hk : k ∉ ls.map Prod.fst) :
    ((levelInsert bidBefore k v ls).map Prod.fst).Pairwise
      (fun a c => c < a) := by
  induction ls with
  | nil => simp [levelInsert]
  | cons e rest ih =>
    obtain ⟨p, l0⟩ := e
    simp only [List.map_cons, List.mem_cons, not_or] at hk
    simp only [List.map_cons, List.pairwise_cons] at hs
    by_cases hb : p < k
    · have hbb : bidBefore k p = true := by simp [bidBefore, hb]
      simp only [levelInsert, hbb, if_true, List.map_cons]
      refine List.pairwise_cons.mpr ⟨?_, List.pairwise_cons.mpr hs⟩
      intro q hq
      rcases List.mem_cons.mp hq with hq | hq
      · omega
      · have := hs.1 q hq
        omega
    · have hbb : bidBefore k p = false := by simp [bidBefore]; omega
      simp only [levelInsert, hbb, Bool.false_eq_true, if_false, List.map_cons]
      refine List.pairwise_cons.mpr ⟨?_, ih hs.2 hk.2⟩
      intro q hq
      rcases levelInsert_keys_mem bidBefore rest k v q hq with hq | hq
      · subst hq
        omega
      · exact hs.1 q hq

theorem levelInsert_sorted_asc (ls : List (Nat × PriceLevel)) (k : Nat)
    (v : PriceLevel) (hs : (ls.map Prod.fst).Pairwise (fun a c => a < c))
    (hk : k ∉ ls.map Prod.fst) :
    ((levelInsert askBefore k v ls).map Prod.fst).Pairwise
      (fun a c => a < c) := by
  induction ls with
  | nil => simp [levelInsert]
  | cons e rest ih =>
    obtain ⟨p, l0⟩ := e
    simp only [List.map_cons, List.mem_cons, not_or] at hk
    simp only [List.map_cons, List.pairwise_cons] at hs
    by_cases hb : k < p
    · have hbb : askBefore k p = true := by simp [askBefore, hb]
      simp only [levelInsert, hbb, if_true, List.map_cons]
      refine List.pairwise_cons.mpr ⟨?_, List.pairwise_cons.mpr hs⟩
      intro q hq
      rcases List.mem_cons.mp hq with hq | hq
      · omega
      · have := hs.1 q hq
        omega
    · have hbb : askBefore k p = false := by simp [askBefore]; omega
      simp only [levelInsert, hbb, Bool.false_eq_true, if_false, List.map_cons]
      refine List.pairwise_cons.mpr ⟨?_, ih hs.2 hk.2⟩
      intro q hq
      rcases levelInsert_keys_mem askBefore rest k v q hq with hq | hq
      · subst hq
        omega
      · exact hs.1 q hq

/-! ## Characterizing the specification fill on one level -/

theorem specFill_queue_suffix (aggId aggUid tsr tse : Nat) (queue : List Nat)
    (price : Nat) :
    ∀ m tv aggRem execId,
      List.IsSuffix
        (specFill aggId aggUid tsr tse m queue price tv aggRem execId).2.1
        queue := by
  induction queue with
  | nil => intro m tv aggRem e; exact List.nil_suffix
  | cons hid qrest ih =>
    intro m tv aggRem e
    rw [specFill]
    by_cases hr : aggRem = 0
    · simp only [hr, if_true, if_pos rfl]
      exact List.suffix_refl _
    · simp only [hr, if_false]
      rcases hl : mapLookup m hid with _ | top
      · exact List.suffix_refl _
      · by_cases hfull : top.quantity ≤ aggRem
        · simp only [hfull, if_true]
          exact List.IsSuffix.trans (ih _ _ _ _) (List.suffix_cons hid qrest)
        · simp only [hfull, if_false]
          exact List.suffix_refl _

theorem specFill_heap_char (aggId aggUid tsr tse : Nat) (queue : List Nat)
    (price : Nat) :
    ∀ m tv aggRem execId,
      (m.map Prod.fst).Nodup →
      ∀ id o',
        mapLookup (specFill aggId aggUid tsr tse m queue price tv aggRem
          execId).1 id = some o' →
        ∃ o, mapLookup m id = some o ∧
          o' = { o with quantity := o'.quantity } ∧
          (0 < o.quantity → 0 < o'.quantity) := by
  induction queue with
  | nil =>
    intro m tv aggRem e _ id o' h
    exact ⟨o', h, rfl, fun hp => hp⟩
  | cons hid qrest ih =>
    intro m tv aggRem e hnd id o' h
    rw [specFill] at h
    by_cases hr : aggRem = 0
    · simp only [hr, if_true, if_pos rfl] at h
      exact ⟨o', h, rfl, fun hp => hp⟩
    · simp only [hr, if_false] at h
      rcases hl : mapLookup m hid with _ | top
      · rw [hl] at h
        exact ⟨o', h, rfl, fun hp => hp⟩
      · rw [hl] at h
        by_cases hfull : top.quantity ≤ aggRem
        · simp only [hfull, if_true] at h
          obtain ⟨o, ho, hfield, hpos⟩ := ih _ _ _ _
            ((mapErase_keys_sublist m hid).nodup hnd) id o' h
          by_cases hidh : id = hid
          · subst hidh
            rw [mapLookup_erase_self m id hnd] at ho
            exact absurd ho (by simp)
          · rw [mapLookup_erase_ne m hid id hidh] at ho
            exact ⟨o, ho, hfield, hpos⟩
        · simp only [hfull, if_false] at h
          rw [mapLookup_assign] at h
          by_cases hidh : id = hid
          · subst hidh
            rw [if_pos rfl] at h
            have hv := Option.some.inj h
            refine ⟨top, hl, ?_, ?_⟩
            · rw [← hv]
            · intro _
              rw [← hv]
              simp only [not_le] at hfull
              show 0 < top.quantity - aggRem
              omega
          · rw [if_neg hidh] at h
            exact ⟨o', h, rfl, fun hp => hp⟩

theorem specFill_tv (aggId aggUid tsr tse : Nat) (queue : List Nat)
    (price : Nat) :
    ∀ m tv aggRem execId,
      queue.Nodup →
      (∀ id ∈ queue, (mapLookup m id).isSome ∧ 0 < qtyOf m id) →
      tv = qsum m queue →
      (specFill aggId aggUid tsr tse m queue price tv aggRem execId).2.2.1 =
        qsum (specFill aggId aggUid tsr tse m queue price tv aggRem execId).1
          (specFill aggId aggUid tsr tse m queue price tv aggRem
            execId).2.1 := by
  induction queue with
  | nil =>
    intro m tv aggRem e _ _ htv
    simpa [specFill] using htv
  | cons hid qrest ih =>
    intro m tv aggRem e hnod hmem htv
    have hhid : hid ∉ qrest := (List.nodup_cons.mp hnod).1
    rw [specFill]
    by_cases hr : aggRem = 0
    · simp only [hr, if_true, if_pos rfl]
      exact htv
    · simp only [hr, if_false]
      rcases hl : mapLookup m hid with _ | top
      · have := (hmem hid (List.mem_cons_self _ _)).1
        rw [hl] at this
        simp at this
      · have hq : qtyOf m hid = top.quantity := by rw [qtyOf, hl]
        have htv2 : tv = top.quantity + qsum m qrest := by
          rw [htv, qsum_erase m _ hid (List.mem_cons_self _ _), hq]
          have : (hid :: qrest).erase hid = qrest := by
            simp [List.erase_cons_head]
          rw [this]
        by_cases hfull : top.quantity ≤ aggRem
        · simp only [hfull, if_true]
          apply ih
          · exact (List.nodup_cons.mp hnod).2
          · intro id hidq
            have hne : id ≠ hid := fun he => hhid (he ▸ hidq)
            rw [mapLookup_erase_ne m hid id hne,
              qtyOf, mapLookup_erase_ne m hid id hne, ← qtyOf]
            exact hmem id (List.mem_cons_of_mem _ hidq)
          · have : qsum (mapErase m hid) qrest = qsum m qrest :=
              qsum_congr m _ qrest (fun i hi =>
                mapLookup_erase_ne m hid i (fun he => hhid (he ▸ hi)))
            omega
        · simp only [hfull, if_false]
          show tv - aggRem = qsum
            (mapAssign m hid { top with quantity := top.quantity - aggRem })
            (hid :: qrest)
          rw [qsum_erase _ _ hid (List.mem_cons_self _ _)]
          have h1 : (hid :: qrest).erase hid = qrest := by
            simp [List.erase_cons_head]
          rw [h1]
          have h2 : qtyOf
              (mapAssign m hid { top with quantity := top.quantity - aggRem })
              hid = top.quantity - aggRem := by
            rw [qtyOf, mapLookup_assign]
            simp
          have h3 : qsum
              (mapAssign m hid { top with quantity := top.quantity - aggRem })
              qrest = qsum m qrest := by
            apply qsum_congr
            intro i hi
            rw [mapLookup_assign]
            rw [if_neg (fun he : i = hid => hhid (he ▸ hi))]
          rw [h2, h3]
          omega

theorem specFill_survivor (aggId aggUid tsr tse : Nat) (queue : List Nat)
    (price : Nat) :
    ∀ m tv aggRem execId,
      queue.Nodup →
      (∀ id ∈ queue, (mapLookup m id).isSome ∧ 0 < qtyOf m id) →
      ∀ id ∈ (specFill aggId aggUid tsr tse m queue price tv aggRem
          execId).2.1,
        (mapLookup (specFill aggId aggUid tsr tse m queue price tv aggRem
          execId).1 id).isSome ∧
        0 < qtyOf (specFill aggId aggUid tsr tse m queue price tv aggRem
          execId).1 id := by
  induction queue with
  | nil =>
    intro m tv aggRem e _ _ id hid
    simp [specFill] at hid
  | cons hid0 qrest ih =>
    intro m tv aggRem e hnod hmem id hid
    have hhid : hid0 ∉ qrest := (List.nodup_cons.mp hnod).1
    rw [specFill] at hid ⊢
    by_cases hr : aggRem = 0
    · simp only [hr, if_true, if_pos rfl] at hid ⊢
      exact hmem id hid
    · simp only [hr, if_false] at hid ⊢
      rcases hl : mapLookup m hid0 with _ | top
      · rw [hl] at hid
        exact hmem id hid
      · rw [hl] at hid
        by_cases hfull : top.quantity ≤ aggRem
        · simp only [hfull, if_true] at hid ⊢
          apply ih
          · exact (List.nodup_cons.mp hnod).2
          · intro i hiq
            have hne : i ≠ hid0 := fun he => hhid (he ▸ hiq)
            rw [mapLookup_erase_ne m hid0 i hne,
              qtyOf, mapLookup_erase_ne m hid0 i hne, ← qtyOf]
            exact hmem i (List.mem_cons_of_mem _ hiq)
          · exact hid
        · simp only [hfull, if_false] at hid ⊢
          by_cases hih : id = hid0
          · subst hih
            simp only [not_le] at hfull
            refine ⟨?_, ?_⟩
            · rw [mapLookup_assign, if_pos rfl]
              simp
            · rw [qtyOf, mapLookup_assign, if_pos rfl]
              show 0 < top.quantity - aggRem
              omega
          · refine ⟨?_, ?_⟩
            · rw [mapLookup_assign, if_neg hih]
              rcases List.mem_cons.mp hid with he | hq
              · exact absurd he hih
              · exact (hmem id (List.mem_cons_of_mem _ hq)).1
            · rw [qtyOf, mapLookup_assign, if_neg hih, ← qtyOf]
              rcases List.mem_cons.mp hid with he | hq
              · exact absurd he hih
              · exact (hmem id (List.mem_cons_of_mem _ hq)).2

theorem specFill_popped (aggId aggUid tsr tse : Nat) (queue : List Nat)
    (price : Nat) :
    ∀ m tv aggRem execId,
      queue.Nodup →
      (m.map Prod.fst).Nodup →
      ∀ id ∈ queue,
        id ∉ (specFill aggId aggUid tsr tse m queue price tv aggRem
          execId).2.1 →
        mapLookup (specFill aggId aggUid tsr tse m queue price tv aggRem
          execId).1 id = none := by
  induction queue with
  | nil =>
    intro m tv aggRem e _ _ id hid
    simp at hid
  | cons hid0 qrest ih =>
    intro m tv aggRem e hnod hkeys id hid hnot
    have hhid : hid0 ∉ qrest := (List.nodup_cons.mp hnod).1
    rw [specFill] at hnot ⊢
    by_cases hr : aggRem = 0
    · simp only [hr, if_true, if_pos rfl] at hnot
      exact absurd hid hnot
    · simp only [hr, if_false] at hnot ⊢
      rcases hl : mapLookup m hid0 with _ | top
      · rw [hl] at hnot
        exact absurd hid hnot
      · rw [hl] at hnot
        by_cases hfull : top.quantity ≤ aggRem
        · simp only [hfull, if_true] at hnot ⊢
          by_cases hih : id = hid0
          · subst hih
            rw [specFill_confine aggId aggUid tsr tse qrest price id _ _ _ _
              hhid]
            exact mapLookup_erase_self m id hkeys
          · rcases List.mem_cons.mp hid with he | hq
            · exact absurd he hih
            · exact ih _ _ _ _ (List.nodup_cons.mp hnod).2
                ((mapErase_keys_sublist m hid0).nodup hkeys) id hq hnot
        · simp only [hfull, if_false] at hnot ⊢
          exact absurd hid hnot

theorem specFill_keys_sublist (aggId aggUid tsr tse : Nat) (queue : List Nat)
    (price : Nat) :
    ∀ m tv aggRem execId,
      (((specFill aggId aggUid tsr tse m queue price tv aggRem
        execId).1).map Prod.fst).Sublist (m.map Prod.fst) := by
  induction queue with
  | nil => intro m tv aggRem e; exact List.Sublist.refl _
  | cons hid qrest ih =>
    intro m tv aggRem e
    rw [specFill]
    by_cases hr : aggRem = 0
    · simp only [hr, if_true, if_pos rfl]
      exact List.Sublist.refl _
    · simp only [hr, if_false]
      rcases hl : mapLookup m hid with _ | top
      · exact List.Sublist.refl _
      · by_cases hfull : top.quantity ≤ aggRem
        · simp only [hfull, if_true]
          exact List.Sublist.trans (ih _ _ _ _) (mapErase_keys_sublist m hid)
        · simp only [hfull, if_false]
          rw [mapAssign_keys m hid _ (by simp [hl])]

theorem specFill_exhaust (aggId aggUid tsr tse : Nat) (queue : List Nat)
    (price : Nat) :
    ∀ m tv aggRem execId,
      queue.Nodup →
      (∀ id ∈ queue, (mapLookup m id).isSome) →
      0 < (specFill aggId aggUid tsr tse m queue price tv aggRem
        execId).2.2.2.1 →
      (specFill aggId aggUid tsr tse m queue price tv aggRem
        execId).2.1 = [] := by
  induction queue with
  | nil => intro m tv aggRem e _ _ _; rfl
  | cons hid qrest ih =>
    intro m tv aggRem e hnod hmem hpos
    have hhid : hid ∉ qrest := (List.nodup_cons.mp hnod).1
    rw [specFill] at hpos ⊢
    by_cases hr : aggRem = 0
    · rw [if_pos hr] at hpos
      simp only [hr] at hpos
      exact absurd hpos (by simp)
    · simp only [hr, if_false] at hpos ⊢
      rcases hl : mapLookup m hid with _ | top
      · have := hmem hid (List.mem_cons_self _ _)
        rw [hl] at this
        simp at this
      · rw [hl] at hpos
        by_cases hfull : top.quantity ≤ aggRem
        · simp only [hfull, if_true] at hpos ⊢
          apply ih _ _ _ _ (List.nodup_cons.mp hnod).2 ?_ hpos
          intro i hiq
          rw [mapLookup_erase_ne m hid i (fun he => hhid (he ▸ hiq))]
          exact hmem i (List.mem_cons_of_mem _ hiq)
        · simp only [hfull, if_false] at hpos
          exact absurd hpos (by simp)

/-! ## Characterizing the specification walk over a side book -/

theorem specWalk_agg_zero (crosses : Nat → Bool) (m : List (Nat × Order))
    (levels : List (Nat × PriceLevel)) (agg : Order) (e : Nat)
    (h : agg.quantity = 0) :
    specWalk crosses m levels agg e = (m, levels, agg, e, []) := by
  cases levels with
  | nil => rfl
  | cons hd tl =>
    obtain ⟨p, lvl⟩ := hd
    rw [specWalk, if_pos h]

theorem specWalk_agg_char (crosses : Nat → Bool)
    (levels : List (Nat × PriceLevel)) :
    ∀ m agg execId, ∃ q,
      (specWalk crosses m levels agg execId).2.2.1 =
        { agg with quantity := q } := by
  induction levels with
  | nil => intro m agg e; exact ⟨agg.quantity, rfl⟩
  | cons hd rest ih =>
    obtain ⟨p, lvl⟩ := hd
    intro m agg e
    rw [specWalk]
    by_cases h0 : agg.quantity = 0
    · rw [if_pos h0]
      exact ⟨agg.quantity, rfl⟩
    · rw [if_neg h0]
      by_cases hcr : crosses p
      · simp only [hcr, if_true]
        obtain ⟨q, hq⟩ := ih
          (specFill agg.order_id agg.user_id agg.ts_received agg.ts_executed m
            lvl.order_queue lvl.price lvl.total_volume agg.quantity e).1
          { agg with quantity :=
            (specFill agg.order_id agg.user_id agg.ts_received agg.ts_executed
              m lvl.order_queue lvl.price lvl.total_volume agg.quantity
              e).2.2.2.1 }
          (specFill agg.order_id agg.user_id agg.ts_received agg.ts_executed m
            lvl.order_queue lvl.price lvl.total_volume agg.quantity
            e).2.2.2.2.1
        refine ⟨q, ?_⟩
        by_cases htv : (specFill agg.order_id agg.user_id agg.ts_received
            agg.ts_executed m lvl.order_queue lvl.price lvl.total_volume
            agg.quantity e).2.2.1 = 0
        · rw [if_pos htv]
          exact hq
        · rw [if_neg htv]
          exact hq
      · simp only [hcr, Bool.false_eq_true, if_false]
        exact ⟨agg.quantity, rfl⟩

theorem queue_empty_of_qsum_zero (m : List (Nat × Order)) (q : List Nat)
    (hpos : ∀ i ∈ q, 0 < qtyOf m i) (hz : qsum m q = 0) : q = [] := by
  cases q with
  | nil => rfl
  | cons i rest =>
    exfalso
    have h1 := hpos i (List.mem_cons_self _ _)
    simp only [qsum, List.map_cons, List.sum_cons] at hz
    omega

/-- Master preservation lemma for the specification walk: starting from a
consistent heap and side, the walk returns a side whose keys form a sublist of
the original keys, whose levels are consistent with the returned heap and have
pairwise disjoint queues, a heap whose keys shrank, untouched heap entries
unchanged, surviving entries changed only in quantity, queued survivors still
queued at their original key, result queues drawn from original queues, and —
when the aggressor retains quantity — a result side that is empty or headed by
a non-crossing level. -/
theorem specWalk_preserves (crosses : Nat → Bool)
    (levels : List (Nat × PriceLevel)) :
    ∀ m agg execId,
      (∀ pl ∈ levels, LevelWF m pl.1 pl.2) →
      ((levels.map (fun pl => pl.2.order_queue)).Pairwise List.Disjoint) →
      (m.map Prod.fst).Nodup →
      ((((specWalk crosses m levels agg execId).2.1).map Prod.fst).Sublist
          (levels.map Prod.fst)) ∧
      (∀ pl ∈ (specWalk crosses m levels agg execId).2.1,
          LevelWF (specWalk crosses m levels agg execId).1 pl.1 pl.2) ∧
      ((((specWalk crosses m levels agg execId).2.1).map
          (fun pl => pl.2.order_queue)).Pairwise List.Disjoint) ∧
      ((((specWalk crosses m levels agg execId).1).map Prod.fst).Sublist
          (m.map Prod.fst)) ∧
      (∀ id, (∀ pl ∈ levels, id ∉ pl.2.order_queue) →
          mapLookup (specWalk crosses m levels agg execId).1 id =
            mapLookup m id) ∧
      (∀ id o',
          mapLookup (specWalk crosses m levels agg execId).1 id = some o' →
          ∃ o, mapLookup m id = some o ∧
            o' = { o with quantity := o'.quantity } ∧
            (0 < o.quantity → 0 < o'.quantity)) ∧
      (∀ pl ∈ levels, ∀ id ∈ pl.2.order_queue,
          (mapLookup (specWalk crosses m levels agg execId).1 id).isSome →
          ∃ lvl2, (pl.1, lvl2) ∈ (specWalk crosses m levels agg execId).2.1 ∧
            id ∈ lvl2.order_queue) ∧
      (∀ pl ∈ (specWalk crosses m levels agg execId).2.1,
          ∀ id ∈ pl.2.order_queue,
          ∃ pl0 ∈ levels, pl.1 = pl0.1 ∧ id ∈ pl0.2.order_queue) ∧
      (0 < (specWalk crosses m levels agg execId).2.2.1.quantity →
          (specWalk crosses m levels agg execId).2.1 = [] ∨
          ∃ p2 lvl2 rest2,
            (specWalk crosses m levels agg execId).2.1 = (p2, lvl2) :: rest2 ∧
            crosses p2 = false) := by
  induction levels with
  | nil =>
    intro m agg e hlw hdisj hkeys
    exact ⟨List.nil_sublist _, fun pl hpl => absurd hpl (List.not_mem_nil _),
      List.Pairwise.nil, List.Sublist.refl _, fun id h => rfl,
      fun id o' h => ⟨o', h, rfl, fun x => x⟩,
      fun pl hpl => absurd hpl (List.not_mem_nil _),
      fun pl hpl => absurd hpl (List.not_mem_nil _),
      fun h => Or.inl rfl⟩
  | cons hd rest ih =>
    obtain ⟨p, lvl⟩ := hd
    intro m agg e hlw hdisj hkeys
    obtain ⟨hpeq, hvol, hnodq, hmemq⟩ := hlw (p, lvl) (List.mem_cons_self _ _)
    have hlwrest : ∀ pl ∈ rest, LevelWF m pl.1 pl.2 :=
      fun pl hpl => hlw pl (List.mem_cons_of_mem _ hpl)
    have hdisjhead := (List.pairwise_cons.mp hdisj).1
    have hdisjrest := (List.pairwise_cons.mp hdisj).2
    rw [specWalk]
    by_cases h0 : agg.quantity = 0
    · rw [if_pos h0]
      exact ⟨List.Sublist.refl _, hlw, hdisj, List.Sublist.refl _,
        fun id h => rfl, fun id o' h => ⟨o', h, rfl, fun x => x⟩,
        fun pl hpl id hid _ => ⟨pl.2, hpl, hid⟩,
        fun pl hpl id hid => ⟨pl, hpl, rfl, hid⟩,
        fun hq => absurd (h0 ▸ hq) (lt_irrefl 0)⟩
    · rw [if_neg h0]
      by_cases hcr : crosses p
      · simp only [hcr, if_true]
        set S := specFill agg.order_id agg.user_id agg.ts_received
          agg.ts_executed m lvl.order_queue lvl.price lvl.total_volume
          agg.quantity e with hS
        have hk2 : ((S.1).map Prod.fst).Sublist (m.map Prod.fst) :=
          specFill_keys_sublist agg.order_id agg.user_id agg.ts_received
            agg.ts_executed lvl.order_queue lvl.price m lvl.total_volume
            agg.quantity e
        have hkeysS : ((S.1).map Prod.fst).Nodup := hk2.nodup hkeys
        have hconf : ∀ i, i ∉ lvl.order_queue →
            mapLookup S.1 i = mapLookup m i :=
          fun i hi => specFill_confine agg.order_id agg.user_id agg.ts_received
            agg.ts_executed lvl.order_queue lvl.price i m lvl.total_volume
            agg.quantity e hi
        have hsuffix : List.IsSuffix S.2.1 lvl.order_queue :=
          specFill_queue_suffix agg.order_id agg.user_id agg.ts_received
            agg.ts_executed lvl.order_queue lvl.price m lvl.total_volume
            agg.quantity e
        have htv2 : S.2.2.1 = qsum S.1 S.2.1 :=
          specFill_tv agg.order_id agg.user_id agg.ts_received agg.ts_executed
            lvl.order_queue lvl.price m lvl.total_volume agg.quantity e hnodq
            hmemq hvol
        have hsurv : ∀ id ∈ S.2.1,
            (mapLookup S.1 id).isSome ∧ 0 < qtyOf S.1 id :=
          specFill_survivor agg.order_id agg.user_id agg.ts_received
            agg.ts_executed lvl.order_queue lvl.price m lvl.total_volume
            agg.quantity e hnodq hmemq
        have hpop : ∀ id ∈ lvl.order_queue, id ∉ S.2.1 →
            mapLookup S.1 id = none :=
          specFill_popped agg.order_id agg.user_id agg.ts_received
            agg.ts_executed lvl.order_queue lvl.price m lvl.total_volume
            agg.quantity e hnodq hkeys
        have hchar : ∀ id o', mapLookup S.1 id = some o' →
            ∃ o, mapLookup m id = some o ∧
              o' = { o with quantity := o'.quantity } ∧
              (0 < o.quantity → 0 < o'.quantity) :=
          specFill_heap_char agg.order_id agg.user_id agg.ts_received
            agg.ts_executed lvl.order_queue lvl.price m lvl.total_volume
            agg.quantity e hkeys
        have hexh : 0 < S.2.2.2.1 → S.2.1 = [] :=
          specFill_exhaust agg.order_id agg.user_id agg.ts_received
            agg.ts_executed lvl.order_queue lvl.price m lvl.total_volume
            agg.quantity e hnodq (fun id h => (hmemq id h).1)
        obtain ⟨ih1, ih2, ih3, ih4, ih5, ih6, ih7, ih8, ih9⟩ :=
          ih S.1 { agg with quantity := S.2.2.2.1 } S.2.2.2.2.1
            (fun pl hpl => LevelWF_congr m S.1 pl.1 pl.2
              (fun i hi => hconf i
                (fun hcontra => hdisjhead pl.2.order_queue
                  (List.mem_map.mpr ⟨pl, hpl, rfl⟩) hcontra hi))
              (hlwrest pl hpl))
            hdisjrest hkeysS
        set W := specWalk crosses S.1 rest
          { agg with quantity := S.2.2.2.1 } S.2.2.2.2.1 with hW
        have hWnone : ∀ id, mapLookup S.1 id = none →
            mapLookup W.1 id = none := by
          intro id hnone
          rcases hW1 : mapLookup W.1 id with _ | o'
          · rfl
          · obtain ⟨o, ho, _, _⟩ := ih6 id o' hW1
            rw [hnone] at ho
            exact absurd ho (by simp)
        by_cases htv0 : S.2.2.1 = 0
        · rw [if_pos htv0]
          have hSq : S.2.1 = [] :=
            queue_empty_of_qsum_zero S.1 S.2.1 (fun i hi => (hsurv i hi).2)
              (htv2.symm.trans htv0)
          refine ⟨?_, ih2, ih3, ih4.trans hk2, ?_, ?_, ?_, ?_, ih9⟩
          · refine ih1.trans ?_
            simp only [List.map_cons]
            exact List.sublist_cons_self _ _
          · intro id hnotin
            rw [ih5 id (fun pl hpl => hnotin pl (List.mem_cons_of_mem _ hpl))]
            exact hconf id (hnotin (p, lvl) (List.mem_cons_self _ _))
          · intro id o' h6
            obtain ⟨o1, ho1, hf1, hp1⟩ := ih6 id o' h6
            obtain ⟨o, ho, hf, hp⟩ := hchar id o1 ho1
            rw [hf] at hf1
            exact ⟨o, ho, hf1, fun hq => hp1 (hp hq)⟩
          · intro pl hpl id hid hsome
            rcases List.mem_cons.mp hpl with hh | hh
            · subst hh
              have hnone : mapLookup S.1 id = none :=
                hpop id hid (by rw [hSq]; exact List.not_mem_nil _)
              rw [hWnone id hnone] at hsome
              exact absurd hsome (by simp)
            · exact ih7 pl hh id hid hsome
          · intro pl hpl id hid
            obtain ⟨pl0, hpl0, hk, hid0⟩ := ih8 pl hpl id hid
            exact ⟨pl0, List.mem_cons_of_mem _ hpl0, hk, hid0⟩
        · rw [if_neg htv0]
          have haggq : S.2.2.2.1 = 0 := by
            by_contra hne
            have hnil := hexh (Nat.pos_of_ne_zero hne)
            rw [hnil] at htv2
            exact htv0 htv2
          have hWz : W = (S.1, rest, { agg with quantity := S.2.2.2.1 },
              S.2.2.2.2.1, ([] : List Trade)) := by
            rw [hW]
            exact specWalk_agg_zero crosses S.1 rest _ _ haggq
          refine ⟨?_, ?_, ?_, ih4.trans hk2, ?_, ?_, ?_, ?_, ?_⟩
          · simp only [List.map_cons]
            exact List.Sublist.cons₂ _ ih1
          · intro pl hpl
            rcases List.mem_cons.mp hpl with hh | hh
            · subst hh
              refine ⟨hpeq, ?_, ?_, ?_⟩
              · rw [hWz]
                exact htv2
              · exact List.Nodup.sublist (List.IsSuffix.sublist hsuffix) hnodq
              · intro id hid
                rw [hWz]
                exact hsurv id hid
            · exact ih2 pl hh
          · simp only [List.map_cons]
            refine List.pairwise_cons.mpr ⟨?_, ih3⟩
            intro q hq a ha haq
            obtain ⟨plw, hplw, rfl⟩ := List.mem_map.mp hq
            obtain ⟨pl0, hpl0, hkey, hmem0⟩ := ih8 plw hplw a haq
            exact hdisjhead pl0.2.order_queue
              (List.mem_map.mpr ⟨pl0, hpl0, rfl⟩)
              (List.Sublist.subset (List.IsSuffix.sublist hsuffix) ha) hmem0
          · intro id hnotin
            rw [ih5 id (fun pl hpl => hnotin pl (List.mem_cons_of_mem _ hpl))]
            exact hconf id (hnotin (p, lvl) (List.mem_cons_self _ _))
          · intro id o' h6
            obtain ⟨o1, ho1, hf1, hp1⟩ := ih6 id o' h6
            obtain ⟨o, ho, hf, hp⟩ := hchar id o1 ho1
            rw [hf] at hf1
            exact ⟨o, ho, hf1, fun hq => hp1 (hp hq)⟩
          · intro pl hpl id hid hsome
            rcases List.mem_cons.mp hpl with hh | hh
            · subst hh
              by_cases hidS : id ∈ S.2.1
              · exact ⟨⟨lvl.price, S.2.2.1, S.2.1⟩,
                  List.mem_cons_self _ _, hidS⟩
              · have hnone : mapLookup S.1 id = none := hpop id hid hidS
                rw [hWnone id hnone] at hsome
                exact absurd hsome (by simp)
            · obtain ⟨lvl2, hmem2, hid2⟩ := ih7 pl hh id hid hsome
              exact ⟨lvl2, List.mem_cons_of_mem _ hmem2, hid2⟩
          · intro pl hpl id hid
            rcases List.mem_cons.mp hpl with hh | hh
            · subst hh
              exact ⟨(p, lvl), List.mem_cons_self _ _, rfl,
                List.Sublist.subset (List.IsSuffix.sublist hsuffix) hid⟩
            · obtain ⟨pl0, hpl0, hk, hid0⟩ := ih8 pl hh id hid
              exact ⟨pl0, List.mem_cons_of_mem _ hpl0, hk, hid0⟩
          · intro hq
            rw [hWz] at hq
            exact absurd (show 0 < S.2.2.2.1 from hq) (by omega)
      · have hcrf : crosses p = false := Bool.eq_false_iff.mpr hcr
        rw [if_neg hcr]
        exact ⟨List.Sublist.refl _, hlw, hdisj, List.Sublist.refl _,
          fun id h => rfl, fun id o' h => ⟨o', h, rfl, fun x => x⟩,
          fun pl hpl id hid _ => ⟨pl.2, hpl, hid⟩,
          fun pl hpl id hid => ⟨pl, hpl, rfl, hid⟩,
          fun hq2 => Or.inr ⟨p, lvl, rest, rfl, hcrf⟩⟩

/-! ## Surgery on side books: splits and pairwise-disjointness transfer -/

theorem levelLookup_isSome_of_mem (ls : List (Nat × PriceLevel)) (k : Nat)
    (h : k ∈ ls.map Prod.fst) : (levelLookup ls k).isSome := by
  induction ls with
  | nil => simp at h
  | cons e rest ih =>
    obtain ⟨p, l0⟩ := e
    by_cases hpk : p = k
    · simp [levelLookup, hpk]
    · simp only [List.map_cons, List.mem_cons] at h
      rcases h with h | h
      · exact absurd h.symm hpk
      · simp only [levelLookup, if_neg hpk]
        exact ih h

theorem mapLookup_isSome_of_mem (m : List (Nat × Order)) (k : Nat)
    (h : k ∈ m.map Prod.fst) : (mapLookup m k).isSome := by
  induction m with
  | nil => simp at h
  | cons e rest ih =>
    obtain ⟨i, o⟩ := e
    by_cases hik : i = k
    · simp [mapLookup, hik]
    · simp only [List.map_cons, List.mem_cons] at h
      rcases h with h | h
      · exact absurd h.symm hik
      · simp only [mapLookup, if_neg hik]
        exact ih h

theorem pairwise_disjoint_middle (L1 L2 : List (List Nat)) (q : List Nat)
    (hp : (L1 ++ q :: L2).Pairwise List.Disjoint) :
    ∀ q2 ∈ L1 ++ L2, ∀ c ∈ q, c ∉ q2 := by
  rw [List.pairwise_append] at hp
  obtain ⟨hp1, hp2, hp3⟩ := hp
  rw [List.pairwise_cons] at hp2
  intro q2 hq2 c hc hcq2
  rcases List.mem_append.mp hq2 with h | h
  · exact hp3 q2 h q (List.mem_cons_self _ _) hcq2 hc
  · exact hp2.1 q2 h hc hcq2

theorem pairwise_disjoint_insert (L1 L2 : List (List Nat)) (q : List Nat)
    (hp : (L1 ++ L2).Pairwise List.Disjoint)
    (hq : ∀ q2 ∈ L1 ++ L2, ∀ c ∈ q, c ∉ q2) :
    (L1 ++ q :: L2).Pairwise List.Disjoint := by
  rw [List.pairwise_append] at hp
  obtain ⟨hp1, hp2, hp3⟩ := hp
  rw [List.pairwise_append]
  refine ⟨hp1, ?_, ?_⟩
  · rw [List.pairwise_cons]
    refine ⟨?_, hp2⟩
    intro q2 hq2 c hc
    exact hq q2 (List.mem_append.mpr (Or.inr hq2)) c hc
  · intro a ha b hb
    rcases List.mem_cons.mp hb with hb | hb
    · subst hb
      intro c hca hcb
      exact hq a (List.mem_append.mpr (Or.inl ha)) c hcb hca
    · exact hp3 a ha b hb

theorem pairwise_disjoint_drop (L1 L2 : List (List Nat)) (q : List Nat)
    (hp : (L1 ++ q :: L2).Pairwise List.Disjoint) :
    (L1 ++ L2).Pairwise List.Disjoint :=
  List.Pairwise.sublist
    (List.Sublist.append (List.Sublist.refl L1) (List.sublist_cons_self q L2))
    hp

theorem levelReplace_split (ls : List (Nat × PriceLevel)) (k : Nat)
    (lvl v : PriceLevel) (h : levelLookup ls k = some lvl) :
    ∃ l1 l2, ls = l1 ++ (k, lvl) :: l2 ∧
      levelReplace ls k v = l1 ++ (k, v) :: l2 := by
  induction ls with
  | nil => simp [levelLookup] at h
  | cons e rest ih =>
    obtain ⟨p, l0⟩ := e
    by_cases hpk : p = k
    · subst hpk
      simp only [levelLookup, if_pos rfl] at h
      obtain rfl := Option.some.inj h
      exact ⟨[], rest, by simp, by simp [levelReplace]⟩
    · simp only [levelLookup, if_neg hpk] at h
      obtain ⟨l1, l2, h1, h2⟩ := ih h
      exact ⟨(p, l0) :: l1, l2, by simp [h1],
        by simp [levelReplace, hpk, h2]⟩

theorem levelInsert_split (bf : Nat → Nat → Bool)
    (ls : List (Nat × PriceLevel)) (k : Nat) (v : PriceLevel) :
    ∃ l1 l2, ls = l1 ++ l2 ∧ levelInsert bf k v ls = l1 ++ (k, v) :: l2 := by
  induction ls with
  | nil => exact ⟨[], [], rfl, rfl⟩
  | cons e rest ih =>
    obtain ⟨p, l0⟩ := e
    by_cases hb : bf k p
    · exact ⟨[], (p, l0) :: rest, rfl, by simp [levelInsert, hb]⟩
    · obtain ⟨l1, l2, h1, h2⟩ := ih
      exact ⟨(p, l0) :: l1, l2, by simp [h1], by simp [levelInsert, hb, h2]⟩

theorem levelErase_split (ls : List (Nat × PriceLevel)) (k : Nat)
    (lvl : PriceLevel) (h : levelLookup ls k = some lvl) :
    ∃ l1 l2, ls = l1 ++ (k, lvl) :: l2 ∧ levelErase ls k = l1 ++ l2 := by
  induction ls with
  | nil => simp [levelLookup] at h
  | cons e rest ih =>
    obtain ⟨p, l0⟩ := e
    by_cases hpk : p = k
    · subst hpk
      simp only [levelLookup, if_pos rfl] at h
      obtain rfl := Option.some.inj h
      exact ⟨[], rest, by simp, by simp [levelErase]⟩
    · simp only [levelLookup, if_neg hpk] at h
      obtain ⟨l1, l2, h1, h2⟩ := ih h
      exact ⟨(p, l0) :: l1, l2, by simp [h1], by simp [levelErase, hpk, h2]⟩

/-! ## Resting an order preserves well-formedness -/

theorem AddRestingOrder_buy_eq_replace (b : Book) (o : Order)
    (lvl : PriceLevel) (hside : o.is_buy_side = true)
    (hlook : levelLookup b.bids o.price = some lvl)
    (hlp : lvl.price = o.price) :
    b.AddRestingOrder o =
      { b with
          order_map := mapAssign b.order_map o.order_id
            { o with parent_price_level := some o.price },
          bids := levelReplace b.bids o.price
            ⟨o.price, lvl.total_volume + o.quantity,
              lvl.order_queue ++ [o.order_id]⟩ } := by
  rw [Book.AddRestingOrder]
  simp only [hside, if_true, hlook, PriceLevel.AddOrder]
  by_cases he : lvl.order_queue.isEmpty = true
  · simp [he]
  · simp [he, hlp]

theorem AddRestingOrder_buy_eq_insert (b : Book) (o : Order)
    (hside : o.is_buy_side = true)
    (hlook : levelLookup b.bids o.price = none) :
    b.AddRestingOrder o =
      { b with
          order_map := mapAssign b.order_map o.order_id
            { o with parent_price_level := some o.price },
          bids := levelInsert bidBefore o.price
            ⟨o.price, 0 + o.quantity, [o.order_id]⟩ b.bids } := by
  rw [Book.AddRestingOrder]
  simp [hside, hlook, PriceLevel.AddOrder]

theorem AddRestingOrder_sell_eq_replace (b : Book) (o : Order)
    (lvl : PriceLevel) (hside : o.is_buy_side = false)
    (hlook : levelLookup b.asks o.price = some lvl)
    (hlp : lvl.price = o.price) :
    b.AddRestingOrder o =
      { b with
          order_map := mapAssign b.order_map o.order_id
            { o with parent_price_level := some o.price },
          asks := levelReplace b.asks o.price
            ⟨o.price, lvl.total_volume + o.quantity,
              lvl.order_queue ++ [o.order_id]⟩ } := by
  rw [Book.AddRestingOrder]
  simp only [hside, Bool.false_eq_true, if_false, hlook, PriceLevel.AddOrder]
  by_cases he : lvl.order_queue.isEmpty = true
  · simp [he]
  · simp [he, hlp]

theorem AddRestingOrder_sell_eq_insert (b : Book) (o : Order)
    (hside : o.is_buy_side = false)
    (hlook : levelLookup b.asks o.price = none) :
    b.AddRestingOrder o =
      { b with
          order_map := mapAssign b.order_map o.order_id
            { o with parent_price_level := some o.price },
          asks := levelInsert askBefore o.price
            ⟨o.price, 0 + o.quantity, [o.order_id]⟩ b.asks } := by
  rw [Book.AddRestingOrder]
  simp [hside, hlook, PriceLevel.AddOrder]

theorem SideWF_assign (m : List (Nat × Order)) (ls : List (Nat × PriceLevel))
    (k : Nat) (v : Order) (h : ∀ pl ∈ ls, k ∉ pl.2.order_queue)
    (hw : SideWF m ls) : SideWF (mapAssign m k v) ls := by
  intro pl hpl
  refine LevelWF_congr m _ pl.1 pl.2 ?_ (hw pl hpl)
  intro i hi
  rw [mapLookup_assign]
  rw [if_neg (fun he : i = k => h pl hpl (he ▸ hi))]

theorem LevelWF_extend (m : List (Nat × Order)) (k : Nat) (lvl : PriceLevel)
    (o v : Order) (hw : LevelWF m k lvl)
    (hfresh : mapLookup m o.order_id = none) (hvq : v.quantity = o.quantity)
    (hq : 0 < o.quantity) :
    LevelWF (mapAssign m o.order_id v) k
      ⟨k, lvl.total_volume + o.quantity,
        lvl.order_queue ++ [o.order_id]⟩ := by
  obtain ⟨hp, hv, hnd, hmem⟩ := hw
  have hnotq : o.order_id ∉ lvl.order_queue := fun hin => by
    have := (hmem _ hin).1
    rw [hfresh] at this
    simp at this
  refine ⟨rfl, ?_, ?_, ?_⟩
  · show lvl.total_volume + o.quantity =
      qsum (mapAssign m o.order_id v) (lvl.order_queue ++ [o.order_id])
    have h1 : qsum (mapAssign m o.order_id v) lvl.order_queue =
        qsum m lvl.order_queue :=
      qsum_congr _ _ _ (fun i hi => by
        rw [mapLookup_assign,
          if_neg (fun he : i = o.order_id => hnotq (he ▸ hi))])
    have h2 : qtyOf (mapAssign m o.order_id v) o.order_id = o.quantity := by
      rw [qtyOf, mapLookup_assign, if_pos rfl]
      exact hvq
    have h3 : qsum (mapAssign m o.order_id v) (lvl.order_queue ++ [o.order_id]) =
        qsum (mapAssign m o.order_id v) lvl.order_queue +
          qtyOf (mapAssign m o.order_id v) o.order_id := by
      simp [qsum, List.map_append]
    rw [h3, h1, h2, ← hv]
  · rw [List.nodup_append]
    exact ⟨hnd, by simp,
      fun c hc hc2 => hnotq ((List.mem_singleton.mp hc2) ▸ hc)⟩
  · intro i hi
    rcases List.mem_append.mp hi with hiq | hione
    · have hne : i ≠ o.order_id := fun he => hnotq (he ▸ hiq)
      refine ⟨?_, ?_⟩
      · rw [mapLookup_assign, if_neg hne]
        exact (hmem i hiq).1
      · rw [qtyOf, mapLookup_assign, if_neg hne, ← qtyOf]
        exact (hmem i hiq).2
    · have hie : i = o.order_id := List.mem_singleton.mp hione
      subst hie
      refine ⟨?_, ?_⟩
      · rw [mapLookup_assign, if_pos rfl]
        simp
      · rw [qtyOf, mapLookup_assign, if_pos rfl]
        show 0 < v.quantity
        rw [hvq]
        exact hq

/-- `OrderBook::AddRestingOrder` preserves well-formedness and the no-cross
invariant, provided the rested order is fresh, has positive quantity, and its
price clears the opposite side. -/
theorem AddRestingOrder_preserves (b : Book) (o : Order) (hwf : WF b)
    (hcross : Cross b) (hfresh : mapLookup b.order_map o.order_id = none)
    (hq : 0 < o.quantity)
    (hbuy : o.is_buy_side = true → ∀ pa ∈ b.asks.map Prod.fst, o.price < pa)
    (hsell : o.is_buy_side = false → ∀ pb ∈ b.bids.map Prod.fst, pb < o.price) :
    WF (b.AddRestingOrder o) ∧ Cross (b.AddRestingOrder o) := by
  obtain ⟨h1, h2, h3, h4, h5, hnd, hent⟩ := hwf
  have hnotink : o.order_id ∉ b.order_map.map Prod.fst := fun hmem => by
    have := mapLookup_isSome_of_mem _ _ hmem
    rw [hfresh] at this
    simp at this
  have hnotin_b : ∀ pl ∈ b.bids, o.order_id ∉ pl.2.order_queue :=
    fun pl hpl hin => by
      have := ((h3 pl hpl).2.2.2 o.order_id hin).1
      rw [hfresh] at this
      simp at this
  have hnotin_a : ∀ pl ∈ b.asks, o.order_id ∉ pl.2.order_queue :=
    fun pl hpl hin => by
      have := ((h4 pl hpl).2.2.2 o.order_id hin).1
      rw [hfresh] at this
      simp at this
  have hkeysnd : (mapAssign b.order_map o.order_id
      { o with parent_price_level := some o.price }).map Prod.fst
        |>.Nodup := by
    rw [mapAssign_keys_fresh _ _ _ hfresh, List.nodup_append]
    exact ⟨hnd, by simp,
      fun c hc hc2 => hnotink ((List.mem_singleton.mp hc2) ▸ hc)⟩
  by_cases hside : o.is_buy_side = true
  · rcases hlook : levelLookup b.bids o.price with _ | lvl
    · -- fresh price level inserted into the bid book
      rw [AddRestingOrder_buy_eq_insert b o hside hlook]
      have hpnot : o.price ∉ b.bids.map Prod.fst := fun hmem => by
        have := levelLookup_isSome_of_mem _ _ hmem
        rw [hlook] at this
        simp at this
      obtain ⟨l1, l2, hsplit1, hsplit2⟩ := levelInsert_split bidBefore b.bids
        o.price ⟨o.price, 0 + o.quantity, [o.order_id]⟩
      constructor
      · refine ⟨levelInsert_sorted_desc b.bids o.price _ h1 hpnot, h2,
          ?_, ?_, ?_, hkeysnd, ?_⟩
        · intro pl hpl
          rcases mem_levelInsert _ _ _ _ _ hpl with hold | hnew
          · refine LevelWF_congr b.order_map _ pl.1 pl.2 (fun i hi => by
              rw [mapLookup_assign,
                if_neg (fun he : i = o.order_id =>
                  hnotin_b pl hold (he ▸ hi))]) (h3 pl hold)
          · subst hnew
            exact LevelWF_extend b.order_map o.price ⟨o.price, 0, []⟩ o _
              ⟨rfl, rfl, List.nodup_nil,
                fun i hi => absurd hi (List.not_mem_nil _)⟩ hfresh rfl hq
        · exact SideWF_assign b.order_map b.asks o.order_id _ hnotin_a h4
        · show (((levelInsert bidBefore o.price
              ⟨o.price, 0 + o.quantity, [o.order_id]⟩ b.bids) ++ b.asks).map
              (fun pl => pl.2.order_queue)).Pairwise List.Disjoint
          rw [hsplit2]
          rw [hsplit1] at h5
          simp only [List.append_assoc, List.map_append, List.map_cons] at h5 ⊢
          apply pairwise_disjoint_insert _ _ _ h5
          intro q2 hq2 c hc
          have hc2 : c = o.order_id := List.mem_singleton.mp hc
          subst hc2
          rcases List.mem_append.mp hq2 with hin | hin
          · obtain ⟨pl, hpl, rfl⟩ := List.mem_map.mp hin
            exact hnotin_b pl (by
              rw [hsplit1]; exact List.mem_append.mpr (Or.inl hpl))
          · rcases List.mem_append.mp hin with hin | hin
            · obtain ⟨pl, hpl, rfl⟩ := List.mem_map.mp hin
              exact hnotin_b pl (by
                rw [hsplit1]
                exact List.mem_append.mpr (Or.inr hpl))
            · obtain ⟨pl, hpl, rfl⟩ := List.mem_map.mp hin
              exact hnotin_a pl hpl
        · intro e' he'
          rcases mapAssign_mem _ _ _ _ he' with hold | hnew
          · obtain ⟨hoid, hopos, hopar, hoque⟩ := hent e' hold
            refine ⟨hoid, hopos, hopar, ?_⟩
            by_cases hbs : e'.2.is_buy_side = true
            · simp only [queueOf, hbs, if_true] at hoque ⊢
              by_cases hpe : e'.2.price = o.price
              · rw [hpe, hlook] at hoque
                simp at hoque
              · rw [levelLookup_insert_ne bidBefore b.bids o.price _ _ hpe]
                exact hoque
            · simp only [queueOf, hbs, Bool.false_eq_true, if_false] at hoque ⊢
              exact hoque
          · subst hnew
            refine ⟨rfl, hq, rfl, ?_⟩
            simp only [queueOf]
            rw [if_pos hside]
            rw [levelLookup_insert_fresh bidBefore b.bids o.price _ hlook]
            simp
      · intro pb hpb pa hpa
        rcases levelInsert_keys_mem bidBefore b.bids o.price _ pb hpb with
          h | h
        · subst h
          exact hbuy hside pa hpa
        · exact hcross pb h pa hpa
    · -- the level at the order price already exists in the bid book
      obtain ⟨hlp, hlv, hlnd, hlmem⟩ := h3 (o.price, lvl)
        (levelLookup_mem _ _ _ hlook)
      rw [AddRestingOrder_buy_eq_replace b o lvl hside hlook hlp]
      obtain ⟨l1, l2, hsplit1, hsplit2⟩ := levelReplace_split b.bids o.price
        lvl ⟨o.price, lvl.total_volume + o.quantity,
          lvl.order_queue ++ [o.order_id]⟩ hlook
      constructor
      · refine ⟨?_, h2, ?_, ?_, ?_, hkeysnd, ?_⟩
        · rw [levelReplace_keys]
          exact h1
        · intro pl hpl
          rcases mem_levelReplace _ _ _ _ hpl with hold | hnew
          · refine LevelWF_congr b.order_map _ pl.1 pl.2 (fun i hi => by
              rw [mapLookup_assign,
                if_neg (fun he : i = o.order_id =>
                  hnotin_b pl hold (he ▸ hi))]) (h3 pl hold)
          · subst hnew
            exact LevelWF_extend b.order_map o.price lvl o _
              ⟨hlp, hlv, hlnd, hlmem⟩ hfresh rfl hq
        · exact SideWF_assign b.order_map b.asks o.order_id _ hnotin_a h4
        · show (((levelReplace b.bids o.price
              ⟨o.price, lvl.total_volume + o.quantity,
                lvl.order_queue ++ [o.order_id]⟩) ++ b.asks).map
              (fun pl => pl.2.order_queue)).Pairwise List.Disjoint
          rw [hsplit2]
          rw [hsplit1] at h5
          simp only [List.append_assoc, List.map_append, List.map_cons] at h5 ⊢
          apply pairwise_disjoint_insert _ _ _ (pairwise_disjoint_drop _ _ _ h5)
          intro q2 hq2 c hc
          rcases List.mem_append.mp hc with hcq | hcid
          · exact pairwise_disjoint_middle _ _ _ h5 q2 hq2 c hcq
          · have hc2 : c = o.order_id := List.mem_singleton.mp hcid
            subst hc2
            rcases List.mem_append.mp hq2 with hin | hin
            · obtain ⟨pl, hpl, rfl⟩ := List.mem_map.mp hin
              exact hnotin_b pl (by
                rw [hsplit1]
                exact List.mem_append.mpr (Or.inl hpl))
            · rcases List.mem_append.mp hin with hin | hin
              · obtain ⟨pl, hpl, rfl⟩ := List.mem_map.mp hin
                exact hnotin_b pl (by
                  rw [hsplit1]
                  refine List.mem_append.mpr (Or.inr ?_)
                  exact List.mem_cons_of_mem _ hpl)
              · obtain ⟨pl, hpl, rfl⟩ := List.mem_map.mp hin
                exact hnotin_a pl hpl
        · intro e' he'
          rcases mapAssign_mem _ _ _ _ he' with hold | hnew
          · obtain ⟨hoid, hopos, hopar, hoque⟩ := hent e' hold
            refine ⟨hoid, hopos, hopar, ?_⟩
            by_cases hbs : e'.2.is_buy_side = true
            · simp only [queueOf, hbs, if_true] at hoque ⊢
              by_cases hpe : e'.2.price = o.price
              · rw [hpe, hlook] at hoque
                rw [hpe, levelLookup_replace_self b.bids o.price lvl _ hlook]
                exact List.mem_append.mpr (Or.inl hoque)
              · rw [levelLookup_replace_ne b.bids o.price _ _ hpe]
                exact hoque
            · simp only [queueOf, hbs, Bool.false_eq_true, if_false] at hoque ⊢
              exact hoque
          · subst hnew
            refine ⟨rfl, hq, rfl, ?_⟩
            simp only [queueOf]
            rw [if_pos hside]
            rw [levelLookup_replace_self b.bids o.price lvl _ hlook]
            simp
      · intro pb hpb pa hpa
        have hpb2 : pb ∈ (levelReplace b.bids o.price
            ⟨o.price, lvl.total_volume + o.quantity,
              lvl.order_queue ++ [o.order_id]⟩).map Prod.fst := hpb
        rw [levelReplace_keys] at hpb2
        exact hcross pb hpb2 pa hpa
  · -- sell side: the order rests in the ask book
    have hsf : o.is_buy_side = false := Bool.eq_false_iff.mpr hside
    rcases hlook : levelLookup b.asks o.price with _ | lvl
    · rw [AddRestingOrder_sell_eq_insert b o hsf hlook]
      have hpnot : o.price ∉ b.asks.map Prod.fst := fun hmem => by
        have := levelLookup_isSome_of_mem _ _ hmem
        rw [hlook] at this
        simp at this
      obtain ⟨l1, l2, hsplit1, hsplit2⟩ := levelInsert_split askBefore b.asks
        o.price ⟨o.price, 0 + o.quantity, [o.order_id]⟩
      constructor
      · refine ⟨h1, levelInsert_sorted_asc b.asks o.price _ h2 hpnot,
          ?_, ?_, ?_, hkeysnd, ?_⟩
        · exact SideWF_assign b.order_map b.bids o.order_id _ hnotin_b h3
        · intro pl hpl
          rcases mem_levelInsert _ _ _ _ _ hpl with hold | hnew
          · refine LevelWF_congr b.order_map _ pl.1 pl.2 (fun i hi => by
              rw [mapLookup_assign,
                if_neg (fun he : i = o.order_id =>
                  hnotin_a pl hold (he ▸ hi))]) (h4 pl hold)
          · subst hnew
            exact LevelWF_extend b.order_map o.price ⟨o.price, 0, []⟩ o _
              ⟨rfl, rfl, List.nodup_nil,
                fun i hi => absurd hi (List.not_mem_nil _)⟩ hfresh rfl hq
        · show ((b.bids ++ levelInsert askBefore o.price
              ⟨o.price, 0 + o.quantity, [o.order_id]⟩ b.asks).map
              (fun pl => pl.2.order_queue)).Pairwise List.Disjoint
          rw [hsplit2]
          rw [hsplit1] at h5
          rw [show b.bids ++ (l1 ++ (o.price,
              (⟨o.price, 0 + o.quantity, [o.order_id]⟩ : PriceLevel)) :: l2) =
            (b.bids ++ l1) ++ (o.price,
              (⟨o.price, 0 + o.quantity, [o.order_id]⟩ : PriceLevel)) :: l2
            from (List.append_assoc _ _ _).symm]
          rw [show b.bids ++ (l1 ++ l2) = (b.bids ++ l1) ++ l2 from
            (List.append_assoc _ _ _).symm] at h5
          simp only [List.map_append, List.map_cons] at h5 ⊢
          apply pairwise_disjoint_insert _ _ _ h5
          intro q2 hq2 c hc
          have hc2 : c = o.order_id := List.mem_singleton.mp hc
          subst hc2
          rcases List.mem_append.mp hq2 with hin | hin
          · rcases List.mem_append.mp hin with hin | hin
            · obtain ⟨pl, hpl, rfl⟩ := List.mem_map.mp hin
              exact hnotin_b pl hpl
            · obtain ⟨pl, hpl, rfl⟩ := List.mem_map.mp hin
              exact hnotin_a pl (by
                rw [hsplit1]
                exact List.mem_append.mpr (Or.inl hpl))
          · obtain ⟨pl, hpl, rfl⟩ := List.mem_map.mp hin
            exact hnotin_a pl (by
              rw [hsplit1]
              exact List.mem_append.mpr (Or.inr hpl))
        · intro e' he'
          rcases mapAssign_mem _ _ _ _ he' with hold | hnew
          · obtain ⟨hoid, hopos, hopar, hoque⟩ := hent e' hold
            refine ⟨hoid, hopos, hopar, ?_⟩
            by_cases hbs : e'.2.is_buy_side = true
            · simp only [queueOf, hbs, if_true] at hoque ⊢
              exact hoque
            · simp only [queueOf, hbs, Bool.false_eq_true, if_false] at hoque ⊢
              by_cases hpe : e'.2.price = o.price
              · rw [hpe, hlook] at hoque
                simp at hoque
              · rw [levelLookup_insert_ne askBefore b.asks o.price _ _ hpe]
                exact hoque
          · subst hnew
            refine ⟨rfl, hq, rfl, ?_⟩
            simp only [queueOf]
            rw [if_neg hside]
            rw [levelLookup_insert_fresh askBefore b.asks o.price _ hlook]
            simp
      · intro pb hpb pa hpa
        rcases levelInsert_keys_mem askBefore b.asks o.price _ pa hpa with
          h | h
        · subst h
          exact hsell hsf pb hpb
        · exact hcross pb hpb pa h
    · obtain ⟨hlp, hlv, hlnd, hlmem⟩ := h4 (o.price, lvl)
        (levelLookup_mem _ _ _ hlook)
      rw [AddRestingOrder_sell_eq_replace b o lvl hsf hlook hlp]
      obtain ⟨l1, l2, hsplit1, hsplit2⟩ := levelReplace_split b.asks o.price
        lvl ⟨o.price, lvl.total_volume + o.quantity,
          lvl.order_queue ++ [o.order_id]⟩ hlook
      constructor
      · refine ⟨h1, ?_, ?_, ?_, ?_, hkeysnd, ?_⟩
        · rw [levelReplace_keys]
          exact h2
        · exact SideWF_assign b.order_map b.bids o.order_id _ hnotin_b h3
        · intro pl hpl
          rcases mem_levelReplace _ _ _ _ hpl with hold | hnew
          · refine LevelWF_congr b.order_map _ pl.1 pl.2 (fun i hi => by
              rw [mapLookup_assign,
                if_neg (fun he : i = o.order_id =>
                  hnotin_a pl hold (he ▸ hi))]) (h4 pl hold)
          · subst hnew
            exact LevelWF_extend b.order_map o.price lvl o _
              ⟨hlp, hlv, hlnd, hlmem⟩ hfresh rfl hq
        · show ((b.bids ++ levelReplace b.asks o.price
              ⟨o.price, lvl.total_volume + o.quantity,
                lvl.order_queue ++ [o.order_id]⟩).map
              (fun pl => pl.2.order_queue)).Pairwise List.Disjoint
          rw [hsplit2]
          rw [hsplit1] at h5
          rw [show b.bids ++ (l1 ++ (o.price,
              (⟨o.price, lvl.total_volume + o.quantity,
                lvl.order_queue ++ [o.order_id]⟩ : PriceLevel)) :: l2) =
            (b.bids ++ l1) ++ (o.price,
              (⟨o.price, lvl.total_volume + o.quantity,
                lvl.order_queue ++ [o.order_id]⟩ : PriceLevel)) :: l2
            from (List.append_assoc _ _ _).symm]
          rw [show b.bids ++ (l1 ++ (o.price, lvl) :: l2) =
            (b.bids ++ l1) ++ (o.price, lvl) :: l2 from
            (List.append_assoc _ _ _).symm] at h5
          simp only [List.map_append, List.map_cons] at h5 ⊢
          apply pairwise_disjoint_insert _ _ _ (pairwise_disjoint_drop _ _ _ h5)
          intro q2 hq2 c hc
          rcases List.mem_append.mp hc with hcq | hcid
          · exact pairwise_disjoint_middle _ _ _ h5 q2 hq2 c hcq
          · have hc2 : c = o.order_id := List.mem_singleton.mp hcid
            subst hc2
            rcases List.mem_append.mp hq2 with hin | hin
            · rcases List.mem_append.mp hin with hin | hin
              · obtain ⟨pl, hpl, rfl⟩ := List.mem_map.mp hin
                exact hnotin_b pl hpl
              · obtain ⟨pl, hpl, rfl⟩ := List.mem_map.mp hin
                exact hnotin_a pl (by
                  rw [hsplit1]
                  exact List.mem_append.mpr (Or.inl hpl))
            · obtain ⟨pl, hpl, rfl⟩ := List.mem_map.mp hin
              exact hnotin_a pl (by
                rw [hsplit1]
                refine List.mem_append.mpr (Or.inr ?_)
                exact List.mem_cons_of_mem _ hpl)
        · intro e' he'
          rcases mapAssign_mem _ _ _ _ he' with hold | hnew
          · obtain ⟨hoid, hopos, hopar, hoque⟩ := hent e' hold
            refine ⟨hoid, hopos, hopar, ?_⟩
            by_cases hbs : e'.2.is_buy_side = true
            · simp only [queueOf, hbs, if_true] at hoque ⊢
              exact hoque
            · simp only [queueOf, hbs, Bool.false_eq_true, if_false] at hoque ⊢
              by_cases hpe : e'.2.price = o.price
              · rw [hpe, hlook] at hoque
                rw [hpe, levelLookup_replace_self b.asks o.price lvl _ hlook]
                exact List.mem_append.mpr (Or.inl hoque)
              · rw [levelLookup_replace_ne b.asks o.price _ _ hpe]
                exact hoque
          · subst hnew
            refine ⟨rfl, hq, rfl, ?_⟩
            simp only [queueOf]
            rw [if_neg hside]
            rw [levelLookup_replace_self b.asks o.price lvl _ hlook]
            simp
      · intro pb hpb pa hpa
        have hpa2 : pa ∈ (levelReplace b.asks o.price
            ⟨o.price, lvl.total_volume + o.quantity,
              lvl.order_queue ++ [o.order_id]⟩).map Prod.fst := hpa
        rw [levelReplace_keys] at hpa2
        exact hcross pb hpb pa hpa2

/-! ## Removing a resting order preserves well-formedness -/

theorem RemoveReplace_preserves_buy (b : Book) (order_id : Nat) (o : Order)
    (lvl : PriceLevel) (hwf : WF b) (hcross : Cross b)
    (hl : mapLookup b.order_map order_id = some o)
    (hoid : o.order_id = order_id) (hbs : o.is_buy_side = true)
    (hlk : levelLookup b.bids o.price = some lvl)
    (hmemq : order_id ∈ lvl.order_queue) :
    WF { b with
        order_map := mapErase b.order_map order_id,
        bids := levelReplace b.bids o.price
          ⟨o.price, lvl.total_volume - o.quantity,
            lvl.order_queue.erase order_id⟩ } ∧
    Cross { b with
        order_map := mapErase b.order_map order_id,
        bids := levelReplace b.bids o.price
          ⟨o.price, lvl.total_volume - o.quantity,
            lvl.order_queue.erase order_id⟩ } := by
  obtain ⟨h1, h2, h3, h4, h5, hnd, hent⟩ := hwf
  obtain ⟨hlp, hlv, hlnd, hlmem⟩ := h3 (o.price, lvl)
    (levelLookup_mem _ _ _ hlk)
  obtain ⟨l1, l2, hsplit1, hsplit2⟩ := levelReplace_split b.bids o.price lvl
    ⟨o.price, lvl.total_volume - o.quantity, lvl.order_queue.erase order_id⟩
    hlk
  have hmid : ∀ q2 ∈ (l1.map (fun pl => pl.2.order_queue)) ++
      ((l2.map (fun pl => pl.2.order_queue)) ++
        (b.asks.map (fun pl => pl.2.order_queue))),
      ∀ c ∈ lvl.order_queue, c ∉ q2 := by
    have h5b := h5
    rw [hsplit1] at h5b
    simp only [List.append_assoc, List.map_append, List.map_cons] at h5b
    exact pairwise_disjoint_middle _ _ _ h5b
  have hqid : qtyOf b.order_map order_id = o.quantity := by
    rw [qtyOf, hl]
  have hnotother : ∀ pl, (pl ∈ l1 ∨ pl ∈ l2 ∨ pl ∈ b.asks) →
      order_id ∉ pl.2.order_queue := by
    intro pl hpl hin
    refine hmid pl.2.order_queue ?_ order_id hmemq hin
    rcases hpl with h | h | h
    · exact List.mem_append.mpr (Or.inl (List.mem_map.mpr ⟨pl, h, rfl⟩))
    · exact List.mem_append.mpr (Or.inr
        (List.mem_append.mpr (Or.inl (List.mem_map.mpr ⟨pl, h, rfl⟩))))
    · exact List.mem_append.mpr (Or.inr
        (List.mem_append.mpr (Or.inr (List.mem_map.mpr ⟨pl, h, rfl⟩))))
  have hcongr_other : ∀ pl, (pl ∈ l1 ∨ pl ∈ l2 ∨ pl ∈ b.asks) →
      ∀ i ∈ pl.2.order_queue,
      mapLookup (mapErase b.order_map order_id) i = mapLookup b.order_map i := by
    intro pl hpl i hi
    exact mapLookup_erase_ne _ _ _
      (fun he => hnotother pl hpl (he ▸ hi))
  have hmem_of_l1 : ∀ pl ∈ l1, pl ∈ b.bids := fun pl h => by
    rw [hsplit1]; exact List.mem_append.mpr (Or.inl h)
  have hmem_of_l2 : ∀ pl ∈ l2, pl ∈ b.bids := fun pl h => by
    rw [hsplit1]
    exact List.mem_append.mpr (Or.inr (List.mem_cons_of_mem _ h))
  constructor
  · refine ⟨?_, h2, ?_, ?_, ?_, ?_, ?_⟩
    · rw [levelReplace_keys]
      exact h1
    · intro pl hpl
      rw [hsplit2] at hpl
      rcases List.mem_append.mp hpl with hin | hin
      · exact LevelWF_congr b.order_map _ pl.1 pl.2
          (hcongr_other pl (Or.inl hin)) (h3 pl (hmem_of_l1 pl hin))
      · rcases List.mem_cons.mp hin with hin | hin
        · subst hin
          refine ⟨rfl, ?_, List.Nodup.sublist (List.erase_sublist _ _) hlnd,
            ?_⟩
          · show lvl.total_volume - o.quantity =
              qsum (mapErase b.order_map order_id)
                (lvl.order_queue.erase order_id)
            have he1 : qsum (mapErase b.order_map order_id)
                (lvl.order_queue.erase order_id) =
                qsum b.order_map (lvl.order_queue.erase order_id) :=
              qsum_congr _ _ _ (fun i hi => mapLookup_erase_ne _ _ _
                (((List.Nodup.mem_erase_iff hlnd).mp hi).1))
            have he2 := qsum_erase b.order_map lvl.order_queue order_id hmemq
            have hlv2 : lvl.total_volume = qsum b.order_map lvl.order_queue :=
              hlv
            rw [hqid] at he2
            rw [he1]
            omega
          · intro i hi
            obtain ⟨hine, hinq⟩ := (List.Nodup.mem_erase_iff hlnd).mp hi
            refine ⟨?_, ?_⟩
            · rw [mapLookup_erase_ne _ _ _ hine]
              exact (hlmem i hinq).1
            · rw [qtyOf, mapLookup_erase_ne _ _ _ hine, ← qtyOf]
              exact (hlmem i hinq).2
        · exact LevelWF_congr b.order_map _ pl.1 pl.2
            (hcongr_other pl (Or.inr (Or.inl hin))) (h3 pl (hmem_of_l2 pl hin))
    · intro pl hpl
      exact LevelWF_congr b.order_map _ pl.1 pl.2
        (hcongr_other pl (Or.inr (Or.inr hpl))) (h4 pl hpl)
    · show (((levelReplace b.bids o.price
          ⟨o.price, lvl.total_volume - o.quantity,
            lvl.order_queue.erase order_id⟩) ++ b.asks).map
          (fun pl => pl.2.order_queue)).Pairwise List.Disjoint
      rw [hsplit2]
      have h5b := h5
      rw [hsplit1] at h5b
      simp only [List.append_assoc, List.map_append, List.map_cons] at h5b ⊢
      apply pairwise_disjoint_insert _ _ _ (pairwise_disjoint_drop _ _ _ h5b)
      intro q2 hq2 c hc
      exact pairwise_disjoint_middle _ _ _ h5b q2 hq2 c
        (((List.Nodup.mem_erase_iff hlnd).mp hc).2)
    · exact (mapErase_keys_sublist _ _).nodup hnd
    · intro e' he'
      have he'm := mapErase_mem _ _ _ he'
      obtain ⟨hoid2, hopos2, hopar2, hoque2⟩ := hent e' he'm
      have hkeynd : ((mapErase b.order_map order_id).map Prod.fst).Nodup :=
        (mapErase_keys_sublist _ _).nodup hnd
      have hne : e'.1 ≠ order_id := by
        intro he
        have hsome : mapLookup (mapErase b.order_map order_id) e'.1 =
            some e'.2 := mapLookup_of_mem_nodup _ _ _ hkeynd
          (by
            have : ((e'.1, e'.2) : Nat × Order) = e' := rfl
            rw [this]
            exact he')
        rw [he, mapLookup_erase_self _ _ hnd] at hsome
        exact absurd hsome (by simp)
      refine ⟨hoid2, hopos2, hopar2, ?_⟩
      by_cases hbs2 : e'.2.is_buy_side = true
      · simp only [queueOf, hbs2, if_true] at hoque2 ⊢
        by_cases hpe : e'.2.price = o.price
        · rw [hpe, hlk] at hoque2
          rw [hpe, levelLookup_replace_self b.bids o.price lvl _ hlk]
          exact (List.Nodup.mem_erase_iff hlnd).mpr ⟨hne, hoque2⟩
        · rw [levelLookup_replace_ne b.bids o.price _ _ hpe]
          exact hoque2
      · simp only [queueOf, hbs2, Bool.false_eq_true, if_false] at hoque2 ⊢
        exact hoque2
  · intro pb hpb pa hpa
    have hpb2 : pb ∈ (levelReplace b.bids o.price
        ⟨o.price, lvl.total_volume - o.quantity,
          lvl.order_queue.erase order_id⟩).map Prod.fst := hpb
    rw [levelReplace_keys] at hpb2
    exact hcross pb hpb2 pa hpa

theorem RemoveReplace_preserves_sell (b : Book) (order_id : Nat) (o : Order)
    (lvl : PriceLevel) (hwf : WF b) (hcross : Cross b)
    (hl : mapLookup b.order_map order_id = some o)
    (hoid : o.order_id = order_id) (hbs : o.is_buy_side = false)
    (hlk : levelLookup b.asks o.price = some lvl)
    (hmemq : order_id ∈ lvl.order_queue) :
    WF { b with
        order_map := mapErase b.order_map order_id,
        asks := levelReplace b.asks o.price
          ⟨o.price, lvl.total_volume - o.quantity,
            lvl.order_queue.erase order_id⟩ } ∧
    Cross { b with
        order_map := mapErase b.order_map order_id,
        asks := levelReplace b.asks o.price
          ⟨o.price, lvl.total_volume - o.quantity,
            lvl.order_queue.erase order_id⟩ } := by
  obtain ⟨h1, h2, h3, h4, h5, hnd, hent⟩ := hwf
  obtain ⟨hlp, hlv, hlnd, hlmem⟩ := h4 (o.price, lvl)
    (levelLookup_mem _ _ _ hlk)
  obtain ⟨l1, l2, hsplit1, hsplit2⟩ := levelReplace_split b.asks o.price lvl
    ⟨o.price, lvl.total_volume - o.quantity, lvl.order_queue.erase order_id⟩
    hlk
  have h5b := h5
  rw [hsplit1] at h5b
  rw [show b.bids ++ (l1 ++ (o.price, lvl) :: l2) =
    (b.bids ++ l1) ++ (o.price, lvl) :: l2 from
    (List.append_assoc _ _ _).symm] at h5b
  simp only [List.map_append, List.map_cons] at h5b
  have hmid := pairwise_disjoint_middle _ _ _ h5b
  have hqid : qtyOf b.order_map order_id = o.quantity := by
    rw [qtyOf, hl]
  have hnotother : ∀ pl, (pl ∈ b.bids ∨ pl ∈ l1 ∨ pl ∈ l2) →
      order_id ∉ pl.2.order_queue := by
    intro pl hpl hin
    refine hmid pl.2.order_queue ?_ order_id hmemq hin
    rcases hpl with h | h | h
    · exact List.mem_append.mpr (Or.inl (List.mem_append.mpr
        (Or.inl (List.mem_map.mpr ⟨pl, h, rfl⟩))))
    · exact List.mem_append.mpr (Or.inl (List.mem_append.mpr
        (Or.inr (List.mem_map.mpr ⟨pl, h, rfl⟩))))
    · exact List.mem_append.mpr (Or.inr (List.mem_map.mpr ⟨pl, h, rfl⟩))
  have hcongr_other : ∀ pl, (pl ∈ b.bids ∨ pl ∈ l1 ∨ pl ∈ l2) →
      ∀ i ∈ pl.2.order_queue,
      mapLookup (mapErase b.order_map order_id) i = mapLookup b.order_map i := by
    intro pl hpl i hi
    exact mapLookup_erase_ne _ _ _
      (fun he => hnotother pl hpl (he ▸ hi))
  have hmem_of_l1 : ∀ pl ∈ l1, pl ∈ b.asks := fun pl h => by
    rw [hsplit1]; exact List.mem_append.mpr (Or.inl h)
  have hmem_of_l2 : ∀ pl ∈ l2, pl ∈ b.asks := fun pl h => by
    rw [hsplit1]
    exact List.mem_append.mpr (Or.inr (List.mem_cons_of_mem _ h))
  constructor
  · refine ⟨h1, ?_, ?_, ?_, ?_, ?_, ?_⟩
    · rw [levelReplace_keys]
      exact h2
    · intro pl hpl
      exact LevelWF_congr b.order_map _ pl.1 pl.2
        (hcongr_other pl (Or.inl hpl)) (h3 pl hpl)
    · intro pl hpl
      rw [hsplit2] at hpl
      rcases List.mem_append.mp hpl with hin | hin
      · exact LevelWF_congr b.order_map _ pl.1 pl.2
          (hcongr_other pl (Or.inr (Or.inl hin))) (h4 pl (hmem_of_l1 pl hin))
      · rcases List.mem_cons.mp hin with hin | hin
        · subst hin
          refine ⟨rfl, ?_, List.Nodup.sublist (List.erase_sublist _ _) hlnd,
            ?_⟩
          · show lvl.total_volume - o.quantity =
              qsum (mapErase b.order_map order_id)
                (lvl.order_queue.erase order_id)
            have he1 : qsum (mapErase b.order_map order_id)
                (lvl.order_queue.erase order_id) =
                qsum b.order_map (lvl.order_queue.erase order_id) :=
              qsum_congr _ _ _ (fun i hi => mapLookup_erase_ne _ _ _
                (((List.Nodup.mem_erase_iff hlnd).mp hi).1))
            have he2 := qsum_erase b.order_map lvl.order_queue order_id hmemq
            have hlv2 : lvl.total_volume = qsum b.order_map lvl.order_queue :=
              hlv
            rw [hqid] at he2
            rw [he1]
            omega
          · intro i hi
            obtain ⟨hine, hinq⟩ := (List.Nodup.mem_erase_iff hlnd).mp hi
            refine ⟨?_, ?_⟩
            · rw [mapLookup_erase_ne _ _ _ hine]
              exact (hlmem i hinq).1
            · rw [qtyOf, mapLookup_erase_ne _ _ _ hine, ← qtyOf]
              exact (hlmem i hinq).2
        · exact LevelWF_congr b.order_map _ pl.1 pl.2
            (hcongr_other pl (Or.inr (Or.inr hin))) (h4 pl (hmem_of_l2 pl hin))
    · show ((b.bids ++ levelReplace b.asks o.price
          ⟨o.price, lvl.total_volume - o.quantity,
            lvl.order_queue.erase order_id⟩).map
          (fun pl => pl.2.order_queue)).Pairwise List.Disjoint
      rw [hsplit2]
      rw [show b.bids ++ (l1 ++ (o.price,
          (⟨o.price, lvl.total_volume - o.quantity,
            lvl.order_queue.erase order_id⟩ : PriceLevel)) :: l2) =
        (b.bids ++ l1) ++ (o.price,
          (⟨o.price, lvl.total_volume - o.quantity,
            lvl.order_queue.erase order_id⟩ : PriceLevel)) :: l2 from
        (List.append_assoc _ _ _).symm]
      simp only [List.map_append, List.map_cons]
      apply pairwise_disjoint_insert _ _ _ (pairwise_disjoint_drop _ _ _ h5b)
      intro q2 hq2 c hc
      exact hmid q2 hq2 c (((List.Nodup.mem_erase_iff hlnd).mp hc).2)
    · exact (mapErase_keys_sublist _ _).nodup hnd
    · intro e' he'
      have he'm := mapErase_mem _ _ _ he'
      obtain ⟨hoid2, hopos2, hopar2, hoque2⟩ := hent e' he'm
      have hkeynd : ((mapErase b.order_map order_id).map Prod.fst).Nodup :=
        (mapErase_keys_sublist _ _).nodup hnd
      have hne : e'.1 ≠ order_id := by
        intro he
        have hsome : mapLookup (mapErase b.order_map order_id) e'.1 =
            some e'.2 := mapLookup_of_mem_nodup _ _ _ hkeynd
          (by
            have : ((e'.1, e'.2) : Nat × Order) = e' := rfl
            rw [this]
            exact he')
        rw [he, mapLookup_erase_self _ _ hnd] at hsome
        exact absurd hsome (by simp)
      refine ⟨hoid2, hopos2, hopar2, ?_⟩
      by_cases hbs2 : e'.2.is_buy_side = true
      · simp only [queueOf, hbs2, if_true] at hoque2 ⊢
        exact hoque2
      · simp only [queueOf, hbs2, Bool.false_eq_true, if_false] at hoque2 ⊢
        by_cases hpe : e'.2.price = o.price
        · rw [hpe, hlk] at hoque2
          rw [hpe, levelLookup_replace_self b.asks o.price lvl _ hlk]
          exact (List.Nodup.mem_erase_iff hlnd).mpr ⟨hne, hoque2⟩
        · rw [levelLookup_replace_ne b.asks o.price _ _ hpe]
          exact hoque2
  · intro pb hpb pa hpa
    have hpa2 : pa ∈ (levelReplace b.asks o.price
        ⟨o.price, lvl.total_volume - o.quantity,
          lvl.order_queue.erase order_id⟩).map Prod.fst := hpa
    rw [levelReplace_keys] at hpa2
    exact hcross pb hpb pa hpa2

theorem RemoveErase_preserves_buy (b : Book) (order_id : Nat) (o : Order)
    (lvl : PriceLevel) (hwf : WF b) (hcross : Cross b)
    (hl : mapLookup b.order_map order_id = some o)
    (hoid : o.order_id = order_id) (hbs : o.is_buy_side = true)
    (hlk : levelLookup b.bids o.price = some lvl)
    (hmemq : order_id ∈ lvl.order_queue)
    (htv0 : lvl.total_volume - o.quantity = 0) :
    WF { b with
        order_map := mapErase b.order_map order_id,
        bids := levelErase b.bids o.price } ∧
    Cross { b with
        order_map := mapErase b.order_map order_id,
        bids := levelErase b.bids o.price } := by
  obtain ⟨h1, h2, h3, h4, h5, hnd, hent⟩ := hwf
  obtain ⟨hlp, hlv, hlnd, hlmem⟩ := h3 (o.price, lvl)
    (levelLookup_mem _ _ _ hlk)
  obtain ⟨l1, l2, hsplit1, hsplit2⟩ := levelErase_split b.bids o.price lvl hlk
  have h5b := h5
  rw [hsplit1] at h5b
  simp only [List.append_assoc, List.map_append, List.map_cons] at h5b
  have hmid := pairwise_disjoint_middle _ _ _ h5b
  have hqid : qtyOf b.order_map order_id = o.quantity := by
    rw [qtyOf, hl]
  have hqerase : lvl.order_queue.erase order_id = [] := by
    apply queue_empty_of_qsum_zero b.order_map
    · intro i hi
      exact (hlmem i (((List.Nodup.mem_erase_iff hlnd).mp hi).2)).2
    · have he2 := qsum_erase b.order_map lvl.order_queue order_id hmemq
      have hlv2 : lvl.total_volume = qsum b.order_map lvl.order_queue := hlv
      rw [hqid] at he2
      omega
  have honly : ∀ i ∈ lvl.order_queue, i = order_id := by
    intro i hi
    by_contra hne
    have : i ∈ lvl.order_queue.erase order_id :=
      (List.Nodup.mem_erase_iff hlnd).mpr ⟨hne, hi⟩
    rw [hqerase] at this
    exact absurd this (List.not_mem_nil _)
  have hnotother : ∀ pl, (pl ∈ l1 ∨ pl ∈ l2 ∨ pl ∈ b.asks) →
      order_id ∉ pl.2.order_queue := by
    intro pl hpl hin
    refine hmid pl.2.order_queue ?_ order_id hmemq hin
    rcases hpl with h | h | h
    · exact List.mem_append.mpr (Or.inl (List.mem_map.mpr ⟨pl, h, rfl⟩))
    · exact List.mem_append.mpr (Or.inr
        (List.mem_append.mpr (Or.inl (List.mem_map.mpr ⟨pl, h, rfl⟩))))
    · exact List.mem_append.mpr (Or.inr
        (List.mem_append.mpr (Or.inr (List.mem_map.mpr ⟨pl, h, rfl⟩))))
  have hcongr_other : ∀ pl, (pl ∈ l1 ∨ pl ∈ l2 ∨ pl ∈ b.asks) →
      ∀ i ∈ pl.2.order_queue,
      mapLookup (mapErase b.order_map order_id) i = mapLookup b.order_map i := by
    intro pl hpl i hi
    exact mapLookup_erase_ne _ _ _
      (fun he => hnotother pl hpl (he ▸ hi))
  have hmem_of_l1 : ∀ pl ∈ l1, pl ∈ b.bids := fun pl h => by
    rw [hsplit1]; exact List.mem_append.mpr (Or.inl h)
  have hmem_of_l2 : ∀ pl ∈ l2, pl ∈ b.bids := fun pl h => by
    rw [hsplit1]
    exact List.mem_append.mpr (Or.inr (List.mem_cons_of_mem _ h))
  constructor
  · refine ⟨?_, h2, ?_, ?_, ?_, ?_, ?_⟩
    · refine List.Pairwise.sublist (List.Sublist.map Prod.fst ?_) h1
      rw [hsplit2, hsplit1]
      exact List.Sublist.append (List.Sublist.refl l1)
        (List.sublist_cons_self _ _)
    · intro pl hpl
      rw [hsplit2] at hpl
      rcases List.mem_append.mp hpl with hin | hin
      · exact LevelWF_congr b.order_map _ pl.1 pl.2
          (hcongr_other pl (Or.inl hin)) (h3 pl (hmem_of_l1 pl hin))
      · exact LevelWF_congr b.order_map _ pl.1 pl.2
          (hcongr_other pl (Or.inr (Or.inl hin))) (h3 pl (hmem_of_l2 pl hin))
    · intro pl hpl
      exact LevelWF_congr b.order_map _ pl.1 pl.2
        (hcongr_other pl (Or.inr (Or.inr hpl))) (h4 pl hpl)
    · show (((levelErase b.bids o.price) ++ b.asks).map
          (fun pl => pl.2.order_queue)).Pairwise List.Disjoint
      rw [hsplit2]
      simp only [List.append_assoc, List.map_append]
      exact pairwise_disjoint_drop _ _ _ h5b
    · exact (mapErase_keys_sublist _ _).nodup hnd
    · intro e' he'
      have he'm := mapErase_mem _ _ _ he'
      obtain ⟨hoid2, hopos2, hopar2, hoque2⟩ := hent e' he'm
      have hkeynd : ((mapErase b.order_map order_id).map Prod.fst).Nodup :=
        (mapErase_keys_sublist _ _).nodup hnd
      have hne : e'.1 ≠ order_id := by
        intro he
        have hsome : mapLookup (mapErase b.order_map order_id) e'.1 =
            some e'.2 := mapLookup_of_mem_nodup _ _ _ hkeynd
          (by
            have : ((e'.1, e'.2) : Nat × Order) = e' := rfl
            rw [this]
            exact he')
        rw [he, mapLookup_erase_self _ _ hnd] at hsome
        exact absurd hsome (by simp)
      refine ⟨hoid2, hopos2, hopar2, ?_⟩
      by_cases hbs2 : e'.2.is_buy_side = true
      · simp only [queueOf, hbs2, if_true] at hoque2 ⊢
        by_cases hpe : e'.2.price = o.price
        · rw [hpe, hlk] at hoque2
          exact absurd (honly e'.1 hoque2) hne
        · rw [levelLookup_erase_ne b.bids o.price _ hpe]
          exact hoque2
      · simp only [queueOf, hbs2, Bool.false_eq_true, if_false] at hoque2 ⊢
        exact hoque2
  · intro pb hpb pa hpa
    have hpb2 : pb ∈ b.bids.map Prod.fst :=
      List.Sublist.subset (levelErase_keys_sublist b.bids o.price) hpb
    exact hcross pb hpb2 pa hpa

theorem RemoveErase_preserves_sell (b : Book) (order_id : Nat) (o : Order)
    (lvl : PriceLevel) (hwf : WF b) (hcross : Cross b)
    (hl : mapLookup b.order_map order_id = some o)
    (hoid : o.order_id = order_id) (hbs : o.is_buy_side = false)
    (hlk : levelLookup b.asks o.price = some lvl)
    (hmemq : order_id ∈ lvl.order_queue)
    (htv0 : lvl.total_volume - o.quantity = 0) :
    WF { b with
        order_map := mapErase b.order_map order_id,
        asks := levelErase b.asks o.price } ∧
    Cross { b with
        order_map := mapErase b.order_map order_id,
        asks := levelErase b.asks o.price } := by
  obtain ⟨h1, h2, h3, h4, h5, hnd, hent⟩ := hwf
  obtain ⟨hlp, hlv, hlnd, hlmem⟩ := h4 (o.price, lvl)
    (levelLookup_mem _ _ _ hlk)
  obtain ⟨l1, l2, hsplit1, hsplit2⟩ := levelErase_split b.asks o.price lvl hlk
  have h5b := h5
  rw [hsplit1] at h5b
  rw [show b.bids ++ (l1 ++ (o.price, lvl) :: l2) =
    (b.bids ++ l1) ++ (o.price, lvl) :: l2 from
    (List.append_assoc _ _ _).symm] at h5b
  simp only [List.map_append, List.map_cons] at h5b
  have hmid := pairwise_disjoint_middle _ _ _ h5b
  have hqid : qtyOf b.order_map order_id = o.quantity := by
    rw [qtyOf, hl]
  have hqerase : lvl.order_queue.erase order_id = [] := by
    apply queue_empty_of_qsum_zero b.order_map
    · intro i hi
      exact (hlmem i (((List.Nodup.mem_erase_iff hlnd).mp hi).2)).2
    · have he2 := qsum_erase b.order_map lvl.order_queue order_id hmemq
      have hlv2 : lvl.total_volume = qsum b.order_map lvl.order_queue := hlv
      rw [hqid] at he2
      omega
  have honly : ∀ i ∈ lvl.order_queue, i = order_id := by
    intro i hi
    by_contra hne
    have : i ∈ lvl.order_queue.erase order_id :=
      (List.Nodup.mem_erase_iff hlnd).mpr ⟨hne, hi⟩
    rw [hqerase] at this
    exact absurd this (List.not_mem_nil _)
  have hnotother : ∀ pl, (pl ∈ b.bids ∨ pl ∈ l1 ∨ pl ∈ l2) →
      order_id ∉ pl.2.order_queue := by
    intro pl hpl hin
    refine hmid pl.2.order_queue ?_ order_id hmemq hin
    rcases hpl with h | h | h
    · exact List.mem_append.mpr (Or.inl (List.mem_append.mpr
        (Or.inl (List.mem_map.mpr ⟨pl, h, rfl⟩))))
    · exact List.mem_append.mpr (Or.inl (List.mem_append.mpr
        (Or.inr (List.mem_map.mpr ⟨pl, h, rfl⟩))))
    · exact List.mem_append.mpr (Or.inr (List.mem_map.mpr ⟨pl, h, rfl⟩))
  have hcongr_other : ∀ pl, (pl ∈ b.bids ∨ pl ∈ l1 ∨ pl ∈ l2) →
      ∀ i ∈ pl.2.order_queue,
      mapLookup (mapErase b.order_map order_id) i = mapLookup b.order_map i := by
    intro pl hpl i hi
    exact mapLookup_erase_ne _ _ _
      (fun he => hnotother pl hpl (he ▸ hi))
  have hmem_of_l1 : ∀ pl ∈ l1, pl ∈ b.asks := fun pl h => by
    rw [hsplit1]; exact List.mem_append.mpr (Or.inl h)
  have hmem_of_l2 : ∀ pl ∈ l2, pl ∈ b.asks := fun pl h => by
    rw [hsplit1]
    exact List.mem_append.mpr (Or.inr (List.mem_cons_of_mem _ h))
  constructor
  · refine ⟨h1, ?_, ?_, ?_, ?_, ?_, ?_⟩
    · refine List.Pairwise.sublist (List.Sublist.map Prod.fst ?_) h2
      rw [hsplit2, hsplit1]
      exact List.Sublist.append (List.Sublist.refl l1)
        (List.sublist_cons_self _ _)
    · intro pl hpl
      exact LevelWF_congr b.order_map _ pl.1 pl.2
        (hcongr_other pl (Or.inl hpl)) (h3 pl hpl)
    · intro pl hpl
      rw [hsplit2] at hpl
      rcases List.mem_append.mp hpl with hin | hin
      · exact LevelWF_congr b.order_map _ pl.1 pl.2
          (hcongr_other pl (Or.inr (Or.inl hin))) (h4 pl (hmem_of_l1 pl hin))
      · exact LevelWF_congr b.order_map _ pl.1 pl.2
          (hcongr_other pl (Or.inr (Or.inr hin))) (h4 pl (hmem_of_l2 pl hin))
    · show ((b.bids ++ levelErase b.asks o.price).map
          (fun pl => pl.2.order_queue)).Pairwise List.Disjoint
      rw [hsplit2]
      rw [show b.bids ++ (l1 ++ l2) = (b.bids ++ l1) ++ l2 from
        (List.append_assoc _ _ _).symm]
      simp only [List.map_append]
      exact pairwise_disjoint_drop _ _ _ h5b
    · exact (mapErase_keys_sublist _ _).nodup hnd
    · intro e' he'
      have he'm := mapErase_mem _ _ _ he'
      obtain ⟨hoid2, hopos2, hopar2, hoque2⟩ := hent e' he'm
      have hkeynd : ((mapErase b.order_map order_id).map Prod.fst).Nodup :=
        (mapErase_keys_sublist _ _).nodup hnd
      have hne : e'.1 ≠ order_id := by
        intro he
        have hsome : mapLookup (mapErase b.order_map order_id) e'.1 =
            some e'.2 := mapLookup_of_mem_nodup _ _ _ hkeynd
          (by
            have : ((e'.1, e'.2) : Nat × Order) = e' := rfl
            rw [this]
            exact he')
        rw [he, mapLookup_erase_self _ _ hnd] at hsome
        exact absurd hsome (by simp)
      refine ⟨hoid2, hopos2, hopar2, ?_⟩
      by_cases hbs2 : e'.2.is_buy_side = true
      · simp only [queueOf, hbs2, if_true] at hoque2 ⊢
        exact hoque2
      · simp only [queueOf, hbs2, Bool.false_eq_true, if_false] at hoque2 ⊢
        by_cases hpe : e'.2.price = o.price
        · rw [hpe, hlk] at hoque2
          exact absurd (honly e'.1 hoque2) hne
        · rw [levelLookup_erase_ne b.asks o.price _ hpe]
          exact hoque2
  · intro pb hpb pa hpa
    have hpa2 : pa ∈ b.asks.map Prod.fst :=
      List.Sublist.subset (levelErase_keys_sublist b.asks o.price) hpa
    exact hcross pb hpb pa hpa2

theorem sorted_desc_keys_nodup (l : List Nat)
    (h : l.Pairwise (fun a c => c < a)) : l.Nodup :=
  h.imp (fun hlt => (Nat.ne_of_lt hlt).symm)

theorem sorted_asc_keys_nodup (l : List Nat)
    (h : l.Pairwise (fun a c => a < c)) : l.Nodup :=
  h.imp (fun hlt => Nat.ne_of_lt hlt)

/-- Matching a fresh incoming order, then resting its residue if any, keeps
the book well formed and uncrossed. -/
theorem MatchRest_preserves (b : Book) (o : Order) (hwf : WF b)
    (hcross : Cross b) (hfresh : mapLookup b.order_map o.order_id = none) :
    WF (b.MatchOrders o).1 ∧ Cross (b.MatchOrders o).1 ∧
    mapLookup (b.MatchOrders o).1.order_map o.order_id = none ∧
    (0 < (b.MatchOrders o).2.1.quantity →
      WF ((b.MatchOrders o).1.AddRestingOrder (b.MatchOrders o).2.1) ∧
      Cross ((b.MatchOrders o).1.AddRestingOrder (b.MatchOrders o).2.1)) := by
  rw [MatchOrders_eq_spec b hwf o]
  obtain ⟨h1, h2, h3, h4, h5, hnd, hent⟩ := hwf
  have h5map := h5
  rw [List.map_append] at h5map
  obtain ⟨hbp, hap, hcd⟩ := List.pairwise_append.mp h5map
  rw [Book.SpecMatchOrders]
  by_cases hbs : o.is_buy_side = true
  · simp only [hbs, if_true]
    set W := specWalk (fun p => decide (p ≤ o.price)) b.order_map b.asks o
      b.next_execution_id with hW
    obtain ⟨w1, w2, w3, w4, w5, w6, w7, w8, w9⟩ :=
      specWalk_preserves (fun p => decide (p ≤ o.price)) b.asks b.order_map o
        b.next_execution_id h4 hap hnd
    have hsorted2 : ((W.2.1).map Prod.fst).Pairwise (fun a c => a < c) :=
      List.Pairwise.sublist w1 h2
    have hknd2 : ((W.2.1).map Prod.fst).Nodup :=
      sorted_asc_keys_nodup _ hsorted2
    have hfreshW : mapLookup W.1 o.order_id = none := by
      rcases hx : mapLookup W.1 o.order_id with _ | ox
      · rfl
      · obtain ⟨o0, ho0, _, _⟩ := w6 o.order_id ox hx
        rw [hfresh] at ho0
        exact absurd ho0 (by simp)
    have hwf2 : WF { b with
        order_map := W.1, asks := W.2.1,
        next_execution_id := W.2.2.2.1 } := by
      refine ⟨h1, hsorted2, ?_, w2, ?_, w4.nodup hnd, ?_⟩
      · intro pl hpl
        refine LevelWF_congr b.order_map _ pl.1 pl.2 (fun i hi => w5 i ?_)
          (h3 pl hpl)
        intro pl2 hpl2
        exact hcd pl.2.order_queue
          (List.mem_map.mpr ⟨pl, hpl, rfl⟩) pl2.2.order_queue
          (List.mem_map.mpr ⟨pl2, hpl2, rfl⟩) hi
      · show ((b.bids ++ W.2.1).map
            (fun pl => pl.2.order_queue)).Pairwise List.Disjoint
        rw [List.map_append]
        refine List.pairwise_append.mpr ⟨hbp, w3, ?_⟩
        intro a ha q2 hq2
        obtain ⟨plw, hplw, rfl⟩ := List.mem_map.mp hq2
        intro c hca hcq
        obtain ⟨pl0, hpl0, hkey, hc0⟩ := w8 plw hplw c hcq
        exact hcd a ha pl0.2.order_queue
          (List.mem_map.mpr ⟨pl0, hpl0, rfl⟩) hca hc0
      · intro e' he'
        have hlook2 : mapLookup W.1 e'.1 = some e'.2 :=
          mapLookup_of_mem_nodup _ _ _ (w4.nodup hnd) he'
        obtain ⟨o0, ho0, hfield, hposimp⟩ := w6 e'.1 e'.2 hlook2
        obtain ⟨ha0, hb0, hc0, hd0⟩ := hent (e'.1, o0)
          (mapLookup_mem _ _ _ ho0)
        refine ⟨?_, hposimp hb0, ?_, ?_⟩
        · rw [hfield]
          exact ha0
        · rw [hfield]
          exact hc0
        · rw [hfield]
          by_cases hbs2 : o0.is_buy_side = true
          · simp only [queueOf, hbs2, if_true] at hd0 ⊢
            exact hd0
          · simp only [queueOf, hbs2, Bool.false_eq_true, if_false] at hd0 ⊢
            rcases hlkP : levelLookup b.asks o0.price with _ | lvlP
            · rw [hlkP] at hd0
              simp at hd0
            · rw [hlkP] at hd0
              obtain ⟨lvl2, hmem2, hidin⟩ := w7 (o0.price, lvlP)
                (levelLookup_mem _ _ _ hlkP) e'.1 hd0 (by rw [hlook2]; rfl)
              rw [levelLookup_of_mem_nodup _ _ _ hknd2 hmem2]
              exact hidin
    have hcross2 : Cross { b with
        order_map := W.1, asks := W.2.1,
        next_execution_id := W.2.2.2.1 } := by
      intro pb hpb pa hpa
      exact hcross pb hpb pa (List.Sublist.subset w1 hpa)
    refine ⟨hwf2, hcross2, hfreshW, ?_⟩
    intro hpos
    obtain ⟨qq, hagg⟩ := specWalk_agg_char (fun p => decide (p ≤ o.price))
      b.asks b.order_map o b.next_execution_id
    have hfa : mapLookup W.1 (W.2.2.1).order_id = none := by
      rw [hagg]
      exact hfreshW
    refine AddRestingOrder_preserves _ _ hwf2 hcross2 hfa hpos ?_ ?_
    · intro _ pa hpa
      rcases w9 hpos with hnil | ⟨p2, lvl2, rest2, heq2, hcr2⟩
      · rw [hnil] at hpa
        simp at hpa
      · rw [heq2] at hpa
        have hple := sorted_asc_head_le W.2.1 hsorted2 pa
          (by rw [heq2]; exact hpa) p2 lvl2 rest2 heq2
        have hlt : o.price < p2 := by
          have := of_decide_eq_false hcr2
          omega
        have : (W.2.2.1).price = o.price := by rw [hagg]
        rw [this]
        omega
    · intro hf
      exfalso
      have hf2 : o.is_buy_side = false := by
        rw [hagg] at hf
        exact hf
      rw [hbs] at hf2
      exact absurd hf2 (by simp)
  · have hbsf : o.is_buy_side = false := Bool.eq_false_iff.mpr hbs
    simp only [hbsf, Bool.false_eq_true, if_false]
    set W := specWalk (fun p => decide (o.price ≤ p)) b.order_map b.bids o
      b.next_execution_id with hW
    obtain ⟨w1, w2, w3, w4, w5, w6, w7, w8, w9⟩ :=
      specWalk_preserves (fun p => decide (o.price ≤ p)) b.bids b.order_map o
        b.next_execution_id h3 hbp hnd
    have hsorted2 : ((W.2.1).map Prod.fst).Pairwise (fun a c => c < a) :=
      List.Pairwise.sublist w1 h1
    have hknd2 : ((W.2.1).map Prod.fst).Nodup :=
      sorted_desc_keys_nodup _ hsorted2
    have hfreshW : mapLookup W.1 o.order_id = none := by
      rcases hx : mapLookup W.1 o.order_id with _ | ox
      · rfl
      · obtain ⟨o0, ho0, _, _⟩ := w6 o.order_id ox hx
        rw [hfresh] at ho0
        exact absurd ho0 (by simp)
    have hwf2 : WF { b with
        order_map := W.1, bids := W.2.1,
        next_execution_id := W.2.2.2.1 } := by
      refine ⟨hsorted2, h2, w2, ?_, ?_, w4.nodup hnd, ?_⟩
      · intro pl hpl
        refine LevelWF_congr b.order_map _ pl.1 pl.2 (fun i hi => w5 i ?_)
          (h4 pl hpl)
        intro pl2 hpl2
        intro hin2
        exact hcd pl2.2.order_queue
          (List.mem_map.mpr ⟨pl2, hpl2, rfl⟩) pl.2.order_queue
          (List.mem_map.mpr ⟨pl, hpl, rfl⟩) hin2 hi
      · show ((W.2.1 ++ b.asks).map
            (fun pl => pl.2.order_queue)).Pairwise List.Disjoint
        rw [List.map_append]
        refine List.pairwise_append.mpr ⟨w3, hap, ?_⟩
        intro q2 hq2 a ha
        obtain ⟨plw, hplw, rfl⟩ := List.mem_map.mp hq2
        intro c hcq hca
        obtain ⟨pl0, hpl0, hkey, hc0⟩ := w8 plw hplw c hcq
        exact hcd pl0.2.order_queue
          (List.mem_map.mpr ⟨pl0, hpl0, rfl⟩) a ha hc0 hca
      · intro e' he'
        have hlook2 : mapLookup W.1 e'.1 = some e'.2 :=
          mapLookup_of_mem_nodup _ _ _ (w4.nodup hnd) he'
        obtain ⟨o0, ho0, hfield, hposimp⟩ := w6 e'.1 e'.2 hlook2
        obtain ⟨ha0, hb0, hc0, hd0⟩ := hent (e'.1, o0)
          (mapLookup_mem _ _ _ ho0)
        refine ⟨?_, hposimp hb0, ?_, ?_⟩
        · rw [hfield]
          exact ha0
        · rw [hfield]
          exact hc0
        · rw [hfield]
          by_cases hbs2 : o0.is_buy_side = true
          · simp only [queueOf, hbs2, if_true] at hd0 ⊢
            rcases hlkP : levelLookup b.bids o0.price with _ | lvlP
            · rw [hlkP] at hd0
              simp at hd0
            · rw [hlkP] at hd0
              obtain ⟨lvl2, hmem2, hidin⟩ := w7 (o0.price, lvlP)
                (levelLookup_mem _ _ _ hlkP) e'.1 hd0 (by rw [hlook2]; rfl)
              rw [levelLookup_of_mem_nodup _ _ _ hknd2 hmem2]
              exact hidin
          · simp only [queueOf, hbs2, Bool.false_eq_true, if_false] at hd0 ⊢
            exact hd0
    have hcross2 : Cross { b with
        order_map := W.1, bids := W.2.1,
        next_execution_id := W.2.2.2.1 } := by
      intro pb hpb pa hpa
      exact hcross pb (List.Sublist.subset w1 hpb) pa hpa
    refine ⟨hwf2, hcross2, hfreshW, ?_⟩
    intro hpos
    obtain ⟨qq, hagg⟩ := specWalk_agg_char (fun p => decide (o.price ≤ p))
      b.bids b.order_map o b.next_execution_id
    have hfa : mapLookup W.1 (W.2.2.1).order_id = none := by
      rw [hagg]
      exact hfreshW
    refine AddRestingOrder_preserves _ _ hwf2 hcross2 hfa hpos ?_ ?_
    · intro hf
      exfalso
      have hf2 : o.is_buy_side = true := by
        rw [hagg] at hf
        exact hf
      rw [hbsf] at hf2
      exact absurd hf2 (by simp)
    · intro _ pb hpb
      rcases w9 hpos with hnil | ⟨p2, lvl2, rest2, heq2, hcr2⟩
      · rw [hnil] at hpb
        simp at hpb
      · rw [heq2] at hpb
        have hpge := sorted_desc_head_ge W.2.1 hsorted2 pb
          (by rw [heq2]; exact hpb) p2 lvl2 rest2 heq2
        have hlt : p2 < o.price := by
          have := of_decide_eq_false hcr2
          omega
        have : (W.2.2.1).price = o.price := by rw [hagg]
        rw [this]
        omega

/-! ## Each public command preserves well-formedness -/

theorem AddOrderT_preserves (b : Book) (order_id user_id : Nat)
    (is_buy : Bool) (quantity price tsr tse : Nat) (hwf : WF b)
    (hcross : Cross b) :
    WF (b.AddOrderT order_id user_id is_buy quantity price tsr tse).book ∧
    Cross (b.AddOrderT order_id user_id is_buy quantity price tsr tse).book := by
  by_cases hq0 : quantity = 0
  · have hb : (b.AddOrderT order_id user_id is_buy quantity price tsr
        tse).book = b := by
      rw [Book.AddOrderT, if_pos hq0]
    rw [hb]
    exact ⟨hwf, hcross⟩
  · by_cases hex : (mapLookup b.order_map order_id).isSome
    · have hb : (b.AddOrderT order_id user_id is_buy quantity price tsr
          tse).book = b := by
        rw [Book.AddOrderT, if_neg hq0, if_pos hex]
      rw [hb]
      exact ⟨hwf, hcross⟩
    · have hfresh : mapLookup b.order_map order_id = none :=
        Option.not_isSome_iff_eq_none.mp hex
      obtain ⟨m1, m2, m3, m4⟩ := MatchRest_preserves b
        ⟨order_id, user_id, is_buy, quantity, price, tsr, tse, none⟩ hwf
        hcross hfresh
      by_cases hrest : (b.MatchOrders ⟨order_id, user_id, is_buy, quantity,
          price, tsr, tse, none⟩).2.1.quantity > 0
      · have hb : (b.AddOrderT order_id user_id is_buy quantity price tsr
            tse).book = (b.MatchOrders ⟨order_id, user_id, is_buy, quantity,
              price, tsr, tse, none⟩).1.AddRestingOrder
              (b.MatchOrders ⟨order_id, user_id, is_buy, quantity, price,
                tsr, tse, none⟩).2.1 := by
          rw [Book.AddOrderT, if_neg hq0, if_neg hex]
          simp only [hrest, if_true]
        rw [hb]
        exact m4 hrest
      · have hb : (b.AddOrderT order_id user_id is_buy quantity price tsr
            tse).book = (b.MatchOrders ⟨order_id, user_id, is_buy, quantity,
              price, tsr, tse, none⟩).1 := by
          rw [Book.AddOrderT, if_neg hq0, if_neg hex]
          simp only [hrest, if_false]
        rw [hb]
        exact ⟨m1, m2⟩

theorem AddOrder_preserves (b : Book) (order_id user_id : Nat)
    (is_buy : Bool) (quantity price now : Nat) (hwf : WF b)
    (hcross : Cross b) :
    WF (b.AddOrder order_id user_id is_buy quantity price now).book ∧
    Cross (b.AddOrder order_id user_id is_buy quantity price now).book :=
  AddOrderT_preserves b order_id user_id is_buy quantity price now now hwf
    hcross

theorem CancelOrder_preserves (b : Book) (order_id : Nat) (hwf : WF b)
    (hcross : Cross b) :
    WF (b.CancelOrder order_id).book ∧ Cross (b.CancelOrder order_id).book := by
  rcases hl : mapLookup b.order_map order_id with _ | o
  · have hb : (b.CancelOrder order_id).book = b := by
      rw [Book.CancelOrder]
      simp [hl]
    rw [hb]
    exact ⟨hwf, hcross⟩
  · obtain ⟨hoid0, hopos0, hopar0, hoque0⟩ := hwf.2.2.2.2.2.2 (order_id, o)
      (mapLookup_mem _ _ _ hl)
    have hoid : o.order_id = order_id := hoid0
    have hopar : o.parent_price_level = some o.price := hopar0
    have hoque : order_id ∈ queueOf b o := hoque0
    by_cases hbs : o.is_buy_side = true
    · rcases hlk : levelLookup b.bids o.price with _ | lvl
      · exfalso
        simp [queueOf, hbs, hlk] at hoque
      · have hlp : lvl.price = o.price :=
          (hwf.2.2.1 (o.price, lvl) (levelLookup_mem _ _ _ hlk)).1
        have hmemq : order_id ∈ lvl.order_queue := by
          simp only [queueOf, hbs, if_true, hlk] at hoque
          exact hoque
        have hb : (b.CancelOrder order_id).book =
            { b with
                order_map := mapErase b.order_map order_id,
                bids := levelReplace b.bids o.price
                  ⟨o.price, lvl.total_volume - o.quantity,
                    lvl.order_queue.erase order_id⟩ } := by
          rw [Book.CancelOrder]
          simp [hl, hopar, hbs, hlk, PriceLevel.RemoveOrder, hlp, hoid, hmemq]
        rw [hb]
        exact RemoveReplace_preserves_buy b order_id o lvl hwf hcross hl hoid
          hbs hlk hmemq
    · have hbsf : o.is_buy_side = false := Bool.eq_false_iff.mpr hbs
      rcases hlk : levelLookup b.asks o.price with _ | lvl
      · exfalso
        simp [queueOf, hbsf, hlk] at hoque
      · have hlp : lvl.price = o.price :=
          (hwf.2.2.2.1 (o.price, lvl) (levelLookup_mem _ _ _ hlk)).1
        have hmemq : order_id ∈ lvl.order_queue := by
          simp only [queueOf, hbsf, Bool.false_eq_true, if_false, hlk]
            at hoque
          exact hoque
        have hb : (b.CancelOrder order_id).book =
            { b with
                order_map := mapErase b.order_map order_id,
                asks := levelReplace b.asks o.price
                  ⟨o.price, lvl.total_volume - o.quantity,
                    lvl.order_queue.erase order_id⟩ } := by
          rw [Book.CancelOrder]
          simp [hl, hopar, hbsf, hlk, PriceLevel.RemoveOrder, hlp, hoid,
            hmemq]
        rw [hb]
        exact RemoveReplace_preserves_sell b order_id o lvl hwf hcross hl hoid
          hbsf hlk hmemq

theorem ModifyOrder_preserves (b : Book) (order_id new_quantity new_price
    now : Nat) (hwf : WF b) (hcross : Cross b) :
    WF (b.ModifyOrder order_id new_quantity new_price now).book ∧
    Cross (b.ModifyOrder order_id new_quantity new_price now).book := by
  by_cases hq0 : new_quantity = 0
  · have hb : (b.ModifyOrder order_id new_quantity new_price now).book = b := by
      rw [Book.ModifyOrder, if_pos hq0]
    rw [hb]
    exact ⟨hwf, hcross⟩
  · rcases hl : mapLookup b.order_map order_id with _ | o
    · have hb : (b.ModifyOrder order_id new_quantity new_price now).book =
          b := by
        rw [Book.ModifyOrder, if_neg hq0]
        simp [hl]
      rw [hb]
      exact ⟨hwf, hcross⟩
    · obtain ⟨hoid0, hopos0, hopar0, hoque0⟩ := hwf.2.2.2.2.2.2 (order_id, o)
        (mapLookup_mem _ _ _ hl)
      have hoid : o.order_id = order_id := hoid0
      have hopar : o.parent_price_level = some o.price := hopar0
      have hoque : order_id ∈ queueOf b o := hoque0
      have hfresh2 : mapLookup (mapErase b.order_map order_id) order_id =
          none := mapLookup_erase_self _ _ hwf.2.2.2.2.2.1
      have htail : ∀ (b2 : Book) (nts : Nat), WF b2 → Cross b2 →
          mapLookup b2.order_map order_id = none →
          WF (if (b2.MatchOrders ⟨order_id, o.user_id, o.is_buy_side,
                new_quantity, new_price, o.ts_received, nts,
                none⟩).2.1.quantity > 0
              then (b2.MatchOrders ⟨order_id, o.user_id, o.is_buy_side,
                new_quantity, new_price, o.ts_received, nts,
                none⟩).1.AddRestingOrder
                (b2.MatchOrders ⟨order_id, o.user_id, o.is_buy_side,
                  new_quantity, new_price, o.ts_received, nts, none⟩).2.1
              else (b2.MatchOrders ⟨order_id, o.user_id, o.is_buy_side,
                new_quantity, new_price, o.ts_received, nts, none⟩).1) ∧
          Cross (if (b2.MatchOrders ⟨order_id, o.user_id, o.is_buy_side,
                new_quantity, new_price, o.ts_received, nts,
                none⟩).2.1.quantity > 0
              then (b2.MatchOrders ⟨order_id, o.user_id, o.is_buy_side,
                new_quantity, new_price, o.ts_received, nts,
                none⟩).1.AddRestingOrder
                (b2.MatchOrders ⟨order_id, o.user_id, o.is_buy_side,
                  new_quantity, new_price, o.ts_received, nts, none⟩).2.1
              else (b2.MatchOrders ⟨order_id, o.user_id, o.is_buy_side,
                new_quantity, new_price, o.ts_received, nts, none⟩).1) := by
        intro b2 nts hw hc hf
        obtain ⟨m1, m2, m3, m4⟩ := MatchRest_preserves b2
          ⟨order_id, o.user_id, o.is_buy_side, new_quantity, new_price,
            o.ts_received, nts, none⟩ hw hc hf
        by_cases hrest : (b2.MatchOrders ⟨order_id, o.user_id, o.is_buy_side,
            new_quantity, new_price, o.ts_received, nts,
            none⟩).2.1.quantity > 0
        · rw [if_pos hrest]
          exact m4 hrest
        · rw [if_neg hrest]
          exact ⟨m1, m2⟩
      by_cases hbs : o.is_buy_side = true
      · rcases hlk : levelLookup b.bids o.price with _ | lvl
        · exfalso
          simp [queueOf, hbs, hlk] at hoque
        · have hlp : lvl.price = o.price :=
            (hwf.2.2.1 (o.price, lvl) (levelLookup_mem _ _ _ hlk)).1
          have hmemq : order_id ∈ lvl.order_queue := by
            simp only [queueOf, hbs, if_true, hlk] at hoque
            exact hoque
          by_cases htv : lvl.total_volume - o.quantity = 0
          · have hb : (b.ModifyOrder order_id new_quantity new_price
                now).book =
                (if (({ b with
                    order_map := mapErase b.order_map order_id,
                    bids := levelErase b.bids o.price } : Book).MatchOrders
                    ⟨order_id, o.user_id, o.is_buy_side, new_quantity,
                      new_price, o.ts_received,
                      (if new_price = o.price ∧ new_quantity ≤ o.quantity
                       then o.ts_executed else now),
                      none⟩).2.1.quantity > 0
                 then (({ b with
                    order_map := mapErase b.order_map order_id,
                    bids := levelErase b.bids o.price } : Book).MatchOrders
                    ⟨order_id, o.user_id, o.is_buy_side, new_quantity,
                      new_price, o.ts_received,
                      (if new_price = o.price ∧ new_quantity ≤ o.quantity
                       then o.ts_executed else now),
                      none⟩).1.AddRestingOrder
                    (({ b with
                      order_map := mapErase b.order_map order_id,
                      bids := levelErase b.bids o.price } : Book).MatchOrders
                      ⟨order_id, o.user_id, o.is_buy_side, new_quantity,
                        new_price, o.ts_received,
                        (if new_price = o.price ∧ new_quantity ≤ o.quantity
                         then o.ts_executed else now),
                        none⟩).2.1
                 else (({ b with
                    order_map := mapErase b.order_map order_id,
                    bids := levelErase b.bids o.price } : Book).MatchOrders
                    ⟨order_id, o.user_id, o.is_buy_side, new_quantity,
                      new_price, o.ts_received,
                      (if new_price = o.price ∧ new_quantity ≤ o.quantity
                       then o.ts_executed else now),
                      none⟩).1) := by
              rw [Book.ModifyOrder, if_neg hq0]
              simp [hl, hopar, hbs, hlk, PriceLevel.RemoveOrder, hlp, hoid,
                hmemq, htv, levelErase_replace, apply_ite CmdOut.book]
            rw [hb]
            exact htail _ _
              (RemoveErase_preserves_buy b order_id o lvl hwf hcross hl hoid
                hbs hlk hmemq htv).1
              (RemoveErase_preserves_buy b order_id o lvl hwf hcross hl hoid
                hbs hlk hmemq htv).2
              hfresh2
          · have hb : (b.ModifyOrder order_id new_quantity new_price
                now).book =
                (if (({ b with
                    order_map := mapErase b.order_map order_id,
                    bids := levelReplace b.bids o.price
                      ⟨o.price, lvl.total_volume - o.quantity,
                        lvl.order_queue.erase order_id⟩ } :
                    Book).MatchOrders
                    ⟨order_id, o.user_id, o.is_buy_side, new_quantity,
                      new_price, o.ts_received,
                      (if new_price = o.price ∧ new_quantity ≤ o.quantity
                       then o.ts_executed else now),
                      none⟩).2.1.quantity > 0
                 then (({ b with
                    order_map := mapErase b.order_map order_id,
                    bids := levelReplace b.bids o.price
                      ⟨o.price, lvl.total_volume - o.quantity,
                        lvl.order_queue.erase order_id⟩ } :
                    Book).MatchOrders
                    ⟨order_id, o.user_id, o.is_buy_side, new_quantity,
                      new_price, o.ts_received,
                      (if new_price = o.price ∧ new_quantity ≤ o.quantity
                       then o.ts_executed else now),
                      none⟩).1.AddRestingOrder
                    (({ b with
                      order_map := mapErase b.order_map order_id,
                      bids := levelReplace b.bids o.price
                        ⟨o.price, lvl.total_volume - o.quantity,
                          lvl.order_queue.erase order_id⟩ } :
                      Book).MatchOrders
                      ⟨order_id, o.user_id, o.is_buy_side, new_quantity,
                        new_price, o.ts_received,
                        (if new_price = o.price ∧ new_quantity ≤ o.quantity
                         then o.ts_executed else now),
                        none⟩).2.1
                 else (({ b with
                    order_map := mapErase b.order_map order_id,
                    bids := levelReplace b.bids o.price
                      ⟨o.price, lvl.total_volume - o.quantity,
                        lvl.order_queue.erase order_id⟩ } :
                    Book).MatchOrders
                    ⟨order_id, o.user_id, o.is_buy_side, new_quantity,
                      new_price, o.ts_received,
                      (if new_price = o.price ∧ new_quantity ≤ o.quantity
                       then o.ts_executed else now),
                      none⟩).1) := by
              rw [Book.ModifyOrder, if_neg hq0]
              simp [hl, hopar, hbs, hlk, PriceLevel.RemoveOrder, hlp, hoid,
                hmemq, htv, apply_ite CmdOut.book]
            rw [hb]
            exact htail _ _
              (RemoveReplace_preserves_buy b order_id o lvl hwf hcross hl hoid
                hbs hlk hmemq).1
              (RemoveReplace_preserves_buy b order_id o lvl hwf hcross hl hoid
                hbs hlk hmemq).2
              hfresh2
      · have hbsf : o.is_buy_side = false := Bool.eq_false_iff.mpr hbs
        rcases hlk : levelLookup b.asks o.price with _ | lvl
        · exfalso
          simp [queueOf, hbsf, hlk] at hoque
        · have hlp : lvl.price = o.price :=
            (hwf.2.2.2.1 (o.price, lvl) (levelLookup_mem _ _ _ hlk)).1
          have hmemq : order_id ∈ lvl.order_queue := by
            simp only [queueOf, hbsf, Bool.false_eq_true, if_false, hlk]
              at hoque
            exact hoque
          by_cases htv : lvl.total_volume - o.quantity = 0
          · have hb : (b.ModifyOrder order_id new_quantity new_price
                now).book =
                (if (({ b with
                    order_map := mapErase b.order_map order_id,
                    asks := levelErase b.asks o.price } : Book).MatchOrders
                    ⟨order_id, o.user_id, o.is_buy_side, new_quantity,
                      new_price, o.ts_received,
                      (if new_price = o.price ∧ new_quantity ≤ o.quantity
                       then o.ts_executed else now),
                      none⟩).2.1.quantity > 0
                 then (({ b with
                    order_map := mapErase b.order_map order_id,
                    asks := levelErase b.asks o.price } : Book).MatchOrders
                    ⟨order_id, o.user_id, o.is_buy_side, new_quantity,
                      new_price, o.ts_received,
                      (if new_price = o.price ∧ new_quantity ≤ o.quantity
                       then o.ts_executed else now),
                      none⟩).1.AddRestingOrder
                    (({ b with
                      order_map := mapErase b.order_map order_id,
                      asks := levelErase b.asks o.price } : Book).MatchOrders
                      ⟨order_id, o.user_id, o.is_buy_side, new_quantity,
                        new_price, o.ts_received,
                        (if new_price = o.price ∧ new_quantity ≤ o.quantity
                         then o.ts_executed else now),
                        none⟩).2.1
                 else (({ b with
                    order_map := mapErase b.order_map order_id,
                    asks := levelErase b.asks o.price } : Book).MatchOrders
                    ⟨order_id, o.user_id, o.is_buy_side, new_quantity,
                      new_price, o.ts_received,
                      (if new_price = o.price ∧ new_quantity ≤ o.quantity
                       then o.ts_executed else now),
                      none⟩).1) := by
              rw [Book.ModifyOrder, if_neg hq0]
              simp [hl, hopar, hbsf, hlk, PriceLevel.RemoveOrder, hlp, hoid,
                hmemq, htv, levelErase_replace, apply_ite CmdOut.book]
            rw [hb]
            exact htail _ _
              (RemoveErase_preserves_sell b order_id o lvl hwf hcross hl hoid
                hbsf hlk hmemq htv).1
              (RemoveErase_preserves_sell b order_id o lvl hwf hcross hl hoid
                hbsf hlk hmemq htv).2
              hfresh2
          · have hb : (b.ModifyOrder order_id new_quantity new_price
                now).book =
                (if (({ b with
                    order_map := mapErase b.order_map order_id,
                    asks := levelReplace b.asks o.price
                      ⟨o.price, lvl.total_volume - o.quantity,
                        lvl.order_queue.erase order_id⟩ } :
                    Book).MatchOrders
                    ⟨order_id, o.user_id, o.is_buy_side, new_quantity,
                      new_price, o.ts_received,
                      (if new_price = o.price ∧ new_quantity ≤ o.quantity
                       then o.ts_executed else now),
                      none⟩).2.1.quantity > 0
                 then (({ b with
                    order_map := mapErase b.order_map order_id,
                    asks := levelReplace b.asks o.price
                      ⟨o.price, lvl.total_volume - o.quantity,
                        lvl.order_queue.erase order_id⟩ } :
                    Book).MatchOrders
                    ⟨order_id, o.user_id, o.is_buy_side, new_quantity,
                      new_price, o.ts_received,
                      (if new_price = o.price ∧ new_quantity ≤ o.quantity
                       then o.ts_executed else now),
                      none⟩).1.AddRestingOrder
                    (({ b with
                      order_map := mapErase b.order_map order_id,
                      asks := levelReplace b.asks o.price
                        ⟨o.price, lvl.total_volume - o.quantity,
                          lvl.order_queue.erase order_id⟩ } :
                      Book).MatchOrders
                      ⟨order_id, o.user_id, o.is_buy_side, new_quantity,
                        new_price, o.ts_received,
                        (if new_price = o.price ∧ new_quantity ≤ o.quantity
                         then o.ts_executed else now),
                        none⟩).2.1
                 else (({ b with
                    order_map := mapErase b.order_map order_id,
                    asks := levelReplace b.asks o.price
                      ⟨o.price, lvl.total_volume - o.quantity,
                        lvl.order_queue.erase order_id⟩ } :
                    Book).MatchOrders
                    ⟨order_id, o.user_id, o.is_buy_side, new_quantity,
                      new_price, o.ts_received,
                      (if new_price = o.price ∧ new_quantity ≤ o.quantity
                       then o.ts_executed else now),
                      none⟩).1) := by
              rw [Book.ModifyOrder, if_neg hq0]
              simp [hl, hopar, hbsf, hlk, PriceLevel.RemoveOrder, hlp, hoid,
                hmemq, htv, apply_ite CmdOut.book]
            rw [hb]
            exact htail _ _
              (RemoveReplace_preserves_sell b order_id o lvl hwf hcross hl
                hoid hbsf hlk hmemq).1
              (RemoveReplace_preserves_sell b order_id o lvl hwf hcross hl
                hoid hbsf hlk hmemq).2
              hfresh2

/-- Every book reachable from the empty engine by the public commands is well
formed and its resting sides never cross. -/
theorem Reachable_WF_Cross (b : Book) (h : Reachable b) : WF b ∧ Cross b := by
  induction h with
  | empty => exact ⟨by decide, by decide⟩
  | add b0 order_id user_id is_buy quantity price now hr ih =>
    exact AddOrder_preserves b0 order_id user_id is_buy quantity price now
      ih.1 ih.2
  | addT b0 order_id user_id is_buy quantity price tsr tse hr ih =>
    exact AddOrderT_preserves b0 order_id user_id is_buy quantity price tsr
      tse ih.1 ih.2
  | cancel b0 order_id hr ih =>
    exact CancelOrder_preserves b0 order_id ih.1 ih.2
  | modify b0 order_id nq np now hr ih =>
    exact ModifyOrder_preserves b0 order_id nq np now ih.1 ih.2

/-- C7: after every command sequence from the empty book (Add in both
overloads, Cancel and Modify), whenever both side books are non-empty the
best bid price is strictly below the best ask price — the resting book never
crosses. -/
theorem C7_book_never_crosses (b : Book) (hr : Reachable b)
    (hb : b.bids ≠ []) (ha : b.asks ≠ []) :
    b.GetBestBid < b.GetBestAsk := by
  obtain ⟨-, hcross⟩ := Reachable_WF_Cross b hr
  rcases hbid : b.bids with _ | ⟨⟨pb, lb⟩, restb⟩
  · exact absurd hbid hb
  rcases hask : b.asks with _ | ⟨⟨pa, la⟩, resta⟩
  · exact absurd hask ha
  have h1 : b.GetBestBid = pb := by rw [Book.GetBestBid, hbid]
  have h2 : b.GetBestAsk = pa := by rw [Book.GetBestAsk, hask]
  rw [h1, h2]
  exact hcross pb (by rw [hbid]; simp) pa (by rw [hask]; simp)

/-- Witness for C7: two resting orders on a concrete reachable book — a bid
at 100 and an ask at 105 — and the best prices compare as claimed. -/
theorem C7_book_never_crosses_witness :
    ((Book.empty.AddOrder 1 10 true 5 100 0).book.AddOrder 2 11 false 5 105
      1).book.GetBestBid <
    ((Book.empty.AddOrder 1 10 true 5 100 0).book.AddOrder 2 11 false 5 105
      1).book.GetBestAsk :=
  C7_book_never_crosses _
    (Reachable.add _ 2 11 false 5 105 1
      (Reachable.add _ 1 10 true 5 100 0 Reachable.empty))
    (by decide) (by decide)

/-- C8: on every reachable book, every entry of the order index carries a
non-null back-link equal to its own price, and the price level at that price
on its own side currently holds the order id in its queue. -/
theorem C8_back_links_valid (b : Book) (hr : Reachable b) :
    ∀ e ∈ b.order_map, e.2.parent_price_level = some e.2.price ∧
      e.1 ∈ queueOf b e.2 := by
  obtain ⟨hwf, -⟩ := Reachable_WF_Cross b hr
  intro e he
  obtain ⟨-, -, h3, h4⟩ := hwf.2.2.2.2.2.2 e he
  exact ⟨h3, h4⟩

/-- Witness for C8: after one Add on the empty book the index holds exactly
the rested order, whose back-link is `some 100` and which sits in the queue
of the bid level at 100. -/
theorem C8_back_links_valid_witness :
    (Book.empty.AddOrder 7 1 true 10 100 0).book.order_map =
      [(7, ⟨7, 1, true, 10, 100, 0, 0, some 100⟩)] ∧
    ((⟨7, 1, true, 10, 100, 0, 0, some 100⟩ : Order).parent_price_level =
      some (⟨7, 1, true, 10, 100, 0, 0, some 100⟩ : Order).price ∧
      7 ∈ queueOf (Book.empty.AddOrder 7 1 true 10 100 0).book
        ⟨7, 1, true, 10, 100, 0, 0, some 100⟩) :=
  ⟨by decide,
    C8_back_links_valid _ (Reachable.add _ 7 1 true 10 100 0 Reachable.empty)
      (7, ⟨7, 1, true, 10, 100, 0, 0, some 100⟩) (by decide)⟩

end OB
